import Mathlib

/-!
# Declarator resolution of `translator/ast.go`

A shallow embedding of the tree walker in `translator/ast.go` (package
`translator` of cgogen) together with theorems about it.

* The parse tree (Go package `cc`) is an external input.  Every Go node struct
  with a `Case` discriminant is an inductive type with one constructor per
  case; the constructor carries the children that production has.  A Go
  pointer that may be `nil` is an `Option`; the `XOpt` wrapper nodes of the
  grammar are represented by `Option X`.  Linked lists keep their Go shape: a
  node and an optional next node.
* Go run-time panics (nil dereference, failed type assertion) are the
  `Except.error` results of the walkers.
* `log` output (`unmanagedCaseWarn`, the "EMPTY declaration" line) changes no
  value the walkers compute and is not part of the state.
-/

namespace cc

/-- Token of the parse tree: `Token.Pos()` and `Token.S()`. -/
structure Token where
  Pos : Nat
  S : String
deriving DecidableEq, Repr

/-- Expression subtree.  The walkers hand it to the expression evaluator and
never look inside. -/
structure AssignmentExpression where
  Token : Token
deriving DecidableEq, Repr

/-- Pointer node: `'*' TypeQualifierListOpt` (Case 0, no next) or
`'*' TypeQualifierListOpt Pointer` (Case 1). -/
inductive Pointer where
  | mk (Pointer : Option Pointer)
deriving Repr

/-- StructOrUnion keyword: Case 0 is "struct", Case 1 is "union". -/
inductive StructOrUnion where
  | Struct
  | Union
deriving DecidableEq, Repr

/-- TypeQualifier keyword: Case 0 "const", Case 1 "restrict", Case 2 "volatile". -/
inductive TypeQualifier where
  | Const
  | Restrict
  | Volatile
deriving DecidableEq, Repr

/-- Case number of a type qualifier. -/
def TypeQualifier.Case : TypeQualifier → Nat
  | .Const => 0
  | .Restrict => 1
  | .Volatile => 2

/-- Initializer: Case 0 `AssignmentExpression`, Case 1 `'{' InitializerList '}'`,
Case 2 `'{' InitializerList ',' '}'`. -/
inductive Initializer where
  | expr (AssignmentExpression : AssignmentExpression)
  | list (Token : Token)
  | listComma (Token : Token)
deriving Repr

mutual

/-- DirectDeclarator, Cases 0 to 6. -/
inductive DirectDeclarator where
  /-- Case 0: `IDENTIFIER`. -/
  | ident (Token : Token)
  /-- Case 1: `'(' Declarator ')'`. -/
  | paren (Token : Token) (Declarator : Declarator)
  /-- Case 2: `DirectDeclarator '[' TypeQualifierListOpt AssignmentExpressionOpt ']'`. -/
  | array (Token : Token) (DirectDeclarator : DirectDeclarator)
      (AssignmentExpressionOpt : Option AssignmentExpression)
  /-- Case 3: `DirectDeclarator '[' "static" TypeQualifierListOpt AssignmentExpression ']'`. -/
  | arrayStatic (Token : Token) (DirectDeclarator : DirectDeclarator)
      (AssignmentExpression : AssignmentExpression)
  /-- Case 4: `DirectDeclarator '[' TypeQualifierList "static" AssignmentExpression ']'`. -/
  | arrayQualStatic (Token : Token) (DirectDeclarator : DirectDeclarator)
      (AssignmentExpression : AssignmentExpression)
  /-- Case 5: `DirectDeclarator '[' TypeQualifierListOpt '*' ']'`. -/
  | arrayStar (Token : Token) (DirectDeclarator : DirectDeclarator)
  /-- Case 6: `DirectDeclarator '(' DirectDeclarator2`. -/
  | func (Token : Token) (DirectDeclarator : DirectDeclarator)
      (DirectDeclarator2 : DirectDeclarator2)

/-- Declarator: `PointerOpt DirectDeclarator`. -/
inductive Declarator where
  | mk (PointerOpt : Option Pointer) (DirectDeclarator : DirectDeclarator)

/-- DirectDeclarator2: what follows the `'('` of a function suffix. -/
inductive DirectDeclarator2 where
  /-- Case 0: `ParameterTypeList ')'`; the list is `ParameterTypeList.ParameterList`. -/
  | params (Token : Token) (ParameterList : ParameterList)
  /-- Case 1: `IdentifierListOpt ')'`. -/
  | identifiers (Token : Token)

/-- ParameterList: one parameter declaration and the rest of the list. -/
inductive ParameterList where
  | mk (Token : Token) (ParameterDeclaration : ParameterDeclaration)
      (ParameterList : Option ParameterList)

/-- ParameterDeclaration, Cases 0 and 1. -/
inductive ParameterDeclaration where
  /-- Case 0: `DeclarationSpecifiers Declarator`. -/
  | declarator (DeclarationSpecifiers : DeclarationSpecifiers) (Declarator : Declarator)
  /-- Case 1: `DeclarationSpecifiers AbstractDeclaratorOpt`. -/
  | abstract (DeclarationSpecifiers : DeclarationSpecifiers)

/-- DeclarationSpecifiers, Cases 0 to 3, each followed by `DeclarationSpecifiersOpt`. -/
inductive DeclarationSpecifiers where
  /-- Case 0: `StorageClassSpecifier DeclarationSpecifiersOpt`. -/
  | storageClass (DeclarationSpecifiersOpt : Option DeclarationSpecifiers)
  /-- Case 1: `TypeSpecifier DeclarationSpecifiersOpt`. -/
  | typeSpecifier (TypeSpecifier : TypeSpecifier)
      (DeclarationSpecifiersOpt : Option DeclarationSpecifiers)
  /-- Case 2: `TypeQualifier DeclarationSpecifiersOpt`. -/
  | typeQualifier (TypeQualifier : TypeQualifier)
      (DeclarationSpecifiersOpt : Option DeclarationSpecifiers)
  /-- Case 3: `FunctionSpecifier DeclarationSpecifiersOpt`. -/
  | functionSpecifier (Token : Token)
      (DeclarationSpecifiersOpt : Option DeclarationSpecifiers)

/-- TypeSpecifier, Cases 0 to 13. -/
inductive TypeSpecifier where
  | void
  | char
  | short
  | int
  | long
  | float
  | double
  | signed
  | unsigned
  | bool
  | complex
  /-- Case 11: `StructOrUnionSpecifier`. -/
  | structOrUnion (StructOrUnionSpecifier : StructOrUnionSpecifier)
  /-- Case 12: `EnumSpecifier`. -/
  | enum
  /-- Case 13: `TYPEDEFNAME`. -/
  | typedefName (Token : Token)

/-- StructOrUnionSpecifier, Cases 0 and 1. -/
inductive StructOrUnionSpecifier where
  /-- Case 0: `StructOrUnionSpecifier0 '{' StructDeclarationList '}'`, where
  `StructOrUnionSpecifier0` is `StructOrUnion IdentifierOpt`. -/
  | withMembers (StructOrUnion : StructOrUnion) (IdentifierOpt : Option Token)
      (StructDeclarationList : StructDeclarationList)
  /-- Case 1: `StructOrUnion IDENTIFIER`. -/
  | reference (StructOrUnion : StructOrUnion) (Token : Token)

/-- StructDeclarationList: one member declaration and the rest of the list. -/
inductive StructDeclarationList where
  | mk (StructDeclaration : StructDeclaration)
      (StructDeclarationList : Option StructDeclarationList)

/-- StructDeclaration: `SpecifierQualifierList StructDeclaratorListOpt ';'`. -/
inductive StructDeclaration where
  | mk (SpecifierQualifierList : SpecifierQualifierList)
      (StructDeclaratorListOpt : Option StructDeclaratorList)

/-- SpecifierQualifierList, Cases 0 and 1, each followed by
`SpecifierQualifierListOpt`. -/
inductive SpecifierQualifierList where
  /-- Case 0: `TypeSpecifier SpecifierQualifierListOpt`. -/
  | typeSpecifier (TypeSpecifier : TypeSpecifier)
      (SpecifierQualifierListOpt : Option SpecifierQualifierList)
  /-- Case 1: `TypeQualifier SpecifierQualifierListOpt`. -/
  | typeQualifier (TypeQualifier : TypeQualifier)
      (SpecifierQualifierListOpt : Option SpecifierQualifierList)

/-- StructDeclaratorList: one member declarator and the rest of the list. -/
inductive StructDeclaratorList where
  | mk (StructDeclarator : StructDeclarator)
      (StructDeclaratorList : Option StructDeclaratorList)

/-- StructDeclarator, Cases 0 and 1. -/
inductive StructDeclarator where
  /-- Case 0: `Declarator`. -/
  | declarator (Declarator : Declarator)
  /-- Case 1: `DeclaratorOpt ':' ConstantExpression` (a bit-field). -/
  | bitField (Token : Token) (DeclaratorOpt : Option Declarator)

end

/-- The `PointerOpt` child of a declarator. -/
def Declarator.PointerOpt : Declarator → Option Pointer
  | .mk popt _ => popt

/-- The `DirectDeclarator` child of a declarator. -/
def Declarator.DirectDeclarator : Declarator → DirectDeclarator
  | .mk _ dd => dd

/-- The `Token` of a direct declarator (every case has one). -/
def DirectDeclarator.Token : DirectDeclarator → Token
  | .ident tok => tok
  | .paren tok _ => tok
  | .array tok _ _ => tok
  | .arrayStatic tok _ _ => tok
  | .arrayQualStatic tok _ _ => tok
  | .arrayStar tok _ => tok
  | .func tok _ _ => tok

/-- InitDeclarator, Cases 0 and 1. -/
inductive InitDeclarator where
  /-- Case 0: `Declarator`. -/
  | declarator (Declarator : Declarator)
  /-- Case 1: `Declarator '=' Initializer`. -/
  | init (Declarator : Declarator) (Initializer : Initializer)

/-- The declarator of an init-declarator (present in both cases). -/
def InitDeclarator.Declarator : InitDeclarator → Declarator
  | .declarator d => d
  | .init d _ => d

/-- InitDeclaratorList: one init-declarator and the rest of the list. -/
inductive InitDeclaratorList where
  | mk (InitDeclarator : InitDeclarator) (InitDeclaratorList : Option InitDeclaratorList)

/-- Declaration: `DeclarationSpecifiers InitDeclaratorListOpt ';'`. -/
structure Declaration where
  DeclarationSpecifiers : DeclarationSpecifiers
  InitDeclaratorListOpt : Option InitDeclaratorList

/-- ExternalDeclaration: Case 0 `FunctionDefinition`, Case 1 `Declaration`. -/
inductive ExternalDeclaration where
  | functionDefinition
  | declaration (Declaration : Declaration)

/-- The `Declaration` field: `nil` unless the node is a declaration. -/
def ExternalDeclaration.Declaration : ExternalDeclaration → Option Declaration
  | .functionDefinition => none
  | .declaration d => some d

/-- TranslationUnit: the external declaration of this unit and the next unit. -/
inductive TranslationUnit where
  | mk (ExternalDeclaration : Option ExternalDeclaration)
      (TranslationUnit : Option TranslationUnit)

end cc

namespace translator

/-- Go run-time panics the walkers can raise. -/
inductive Panic where
  | nilDereference
  | typeAssertion
deriving DecidableEq, Repr

/-- Go `Value`: an interface value, `none` being the nil interface (no
evaluated initializer).  The walkers only move values around. -/
abbrev Value := Option Int

/-- Scalar or named type descriptor (`CTypeSpec`): the fields `ast.go` writes. -/
structure CTypeSpec where
  Base : String := ""
  Const : Bool := false
  Unsigned : Bool := false
  Short : Bool := false
  Long : Bool := false
deriving DecidableEq, Repr

/-- Modelled from the spec: the struct declaration of `CDecl` is not in
`ast.go`.  A Declaration Node has a type descriptor, a name, a constant
value, an initializer text, a source position, a pointer depth and an ordered
sequence of array dimensions; the last two are only reached through
`SetPointers` and `AddArray`.  The parameter `T` is the descriptor type. -/
structure CDeclOf (T : Type) where
  Spec : T
  Name : String := ""
  Value : Value := none
  Expression : String := ""
  Pos : Nat := 0
  Pointers : Nat := 0
  Arrays : List String := []
deriving Repr

/-- Aggregate descriptor (`CStructSpec`): tag, union flag and members. -/
structure CStructSpecOf (T : Type) where
  Tag : String := ""
  Union : Bool := false
  Members : List (CDeclOf T) := []
deriving Repr

/-- Function descriptor (`CFunctionSpec`): return-type node and parameters. -/
structure CFunctionSpecOf (T : Type) where
  Returns : CDeclOf T
  ParamList : List (CDeclOf T) := []
deriving Repr

/-- The descriptor interface `CType` with its three implementations. -/
inductive CType where
  | typeSpec (spec : CTypeSpec)
  | structSpec (spec : CStructSpecOf CType)
  | functionSpec (spec : CFunctionSpecOf CType)

abbrev CDecl := CDeclOf CType
abbrev CStructSpec := CStructSpecOf CType
abbrev CFunctionSpec := CFunctionSpecOf CType

/-- Modelled from the spec: `CType.Copy` is not in `ast.go`; it returns a
value-equal, independently owned descriptor.  Values are immutable here, so
the copy is the value itself. -/
def CType.Copy (spec : CType) : CType := spec

/-- Modelled from the spec: `CDecl.SetPointers` is not in `ast.go`; it stores
its `uint8` argument as the pointer depth of the node. -/
def CDeclOf.SetPointers {T : Type} (decl : CDeclOf T) (n : Nat) : CDeclOf T :=
  { decl with Pointers := n % 256 }

/-- Modelled from the spec: `CDecl.AddArray` is not in `ast.go`; it appends a
dimension to the array dimensions of the node. -/
def CDeclOf.AddArray {T : Type} (decl : CDeclOf T) (val : String) : CDeclOf T :=
  { decl with Arrays := decl.Arrays ++ [val] }

/-- Modelled from the spec: the methods `EvalAssignmentExpression` and
`ExpandAssignmentExpression` of the receiver `t *Translator` are not in
`ast.go`.  The Expression Evaluator, given an expression node (a Go pointer,
possibly nil), returns a literal value and a textual rendering. -/
structure Translator where
  EvalAssignmentExpression : Option cc.AssignmentExpression → Value
  ExpandAssignmentExpression : Option cc.AssignmentExpression → String

/-- The symbol table `t.valueMap` (a Go map from names to values), the one
mutable field of the receiver; it is passed explicitly. -/
abbrev ValueMap := String → Option Value

/-- Go map assignment `valueMap[k] = v`. -/
def ValueMap.set (m : ValueMap) (k : String) (v : Value) : ValueMap :=
  fun x => if x = k then some v else m x

/-- The counting loop of `walkPointers`, standing at a pointer node with the
`uint8` counter `pointers`: while the node has a next one, step and increment. -/
def walkPointers.loop : cc.Pointer → Nat → Nat
  | .mk none, pointers => pointers
  | .mk (some nextPointer), pointers => walkPointers.loop nextPointer ((pointers + 1) % 256)
termination_by structural x _ => x

/-- Embedding of `walkPointers`: nothing for a nil `popt`, otherwise the
counter starts at `uint8(1)` on `popt.Pointer` and the count is stored. -/
def walkPointers (popt : Option cc.Pointer) (decl : CDecl) : CDecl :=
  match popt with
  | none => decl
  | some pointer => decl.SetPointers (walkPointers.loop pointer 1)

/-- Embedding of `walkSUSpecifier0`. -/
def walkSUSpecifier0 (su : cc.StructOrUnion) (IdentifierOpt : Option cc.Token)
    (decl : CDecl) : Except Panic CDecl :=
  let decl : CDecl :=
    match su with
    | .Struct => { decl with Spec := .structSpec {} }
    | .Union => { decl with Spec := .structSpec { Union := true } }
  match IdentifierOpt with
  | none => .ok decl
  | some tok =>
    match decl.Spec with
    | .structSpec s => .ok { decl with Spec := .structSpec { s with Tag := tok.S } }
    | _ => .error .typeAssertion

/-- A type-qualifier step (Case 2 of `walkDeclarationSpec`, Case 1 of
`walkSpecifierQualifierList`): `spec.Const = (TypeQualifier.Case == 0)` when
the descriptor is a `*CTypeSpec`, nothing otherwise. -/
def setConst (q : cc.TypeQualifier) (decl : CDecl) : CDecl :=
  match decl.Spec with
  | .typeSpec spec => { decl with Spec := .typeSpec { spec with Const := (q.Case == 0) } }
  | _ => decl

/-- The scalar cases of the `switch` in `walkTypeSpec` (all but Case 11). -/
def walkTypeSpec.scalar (typeSpec : cc.TypeSpecifier) (spec : CTypeSpec) : CTypeSpec :=
  match typeSpec with
  | .void => { spec with Base := "void" }
  | .char => { spec with Base := "char" }
  | .short => { spec with Short := true }
  | .int => { spec with Base := "int" }
  | .long => if spec.Long then { spec with Base := "long" } else { spec with Long := true }
  | .float => { spec with Base := "float" }
  | .double => { spec with Base := "double" }
  | .signed => spec
  | .unsigned => { spec with Unsigned := true }
  | .bool => { spec with Base := "_Bool" }
  | .complex => { spec with Base := "_Complex" }
  | .structOrUnion _ => spec -- Case 11 is `walkSUSpecifier`, see `walkTypeSpec`
  | .enum => spec
  | .typedefName tok => { spec with Base := tok.S }

/-- The array cases 2 to 5 of `walkDirectDeclarator`: the size expression is
`AssignmentExpression`, replaced by the one of `AssignmentExpressionOpt` when
that is present; its expansion is added as a dimension. -/
def addDimension (t : Translator) (AssignmentExpression : Option cc.AssignmentExpression)
    (AssignmentExpressionOpt : Option cc.AssignmentExpression) (decl : CDecl) : CDecl :=
  let assignmentExpr :=
    match AssignmentExpressionOpt with
    | some e => some e
    | none => AssignmentExpression
  decl.AddArray (t.ExpandAssignmentExpression assignmentExpr)

/-- The function case 6 of `walkDirectDeclarator` before the parameters are
walked: the descriptor becomes a `CFunctionSpec` whose `Returns` node carries
the previous descriptor and the position. -/
def wrapFunction (decl : CDecl) : CDecl :=
  { decl with Spec := .functionSpec { Returns := { Spec := decl.Spec, Pos := decl.Pos } } }

mutual

/-- The loop `for next != nil { next = t.walkDirectDeclarator(next, decl) }`
entered at a direct declarator: each clause does what `walkDirectDeclarator`
does for that Case and goes on with the `next` it returns
(`walkDirectDeclaratorLoop_eq` states this against `walkDirectDeclarator`). -/
def walkDirectDeclaratorLoop (t : Translator) :
    cc.DirectDeclarator → CDecl → Except Panic CDecl
  | .ident tok, decl => .ok { decl with Pos := tok.Pos, Name := tok.S }
  | .paren tok (.mk popt dd), decl =>
    walkDirectDeclaratorLoop t dd (walkPointers popt { decl with Pos := tok.Pos })
  | .array tok dd aeOpt, decl =>
    walkDirectDeclaratorLoop t dd (addDimension t none aeOpt { decl with Pos := tok.Pos })
  | .arrayStatic tok dd ae, decl =>
    walkDirectDeclaratorLoop t dd (addDimension t (some ae) none { decl with Pos := tok.Pos })
  | .arrayQualStatic tok dd ae, decl =>
    walkDirectDeclaratorLoop t dd (addDimension t (some ae) none { decl with Pos := tok.Pos })
  | .arrayStar tok dd, decl =>
    walkDirectDeclaratorLoop t dd (addDimension t none none { decl with Pos := tok.Pos })
  | .func tok dd dd2, decl => do
    let decl ← walkDirectDeclarator2 t dd2 (wrapFunction { decl with Pos := tok.Pos })
    walkDirectDeclaratorLoop t dd decl
termination_by structural x _ => x

/-- Embedding of `walkDirectDeclarator2`. -/
def walkDirectDeclarator2 (t : Translator) :
    cc.DirectDeclarator2 → CDecl → Except Panic CDecl
  | .params _ list, decl =>
    match decl.Spec with
    | .functionSpec spec => do
      let spec ← walkParameterListLoop t list spec
      .ok { decl with Spec := .functionSpec spec }
    | _ => .error .typeAssertion
  | .identifiers _, decl => .ok decl
termination_by structural x _ => x

/-- The parameter loop of `walkDirectDeclarator2`: walk one list node, append
the parameter it yields (if any) to `spec.ParamList`, go on with the next
list node while there is one. -/
def walkParameterListLoop (t : Translator) :
    cc.ParameterList → CFunctionSpec → Except Panic CFunctionSpec
  | .mk _ declr next, spec => do
    let paramDecl ← walkParameterDeclaration t declr
    let spec : CFunctionSpec :=
      match paramDecl with
      | some p => { spec with ParamList := spec.ParamList ++ [p] }
      | none => spec
    match next with
    | none => .ok spec
    | some nextList => walkParameterListLoop t nextList spec
termination_by structural x _ => x

/-- The `switch declr.Case` of `walkParameterList` on the parameter
declaration of a list node; `none` is the nil `decl` of Case 1. -/
def walkParameterDeclaration (t : Translator) :
    cc.ParameterDeclaration → Except Panic (Option CDecl)
  | .declarator specifiers (.mk popt dd) => do
    let decl ← walkDeclarationSpecLoop t specifiers { Spec := .typeSpec {} }
    let decl ← walkDirectDeclaratorLoop t dd (walkPointers popt decl)
    .ok (some decl)
  | .abstract _ => .ok none
termination_by structural x => x

/-- The loop `next := walkDeclarationSpec(specs, decl); for next != nil
{ next = walkDeclarationSpec(next, decl) }`: each clause does what
`walkDeclarationSpec` does for that Case and goes on with the `next` it
returns (`walkDeclarationSpecLoop_eq`). -/
def walkDeclarationSpecLoop (t : Translator) :
    cc.DeclarationSpecifiers → CDecl → Except Panic CDecl
  | .storageClass none, _ => .error .nilDereference
  | .storageClass (some next), decl => walkDeclarationSpecLoop t next decl
  | .typeSpecifier typeSpec none, decl => walkTypeSpec t typeSpec decl
  | .typeSpecifier typeSpec (some next), decl => do
    let decl ← walkTypeSpec t typeSpec decl
    walkDeclarationSpecLoop t next decl
  | .typeQualifier q none, decl => .ok (setConst q decl)
  | .typeQualifier q (some next), decl => walkDeclarationSpecLoop t next (setConst q decl)
  | .functionSpecifier _ _, decl => .ok decl
termination_by structural x _ => x

/-- Embedding of `walkTypeSpec` on a non-nil type specifier (both callers pass
the `TypeSpecifier` child of a production that has one). -/
def walkTypeSpec (t : Translator) : cc.TypeSpecifier → CDecl → Except Panic CDecl
  | .structOrUnion suSpec, decl =>
    match decl.Spec with
    | .typeSpec _ => walkSUSpecifier t suSpec decl
    | _ => .error .typeAssertion
  | typeSpec, decl =>
    match decl.Spec with
    | .typeSpec spec => .ok { decl with Spec := .typeSpec (walkTypeSpec.scalar typeSpec spec) }
    | _ => .error .typeAssertion
termination_by structural x _ => x

/-- Embedding of `walkSUSpecifier`. -/
def walkSUSpecifier (t : Translator) :
    cc.StructOrUnionSpecifier → CDecl → Except Panic CDecl
  | .withMembers su identOpt list, decl => do
    let decl ← walkSUSpecifier0 su identOpt decl
    match decl.Spec with
    | .structSpec structSpec => do
      let structSpec ← walkStructDeclarationListLoop t list structSpec
      .ok { decl with Spec := .structSpec structSpec }
    | _ => .error .typeAssertion
  | .reference .Struct _, decl => .ok { decl with Spec := .structSpec {} }
  | .reference .Union _, decl => .ok { decl with Spec := .structSpec { Union := true } }
termination_by structural x _ => x

/-- The member loop of `walkSUSpecifier`: append the declarations of one
member declaration to `structSpec.Members`, go on with the next list node. -/
def walkStructDeclarationListLoop (t : Translator) :
    cc.StructDeclarationList → CStructSpec → Except Panic CStructSpec
  | .mk declr next, structSpec => do
    let declarations ← walkStructDeclaration t declr
    let structSpec : CStructSpec :=
      { structSpec with Members := structSpec.Members ++ declarations }
    match next with
    | none => .ok structSpec
    | some nextList => walkStructDeclarationListLoop t nextList structSpec
termination_by structural x _ => x

/-- Embedding of `walkStructDeclaration`. -/
def walkStructDeclaration (t : Translator) :
    cc.StructDeclaration → Except Panic (List CDecl)
  | .mk specifiers declaratorListOpt => do
    let refDecl ← walkSpecifierQualifierListLoop t specifiers { Spec := .typeSpec {} }
    match declaratorListOpt with
    | none => .error .nilDereference
    | some list => walkStructDeclaratorListLoop t refDecl list []
termination_by structural x => x

/-- The loop `for nextList != nil { nextList = walkSpecifierQualifierList(nextList, refDecl) }`
entered at a list node (`walkSpecifierQualifierListLoop_eq`). -/
def walkSpecifierQualifierListLoop (t : Translator) :
    cc.SpecifierQualifierList → CDecl → Except Panic CDecl
  | .typeSpecifier typeSpec none, decl => walkTypeSpec t typeSpec decl
  | .typeSpecifier typeSpec (some next), decl => do
    let decl ← walkTypeSpec t typeSpec decl
    walkSpecifierQualifierListLoop t next decl
  | .typeQualifier q none, decl => .ok (setConst q decl)
  | .typeQualifier q (some next), decl =>
    walkSpecifierQualifierListLoop t next (setConst q decl)
termination_by structural x _ => x

/-- The declarator loop of `walkStructDeclaration`: a fresh node with a copy
of the reference descriptor is walked by `walkStructDeclarator` and appended
to `declarations`, for every node of the list. -/
def walkStructDeclaratorListLoop (t : Translator) (refDecl : CDecl) :
    cc.StructDeclaratorList → List CDecl → Except Panic (List CDecl)
  | .mk declarator next, declarations => do
    let decl ← walkStructDeclarator t declarator { Spec := refDecl.Spec.Copy }
    match next with
    | none => .ok (declarations ++ [decl])
    | some nextList => walkStructDeclaratorListLoop t refDecl nextList (declarations ++ [decl])
termination_by structural x _ => x

/-- Embedding of `walkStructDeclarator`. -/
def walkStructDeclarator (t : Translator) :
    cc.StructDeclarator → CDecl → Except Panic CDecl
  | .declarator (.mk popt dd), decl => walkDirectDeclaratorLoop t dd (walkPointers popt decl)
  | .bitField _ _, decl => .ok decl
termination_by structural x _ => x

end

/-- Embedding of `walkDirectDeclarator`: one step, giving `next` and the node. -/
def walkDirectDeclarator (t : Translator) (declr : cc.DirectDeclarator) (decl : CDecl) :
    Except Panic (Option cc.DirectDeclarator × CDecl) :=
  let decl : CDecl := { decl with Pos := declr.Token.Pos }
  match declr with
  | .ident tok => .ok (none, { decl with Name := tok.S })
  | .paren _ declarator => .ok (some declarator.DirectDeclarator, walkPointers declarator.PointerOpt decl)
  | .array _ dd aeOpt => .ok (some dd, addDimension t none aeOpt decl)
  | .arrayStatic _ dd ae => .ok (some dd, addDimension t (some ae) none decl)
  | .arrayQualStatic _ dd ae => .ok (some dd, addDimension t (some ae) none decl)
  | .arrayStar _ dd => .ok (some dd, addDimension t none none decl)
  | .func _ dd dd2 => do
    let decl ← walkDirectDeclarator2 t dd2 (wrapFunction decl)
    .ok (some dd, decl)

/-- Embedding of `walkParameterList`: `next` and the parameter node (`none`
for the nil `decl`). -/
def walkParameterList (t : Translator) (list : cc.ParameterList) :
    Except Panic (Option cc.ParameterList × Option CDecl) :=
  match list with
  | .mk _ declr next => do
    let decl ← walkParameterDeclaration t declr
    .ok (next, decl)

/-- Embedding of `walkDeclarationSpec`: one step, giving `next` and the node. -/
def walkDeclarationSpec (t : Translator) (declr : cc.DeclarationSpecifiers) (decl : CDecl) :
    Except Panic (Option cc.DeclarationSpecifiers × CDecl) :=
  match declr with
  | .storageClass opt =>
    match opt with
    | none => .error .nilDereference
    | some next => .ok (some next, decl)
  | .typeSpecifier typeSpec opt => do
    let decl ← walkTypeSpec t typeSpec decl
    .ok (opt, decl)
  | .typeQualifier q opt => .ok (opt, setConst q decl)
  | .functionSpecifier _ _ => .ok (none, decl)

/-- Embedding of `walkSpecifierQualifierList`: one step, giving `next` and the node. -/
def walkSpecifierQualifierList (t : Translator) (declr : cc.SpecifierQualifierList)
    (decl : CDecl) : Except Panic (Option cc.SpecifierQualifierList × CDecl) :=
  match declr with
  | .typeSpecifier typeSpec opt => do
    let decl ← walkTypeSpec t typeSpec decl
    .ok (opt, decl)
  | .typeQualifier q opt => .ok (opt, setConst q decl)

/-- Embedding of `walkInitializer`. -/
def walkInitializer (t : Translator) (init : cc.Initializer) (decl : CDecl) : CDecl :=
  match init with
  | .expr ae =>
    { decl with
      Value := t.EvalAssignmentExpression (some ae)
      Expression := t.ExpandAssignmentExpression (some ae) }
  | .list _ => decl
  | .listComma _ => decl

/-- Embedding of `walkInitDeclaratorList`: `next` and the node. -/
def walkInitDeclaratorList (t : Translator) (declr : cc.InitDeclaratorList) (decl : CDecl) :
    Except Panic (Option cc.InitDeclaratorList × CDecl) :=
  match declr with
  | .mk initDeclarator next =>
    let decl := walkPointers initDeclarator.Declarator.PointerOpt decl
    let decl :=
      match initDeclarator with
      | .declarator _ => decl
      | .init _ init => walkInitializer t init decl
    do
      let decl ← walkDirectDeclaratorLoop t initDeclarator.Declarator.DirectDeclarator decl
      .ok (next, decl)

/-- The declarator loop of `walkDeclaration`, entered at a list node: a fresh
node with a copy of the reference descriptor is walked, appended to
`declarations` and recorded in the symbol table. -/
def walkDeclaration.loop (t : Translator) (refDecl : CDecl) :
    cc.InitDeclaratorList → List CDecl → ValueMap → Except Panic (List CDecl × ValueMap)
  | .mk initDeclarator next, declarations, valueMap => do
    let (_, decl) ← walkInitDeclaratorList t (.mk initDeclarator next) { Spec := refDecl.Spec.Copy }
    let declarations := declarations ++ [decl]
    let valueMap := valueMap.set decl.Name decl.Value
    match next with
    | none => .ok (declarations, valueMap)
    | some nextList => walkDeclaration.loop t refDecl nextList declarations valueMap
termination_by structural x _ _ => x

/-- Embedding of `walkDeclaration`; the `error` result of the Go function is
always nil, so the result is the list and the symbol table. -/
def walkDeclaration (t : Translator) (valueMap : ValueMap) (declr : Option cc.Declaration) :
    Except Panic (List CDecl × ValueMap) :=
  match declr with
  | none => .error .nilDereference
  | some declr => do
    let refDecl ← walkDeclarationSpecLoop t declr.DeclarationSpecifiers { Spec := .typeSpec {} }
    match declr.InitDeclaratorListOpt with
    | none => .ok ([], valueMap)
    | some list => walkDeclaration.loop t refDecl list [] valueMap

/-- Embedding of `walkUnit`: `next`, the declarations and the symbol table. -/
def walkUnit (t : Translator) (valueMap : ValueMap) (unit : Option cc.TranslationUnit) :
    Except Panic (Option cc.TranslationUnit × List CDecl × ValueMap) :=
  match unit with
  | none => .ok (none, [], valueMap)
  | some (.mk externalDeclaration next) =>
    match externalDeclaration with
    | none => .ok (next, [], valueMap)
    | some ed => do
      let (declarations, valueMap) ← walkDeclaration t valueMap ed.Declaration
      .ok (next, declarations, valueMap)

/-- The loop `for next != nil` of `walkAST`, entered at a unit. -/
def walkAST.loop (t : Translator) :
    cc.TranslationUnit → List CDecl → ValueMap → Except Panic (List CDecl × ValueMap)
  | .mk externalDeclaration next, declarations, valueMap => do
    let (_, cdecls, valueMap) ← walkUnit t valueMap (some (.mk externalDeclaration next))
    let declarations := declarations ++ cdecls
    match next with
    | none => .ok (declarations, valueMap)
    | some nextUnit => walkAST.loop t nextUnit declarations valueMap
termination_by structural x _ _ => x

/-- Embedding of `walkAST`. -/
def walkAST (t : Translator) (valueMap : ValueMap) (unit : Option cc.TranslationUnit) :
    Except Panic (List CDecl × ValueMap) := do
  let (next, cdecls, valueMap) ← walkUnit t valueMap unit
  match next with
  | none => .ok (cdecls, valueMap)
  | some nextUnit => walkAST.loop t nextUnit cdecls valueMap

/-! ## Inputs and specification-side definitions -/

/-- Number of pointer markers of a pointer chain. -/
def pointerCount : cc.Pointer → Nat
  | .mk none => 1
  | .mk (some next) => pointerCount next + 1
termination_by structural x => x

/-- The pointer chain of `n + 1` consecutive markers. -/
def pointerChain : Nat → cc.Pointer
  | 0 => .mk none
  | n + 1 => .mk (some (pointerChain n))

/-- A sample expression evaluator: the rendering of an expression is its token
text and its value the integer that text denotes. -/
def sampleTranslator : Translator where
  EvalAssignmentExpression := fun e =>
    match e with
    | some e => e.Token.S.toInt?
    | none => none
  ExpandAssignmentExpression := fun e =>
    match e with
    | some e => e.Token.S
    | none => ""

/-- The base descriptor of the specifier `int`. -/
def intSpec : CType := .typeSpec { Base := "int" }

/-- The init-declarator list of `int (*f(void))[3];`: the array suffix `[3]`
wraps the parenthesized group with one pointer marker, which wraps the
function suffix `(void)` on the identifier `f`. -/
def declaratorC1 : cc.InitDeclaratorList :=
  .mk (.declarator (.mk none
    (.array ⟨14, "["⟩
      (.paren ⟨4, "("⟩ (.mk (some (.mk none))
        (.func ⟨7, "("⟩ (.ident ⟨6, "f"⟩)
          (.params ⟨12, ")"⟩ (.mk ⟨0, ""⟩ (.abstract (.typeSpecifier .void none)) none)))))
      (some ⟨⟨15, "3"⟩⟩)))) none

/-- The node of a walk result, `none` after a panic. -/
def resultNode {α : Type} : Except Panic (α × CDecl) → Option CDecl
  | .ok r => some r.2
  | .error _ => none

/-- The return-type node of a node with a Function descriptor. -/
def returnsNode (decl : CDecl) : Option CDecl :=
  match decl.Spec with
  | .functionSpec spec => some spec.Returns
  | _ => none

/-- The direct declarator `inner[X1]...[Xn]` for the size expressions
`X1, ..., Xn` (each with the token of its bracket): every suffix wraps the
direct declarator to its left, so the node of `[Xn]` is the root. -/
def arraySuffixes (inner : cc.DirectDeclarator)
    (dims : List (cc.Token × Option cc.AssignmentExpression)) : cc.DirectDeclarator :=
  dims.foldl (fun d x => .array x.1 d x.2) inner

/-- The node after the walk has passed the array suffixes `[X1]...[Xn]`: the
root `[Xn]` is met first, `[X1]` last. -/
def afterSuffixes (t : Translator) (dims : List (cc.Token × Option cc.AssignmentExpression))
    (decl : CDecl) : CDecl :=
  dims.foldr (fun x d => addDimension t none x.2 { d with Pos := x.1.Pos }) decl

/-- The init-declarators of a list, in source order. -/
def initDeclaratorList : cc.InitDeclaratorList → List cc.InitDeclarator
  | .mk d none => [d]
  | .mk d (some next) => d :: initDeclaratorList next
termination_by structural x => x

/-- The init-declarators of a declaration, in source order (none when the
declaration has no init-declarator list). -/
def initDeclarators (declr : cc.Declaration) : List cc.InitDeclarator :=
  match declr.InitDeclaratorListOpt with
  | none => []
  | some list => initDeclaratorList list

/-- No function suffix (Case 6) anywhere on the path from a direct declarator
to its identifier. -/
def noFunctionSuffix : cc.DirectDeclarator → Bool
  | .ident _ => true
  | .paren _ (.mk _ dd) => noFunctionSuffix dd
  | .array _ dd _ => noFunctionSuffix dd
  | .arrayStatic _ dd _ => noFunctionSuffix dd
  | .arrayQualStatic _ dd _ => noFunctionSuffix dd
  | .arrayStar _ dd => noFunctionSuffix dd
  | .func _ _ _ => false
termination_by structural x => x

/-- The node an init-declarator resolves to when it is walked alone on a
fresh node carrying the descriptor `base` (`none` after a panic). -/
def nodeOfInitDeclarator (t : Translator) (base : CType) (d : cc.InitDeclarator) :
    Option CDecl :=
  resultNode (walkInitDeclaratorList t (.mk d none) { Spec := base })

/-- The nodes of a `walkDeclaration` result, `none` after a panic. -/
def resultNodes : Except Panic (List CDecl × ValueMap) → Option (List CDecl)
  | .ok r => some r.1
  | .error _ => none

/-- The declaration `int a, *b, c[3];`. -/
def declarationC4 : cc.Declaration where
  DeclarationSpecifiers := .typeSpecifier .int none
  InitDeclaratorListOpt := some
    (.mk (.declarator (.mk none (.ident ⟨4, "a"⟩)))
      (some (.mk (.declarator (.mk (some (.mk none)) (.ident ⟨8, "b"⟩)))
        (some (.mk (.declarator (.mk none
          (.array ⟨12, "["⟩ (.ident ⟨11, "c"⟩) (some ⟨⟨13, "3"⟩⟩)))) none)))))

/-- The member declarations of a struct declaration list, in source order. -/
def structDeclarations : cc.StructDeclarationList → List cc.StructDeclaration
  | .mk d none => [d]
  | .mk d (some next) => d :: structDeclarations next
termination_by structural x => x

/-- The member declarators of a struct declarator list, in source order. -/
def structDeclarators : cc.StructDeclaratorList → List cc.StructDeclarator
  | .mk d none => [d]
  | .mk d (some next) => d :: structDeclarators next
termination_by structural x => x

/-- The parameter declarations of a parameter list, in source order. -/
def parameterDeclarations : cc.ParameterList → List cc.ParameterDeclaration
  | .mk _ d none => [d]
  | .mk _ d (some next) => d :: parameterDeclarations next
termination_by structural x => x

/-- A plain member declarator (Case 0) resolves to `node` from its own copy of
the base descriptor `base`: the pointer prefix is applied to a fresh node
carrying the copy, then the direct declarator is resolved.  A bit-field
declarator is not plain. -/
def PlainMemberNode (t : Translator) (base : CType) (d : cc.StructDeclarator)
    (node : CDecl) : Prop :=
  match d with
  | .declarator (.mk popt dd) =>
    walkDirectDeclaratorLoop t dd (walkPointers popt { Spec := base.Copy }) = .ok node
  | .bitField _ _ => False

/-- A member declaration with a declarator list of plain declarators yields
`nodes`: its specifier-qualifier list builds a base descriptor and the
declarators resolve, in source order, to `nodes`, each from its own copy of
that descriptor. -/
def MemberNodes (t : Translator) (declr : cc.StructDeclaration) (nodes : List CDecl) : Prop :=
  match declr with
  | .mk specifiers (some list) =>
    ∃ refDecl, walkSpecifierQualifierListLoop t specifiers { Spec := .typeSpec {} } = .ok refDecl ∧
      List.Forall₂ (PlainMemberNode t refDecl.Spec) (structDeclarators list) nodes
  | .mk _ none => False

/-- The result `r` of one parameter: a parameter `DeclarationSpecifiers
Declarator` (Case 0) gives `some node`, the node resolved from the descriptor
its specifiers build; a parameter with an abstract or absent declarator
(Case 1) gives `none`. -/
def ParameterNode (t : Translator) (declr : cc.ParameterDeclaration) (r : Option CDecl) : Prop :=
  match declr with
  | .declarator specifiers (.mk popt dd) =>
    ∃ base node, walkDeclarationSpecLoop t specifiers { Spec := .typeSpec {} } = .ok base ∧
      walkDirectDeclaratorLoop t dd (walkPointers popt base) = .ok node ∧ r = some node
  | .abstract _ => r = none

/-- The struct specifier `struct Point { int x; int y; }`. -/
def structPoint : cc.StructOrUnionSpecifier :=
  .withMembers .Struct (some ⟨7, "Point"⟩)
    (.mk (.mk (.typeSpecifier .int none)
        (some (.mk (.declarator (.mk none (.ident ⟨19, "x"⟩))) none)))
      (some (.mk (.mk (.typeSpecifier .int none)
        (some (.mk (.declarator (.mk none (.ident ⟨26, "y"⟩))) none))) none)))

/-- The declaration `struct Point p;`. -/
def declarationStructPointP : cc.Declaration where
  DeclarationSpecifiers := .typeSpecifier (.structOrUnion (.reference .Struct ⟨7, "Point"⟩)) none
  InitDeclaratorListOpt := some (.mk (.declarator (.mk none (.ident ⟨13, "p"⟩))) none)

/-- The declaration `struct Point { int x; int y; } q;`. -/
def declarationStructPointQ : cc.Declaration where
  DeclarationSpecifiers := .typeSpecifier (.structOrUnion structPoint) none
  InitDeclaratorListOpt := some (.mk (.declarator (.mk none (.ident ⟨31, "q"⟩))) none)

/-- The member declaration `int a, *b;`. -/
def memberDeclarationAB : cc.StructDeclaration :=
  .mk (.typeSpecifier .int none)
    (some (.mk (.declarator (.mk none (.ident ⟨4, "a"⟩)))
      (some (.mk (.declarator (.mk (some (.mk none)) (.ident ⟨8, "b"⟩))) none))))

/-- The member declaration `int a, b : 3, c;`. -/
def memberDeclarationBitField : cc.StructDeclaration :=
  .mk (.typeSpecifier .int none)
    (some (.mk (.declarator (.mk none (.ident ⟨4, "a"⟩)))
      (some (.mk (.bitField ⟨9, ":"⟩ (some (.mk none (.ident ⟨7, "b"⟩))))
        (some (.mk (.declarator (.mk none (.ident ⟨14, "c"⟩))) none))))))

/-- The tag, union flag and members of a node with an Aggregate descriptor. -/
def aggregateOf (decl : CDecl) : Option (String × Bool × List CDecl) :=
  match decl.Spec with
  | .structSpec spec => some (spec.Tag, spec.Union, spec.Members)
  | _ => none

/-- The scalar descriptor of a node, `none` for the other descriptors. -/
def scalarOf (decl : CDecl) : Option CTypeSpec :=
  match decl.Spec with
  | .typeSpec spec => some spec
  | _ => none

/-- The value of a result, `none` after a panic. -/
def okValue {α : Type} : Except Panic α → Option α
  | .ok a => some a
  | .error _ => none

/-- The parameter list `(int a, char *, long c)`. -/
def parametersACharC : cc.ParameterList :=
  .mk ⟨0, ""⟩ (.declarator (.typeSpecifier .int none) (.mk none (.ident ⟨7, "a"⟩)))
    (some (.mk ⟨8, ","⟩ (.abstract (.typeSpecifier .char none))
      (some (.mk ⟨16, ","⟩
        (.declarator (.typeSpecifier .long none) (.mk none (.ident ⟨23, "c"⟩))) none))))

/-- The parameter list `(void)`. -/
def parametersVoid : cc.ParameterList :=
  .mk ⟨0, ""⟩ (.abstract (.typeSpecifier .void none)) none

/-- The parameters of a node with a Function descriptor. -/
def paramListOf (decl : CDecl) : Option (List CDecl) :=
  match decl.Spec with
  | .functionSpec spec => some spec.ParamList
  | _ => none

/-- A type specifier other than a struct-or-union specifier. -/
def nonStruct : cc.TypeSpecifier → Bool
  | .structOrUnion _ => false
  | _ => true

/-- A declaration-specifier chain made only of non-struct type specifiers and
type qualifiers. -/
def scalarChain : cc.DeclarationSpecifiers → Bool
  | .storageClass _ => false
  | .typeSpecifier typeSpec none => nonStruct typeSpec
  | .typeSpecifier typeSpec (some next) => nonStruct typeSpec && scalarChain next
  | .typeQualifier _ none => true
  | .typeQualifier _ (some next) => scalarChain next
  | .functionSpecifier _ _ => false
termination_by structural x => x

/-- The last type qualifier of a declaration-specifier chain, if it has one. -/
def lastQualifier : cc.DeclarationSpecifiers → Option cc.TypeQualifier
  | .storageClass none => none
  | .storageClass (some next) => lastQualifier next
  | .typeSpecifier _ none => none
  | .typeSpecifier _ (some next) => lastQualifier next
  | .typeQualifier q none => some q
  | .typeQualifier q (some next) =>
    match lastQualifier next with
    | some q' => some q'
    | none => some q
  | .functionSpecifier _ none => none
  | .functionSpecifier _ (some next) => lastQualifier next
termination_by structural x => x

/-- A specifier-qualifier list made only of non-struct type specifiers and
type qualifiers. -/
def scalarList : cc.SpecifierQualifierList → Bool
  | .typeSpecifier typeSpec none => nonStruct typeSpec
  | .typeSpecifier typeSpec (some next) => nonStruct typeSpec && scalarList next
  | .typeQualifier _ none => true
  | .typeQualifier _ (some next) => scalarList next
termination_by structural x => x

/-- The last type qualifier of a specifier-qualifier list, if it has one. -/
def lastListQualifier : cc.SpecifierQualifierList → Option cc.TypeQualifier
  | .typeSpecifier _ none => none
  | .typeSpecifier _ (some next) => lastListQualifier next
  | .typeQualifier q none => some q
  | .typeQualifier q (some next) =>
    match lastListQualifier next with
    | some q' => some q'
    | none => some q
termination_by structural x => x

/-- The chain `const volatile int`. -/
def constVolatileInt : cc.DeclarationSpecifiers :=
  .typeQualifier .Const (some (.typeQualifier .Volatile (some (.typeSpecifier .int none))))

/-- The chain `volatile const int`. -/
def volatileConstInt : cc.DeclarationSpecifiers :=
  .typeQualifier .Volatile (some (.typeQualifier .Const (some (.typeSpecifier .int none))))

/-- The specifier-qualifier list `const volatile int`. -/
def constVolatileIntList : cc.SpecifierQualifierList :=
  .typeQualifier .Const (some (.typeQualifier .Volatile (some (.typeSpecifier .int none))))

/-- The specifier-qualifier list `volatile const int`. -/
def volatileConstIntList : cc.SpecifierQualifierList :=
  .typeQualifier .Volatile (some (.typeQualifier .Const (some (.typeSpecifier .int none))))

/-- The type specifiers of a declaration-specifier chain, in visiting order. -/
def typeSpecifiers : cc.DeclarationSpecifiers → List cc.TypeSpecifier
  | .storageClass none => []
  | .storageClass (some next) => typeSpecifiers next
  | .typeSpecifier typeSpec none => [typeSpec]
  | .typeSpecifier typeSpec (some next) => typeSpec :: typeSpecifiers next
  | .typeQualifier _ none => []
  | .typeQualifier _ (some next) => typeSpecifiers next
  | .functionSpecifier _ none => []
  | .functionSpecifier _ (some next) => typeSpecifiers next
termination_by structural x => x

/-- The type specifiers of a specifier-qualifier list, in visiting order. -/
def listTypeSpecifiers : cc.SpecifierQualifierList → List cc.TypeSpecifier
  | .typeSpecifier typeSpec none => [typeSpec]
  | .typeSpecifier typeSpec (some next) => typeSpec :: listTypeSpecifiers next
  | .typeQualifier _ none => []
  | .typeQualifier _ (some next) => listTypeSpecifiers next
termination_by structural x => x

/-- The specifier `long`. -/
def isLong : cc.TypeSpecifier → Bool
  | .long => true
  | _ => false

/-- What a type specifier writes to `base`, if anything, when it is visited
with the long flag `longSet`: the keywords void, char, int, float, double,
_Bool and _Complex write themselves, a typedef-name writes its identifier
text, and `long` writes "long" when the long flag is already set. -/
def writesBase (longSet : Bool) : cc.TypeSpecifier → Option String
  | .void => some "void"
  | .char => some "char"
  | .int => some "int"
  | .long => if longSet then some "long" else none
  | .float => some "float"
  | .double => some "double"
  | .bool => some "_Bool"
  | .complex => some "_Complex"
  | .typedefName tok => some tok.S
  | _ => none

/-- The values written to `base` by a sequence of type specifiers, in visiting
order, when the walk starts with the long flag `longSet`; the flag is set from
the first `long` on. -/
def baseWrites (longSet : Bool) : List cc.TypeSpecifier → List String
  | [] => []
  | typeSpec :: rest =>
    (writesBase longSet typeSpec).toList ++ baseWrites (longSet || isLong typeSpec) rest

/-- The chain `char int`. -/
def charInt : cc.DeclarationSpecifiers :=
  .typeSpecifier .char (some (.typeSpecifier .int none))

/-- The chain `long long int`. -/
def longLongInt : cc.DeclarationSpecifiers :=
  .typeSpecifier .long (some (.typeSpecifier .long (some (.typeSpecifier .int none))))

/-- The chain `int long long`. -/
def intLongLong : cc.DeclarationSpecifiers :=
  .typeSpecifier .int (some (.typeSpecifier .long (some (.typeSpecifier .long none))))

/-- The chain `const unsigned`, without a base-writing specifier. -/
def constUnsigned : cc.DeclarationSpecifiers :=
  .typeQualifier .Const (some (.typeSpecifier .unsigned none))

/-- The specifier-qualifier list `int long long`. -/
def intLongLongList : cc.SpecifierQualifierList :=
  .typeSpecifier .int (some (.typeSpecifier .long (some (.typeSpecifier .long none))))

/-- The chain `inline int`. -/
def inlineInt : cc.DeclarationSpecifiers :=
  .functionSpecifier ⟨0, "inline"⟩ (some (.typeSpecifier .int none))

/-- The chain `int`, which is `inline int` without the function specifier. -/
def justInt : cc.DeclarationSpecifiers :=
  .typeSpecifier .int none

/-- The declaration `inline int x;`. -/
def declarationInlineIntX : cc.Declaration where
  DeclarationSpecifiers := inlineInt
  InitDeclaratorListOpt := some (.mk (.declarator (.mk none (.ident ⟨11, "x"⟩))) none)

/-- The constant value an init-declarator gives its node: the value of the
initializer expression for `Declarator '=' AssignmentExpression`, no value
otherwise. -/
def initValue (t : Translator) : cc.InitDeclarator → Value
  | .init _ (.expr ae) => t.EvalAssignmentExpression (some ae)
  | _ => none

/-- The constant value of the last node of `nodes` named `k`, if there is
such a node. -/
def lastValueOf (nodes : List CDecl) (k : String) : Option Value :=
  (nodes.reverse.find? (fun n => n.Name == k)).map (fun n => n.Value)

/-- The symbol table after the nodes of `nodes` have been recorded in order. -/
def recordAll (nodes : List CDecl) (valueMap : ValueMap) : ValueMap :=
  nodes.foldl (fun m n => m.set n.Name n.Value) valueMap

/-- The external declarations of a chain of translation units, in chain order
(`none` for a unit without one). -/
def translationUnits : cc.TranslationUnit → List (Option cc.ExternalDeclaration)
  | .mk ed none => [ed]
  | .mk ed (some next) => ed :: translationUnits next
termination_by structural x => x

/-- The nodes a unit contributes: none for a unit without an external
declaration, a node list `walkDeclaration` produces for the declaration of a
unit that carries one.  A unit whose external declaration is not a
declaration is outside this relation. -/
def UnitNodes (t : Translator) (ed : Option cc.ExternalDeclaration) (nodes : List CDecl) : Prop :=
  match ed with
  | none => nodes = []
  | some (.declaration declr) =>
    ∃ valueMap valueMap', walkDeclaration t valueMap (some declr) = .ok (nodes, valueMap')
  | some .functionDefinition => False

/-- The declaration `int a = 1, b, a = 2;`. -/
def declarationABA : cc.Declaration where
  DeclarationSpecifiers := .typeSpecifier .int none
  InitDeclaratorListOpt := some
    (.mk (.init (.mk none (.ident ⟨4, "a"⟩)) (.expr ⟨⟨8, "1"⟩⟩))
      (some (.mk (.declarator (.mk none (.ident ⟨11, "b"⟩)))
        (some (.mk (.init (.mk none (.ident ⟨14, "a"⟩)) (.expr ⟨⟨18, "2"⟩⟩)) none)))))

/-- The declaration `struct Point { int x; int y; };`, without declarator. -/
def declarationStructPointOnly : cc.Declaration where
  DeclarationSpecifiers := .typeSpecifier (.structOrUnion structPoint) none
  InitDeclaratorListOpt := none

/-- A chain of three units: `int a, *b, c[3];`, a unit without an external
declaration, and `struct Point p;`. -/
def unitsC15 : cc.TranslationUnit :=
  .mk (some (.declaration declarationC4))
    (some (.mk none (some (.mk (some (.declaration declarationStructPointP)) none))))

/-- A symbol table with the one entry `z ↦ 7`. -/
def valueMapZ : ValueMap :=
  fun k => if k = "z" then some (some 7) else none

/-- The symbol table of a `walkDeclaration` result, `none` after a panic. -/
def resultValueMap : Except Panic (List CDecl × ValueMap) → Option ValueMap
  | .ok r => some r.2
  | .error _ => none

/-- The value a one-digit token text denotes, no value for any other text. -/
def digitValue (s : String) : Value :=
  match s.toList with
  | [c] => if c.isDigit then some ((c.toNat - 48 : Nat) : Int) else none
  | _ => none

/-- A second sample expression evaluator, for initializers: the rendering of
an expression is its token text and its value the digit that text denotes. -/
def digitTranslator : Translator where
  EvalAssignmentExpression := fun e =>
    match e with
    | some e => digitValue e.Token.S
    | none => none
  ExpandAssignmentExpression := fun e =>
    match e with
    | some e => e.Token.S
    | none => ""

/-- A chain of one unit whose external declaration is a function definition
(Case 0), such as `int f(void) { return 0; }`: its `Declaration` is nil. -/
def unitFunctionDefinition : cc.TranslationUnit :=
  .mk (some .functionDefinition) none

/-- A chain of one unit with the declaration `int static x;`: the specifier
chain ends with a storage-class specifier. -/
def unitStorageClassLast : cc.TranslationUnit :=
  .mk (some (.declaration
    { DeclarationSpecifiers := .typeSpecifier .int (some (.storageClass none))
      InitDeclaratorListOpt := some (.mk (.declarator (.mk none (.ident ⟨11, "x"⟩))) none) }))
    none

/-- A chain of one unit with the declaration `struct S { int; } s;`: the
member declaration has no declarator list. -/
def unitMemberWithoutDeclarators : cc.TranslationUnit :=
  .mk (some (.declaration
    { DeclarationSpecifiers := .typeSpecifier (.structOrUnion
        (.withMembers .Struct (some ⟨7, "S"⟩) (.mk (.mk (.typeSpecifier .int none) none) none)))
        none
      InitDeclaratorListOpt := some (.mk (.declarator (.mk none (.ident ⟨18, "s"⟩))) none) }))
    none

/-- A chain of one unit with the declaration `struct S int x;`: a type
specifier is visited after a struct specifier. -/
def unitTypeSpecifierAfterStruct : cc.TranslationUnit :=
  .mk (some (.declaration
    { DeclarationSpecifiers := .typeSpecifier (.structOrUnion (.reference .Struct ⟨7, "S"⟩))
        (some (.typeSpecifier .int none))
      InitDeclaratorListOpt := some (.mk (.declarator (.mk none (.ident ⟨13, "x"⟩))) none) }))
    none

/-- Number of direct-declarator nodes on the path from a direct declarator to
its identifier leaf, both included. -/
def pathLength : cc.DirectDeclarator → Nat
  | .ident _ => 1
  | .paren _ (.mk _ dd) => pathLength dd + 1
  | .array _ dd _ => pathLength dd + 1
  | .arrayStatic _ dd _ => pathLength dd + 1
  | .arrayQualStatic _ dd _ => pathLength dd + 1
  | .arrayStar _ dd => pathLength dd + 1
  | .func _ dd _ => pathLength dd + 1
termination_by structural x => x

/-- The token of the identifier leaf of a direct declarator. -/
def leafToken : cc.DirectDeclarator → cc.Token
  | .ident tok => tok
  | .paren _ (.mk _ dd) => leafToken dd
  | .array _ dd _ => leafToken dd
  | .arrayStatic _ dd _ => leafToken dd
  | .arrayQualStatic _ dd _ => leafToken dd
  | .arrayStar _ dd => leafToken dd
  | .func _ dd _ => leafToken dd
termination_by structural x => x

/-- An identifier leaf (Case 0). -/
def isIdentifier : cc.DirectDeclarator → Bool
  | .ident _ => true
  | _ => false

/-- The resolution loop `next := t.walkDirectDeclarator(declr, decl);
for next != nil { next = t.walkDirectDeclarator(next, decl) }` run on the
step function with a bound `fuel` on the number of calls: the result is the
number of calls made and the node when `next` becomes nil, `none` when the
bound is reached first, a panic when a step panics. -/
def resolveSteps (t : Translator) :
    Nat → cc.DirectDeclarator → CDecl → Except Panic (Option (Nat × CDecl))
  | 0, _, _ => .ok none
  | fuel + 1, declr, decl =>
    match walkDirectDeclarator t declr decl with
    | .error e => .error e
    | .ok (none, decl) => .ok (some (1, decl))
    | .ok (some next, decl) =>
      match resolveSteps t fuel next decl with
      | .error e => .error e
      | .ok none => .ok none
      | .ok (some (n, decl)) => .ok (some (n + 1, decl))

/-- The direct declarator `(*f(int a, char *, long c)[3])`: a parenthesized
group with one pointer marker around the array suffix `[3]` on the function
suffix on the identifier f; four nodes on the path to the leaf f. -/
def declaratorC18 : cc.DirectDeclarator :=
  .paren ⟨0, "("⟩ (.mk (some (.mk none))
    (.array ⟨30, "["⟩
      (.func ⟨3, "("⟩ (.ident ⟨2, "f"⟩) (.params ⟨27, ")"⟩ parametersACharC))
      (some ⟨⟨31, "3"⟩⟩)))

/-- The init-declarator list of `T *(*p);`: one pointer marker before a
parenthesized group with one pointer marker on the identifier p. -/
def declaratorC20 : cc.InitDeclaratorList :=
  .mk (.declarator (.mk (some (.mk none))
    (.paren ⟨3, "("⟩ (.mk (some (.mk none)) (.ident ⟨5, "p"⟩))))) none

/-- The declaration `int static x;`: one init-declarator without function
suffix, and a specifier chain that ends with a storage-class specifier. -/
def declarationIntStaticX : cc.Declaration where
  DeclarationSpecifiers := .typeSpecifier .int (some (.storageClass none))
  InitDeclaratorListOpt := some (.mk (.declarator (.mk none (.ident ⟨11, "x"⟩))) none)

/-- The declaration `static int x;`, the same specifiers in the other order. -/
def declarationStaticIntX : cc.Declaration where
  DeclarationSpecifiers := .storageClass (some (.typeSpecifier .int none))
  InitDeclaratorListOpt := some (.mk (.declarator (.mk none (.ident ⟨11, "x"⟩))) none)

/-- A bit-field member declarator (Case 1). -/
def isBitField : cc.StructDeclarator → Bool
  | .declarator _ => false
  | .bitField _ _ => true

/-- The member declarators of a member declaration, none when it has no
declarator list. -/
def memberDeclarators : cc.StructDeclaration → List cc.StructDeclarator
  | .mk _ none => []
  | .mk _ (some list) => structDeclarators list

/-- A member declaration without a declarator list (`StructDeclaratorListOpt`
is nil), such as an anonymous struct or union member. -/
def lacksDeclarators : cc.StructDeclaration → Bool
  | .mk _ none => true
  | .mk _ (some _) => false

/-- The member list of `struct S { union { int a; int b; }; int c; }`: the
first member declaration is an anonymous union, without a declarator list. -/
def membersAnonymousUnion : cc.StructDeclarationList :=
  .mk (.mk (.typeSpecifier (.structOrUnion (.withMembers .Union none
        (.mk (.mk (.typeSpecifier .int none)
            (some (.mk (.declarator (.mk none (.ident ⟨23, "a"⟩))) none)))
          (some (.mk (.mk (.typeSpecifier .int none)
            (some (.mk (.declarator (.mk none (.ident ⟨30, "b"⟩))) none))) none)))))
      none) none)
    (some (.mk (.mk (.typeSpecifier .int none)
      (some (.mk (.declarator (.mk none (.ident ⟨41, "c"⟩))) none))) none))

/-- The member list of `struct S { int; }`. -/
def membersIntOnly : cc.StructDeclarationList :=
  .mk (.mk (.typeSpecifier .int none) none) none

/-! ## The modifiers on the descriptor

`ast.go` reaches the pointer depth and the array dimensions only through
`decl.SetPointers` and `decl.AddArray`, and Case 6 of `walkDirectDeclarator`
hands `decl.Spec`, and nothing else of the node but its position, to the
return-type node.  The declarations of `CDecl`, of the descriptors and of the
two setters are not in `ast.go`.  Above, the setters store on the node.  What
a return-type node carries depends on where they store, and for that this
section embeds the walkers once more, with the setters storing on the
descriptor the node holds at that moment:

* the specification gives the return-type node of `int (*f(void))[3]` pointer
  depth 1 and one dimension, and Case 6 could not give it either in any other
  way;
* the specification has each declarator copy the base descriptor before
  "declarator-specific modifiers (pointer depth, arrays, function wrapping)"
  are applied, and `walkDeclaration` and `walkStructDeclaration` do make that
  copy (`refDecl.Spec.Copy()`) for a node that is itself new; after the copy
  only the two setters could write to the copied descriptor.

The walkers are the functions of `ast.go` again, clause by clause, over these
records; the parse tree, the evaluator and `walkPointers.loop` are shared.
-/

namespace onDescriptor

/-- Modelled from the spec: the struct declaration of `CTypeSpec` is not in
`ast.go`.  The scalar or named descriptor with, besides the fields `ast.go`
writes, the pointer depth and the array dimensions `SetPointers` and
`AddArray` record on it. -/
structure CTypeSpec extends translator.CTypeSpec where
  Pointers : Nat := 0
  Arrays : List String := []
deriving DecidableEq

/-- Modelled from the spec: the struct declaration of `CDecl` is not in
`ast.go`.  A Declaration Node has a type descriptor, a name, a constant
value, an initializer text and a source position; its pointer depth and array
dimensions are those of its descriptor. -/
structure CDeclOf (T : Type) where
  Spec : T
  Name : String := ""
  Value : Value := none
  Expression : String := ""
  Pos : Nat := 0

/-- Modelled from the spec: the struct declaration of `CStructSpec` is not in
`ast.go`.  Aggregate descriptor: tag, union flag, members, and the pointer
depth and array dimensions recorded on it. -/
structure CStructSpecOf (T : Type) where
  Tag : String := ""
  Union : Bool := false
  Members : List (CDeclOf T) := []
  Pointers : Nat := 0
  Arrays : List String := []

/-- Modelled from the spec: the struct declaration of `CFunctionSpec` is not
in `ast.go`.  Function descriptor: return-type node, parameters, and the
pointer depth and array dimensions recorded on it. -/
structure CFunctionSpecOf (T : Type) where
  Returns : CDeclOf T
  ParamList : List (CDeclOf T) := []
  Pointers : Nat := 0
  Arrays : List String := []

/-- The descriptor interface `CType` with its three implementations. -/
inductive CType where
  | typeSpec (spec : CTypeSpec)
  | structSpec (spec : CStructSpecOf CType)
  | functionSpec (spec : CFunctionSpecOf CType)

abbrev CDecl := CDeclOf CType
abbrev CStructSpec := CStructSpecOf CType
abbrev CFunctionSpec := CFunctionSpecOf CType

/-- Modelled from the spec: `CType.Copy` is not in `ast.go`; it returns a
value-equal, independently owned descriptor.  Values are immutable here, so
the copy is the value itself. -/
def CType.Copy (spec : CType) : CType := spec

/-- The pointer depth recorded on a descriptor. -/
def CType.Pointers : CType → Nat
  | .typeSpec spec => spec.Pointers
  | .structSpec spec => spec.Pointers
  | .functionSpec spec => spec.Pointers

/-- The array dimensions recorded on a descriptor. -/
def CType.Arrays : CType → List String
  | .typeSpec spec => spec.Arrays
  | .structSpec spec => spec.Arrays
  | .functionSpec spec => spec.Arrays

/-- Modelled from the spec: `CType.SetPointers` is not in `ast.go`; it stores
its `uint8` argument as the pointer depth of the descriptor. -/
def CType.SetPointers (spec : CType) (n : Nat) : CType :=
  match spec with
  | .typeSpec spec => .typeSpec { spec with Pointers := n % 256 }
  | .structSpec spec => .structSpec { spec with Pointers := n % 256 }
  | .functionSpec spec => .functionSpec { spec with Pointers := n % 256 }

/-- Modelled from the spec: `CType.AddArray` is not in `ast.go`; it appends a
dimension to the array dimensions of the descriptor. -/
def CType.AddArray (spec : CType) (val : String) : CType :=
  match spec with
  | .typeSpec spec => .typeSpec { spec with Arrays := spec.Arrays ++ [val] }
  | .structSpec spec => .structSpec { spec with Arrays := spec.Arrays ++ [val] }
  | .functionSpec spec => .functionSpec { spec with Arrays := spec.Arrays ++ [val] }

/-- Modelled from the spec: `CDecl.SetPointers` is not in `ast.go`; it hands
its argument to the descriptor the node holds. -/
def CDeclOf.SetPointers (decl : CDeclOf CType) (n : Nat) : CDeclOf CType :=
  { decl with Spec := decl.Spec.SetPointers n }

/-- Modelled from the spec: `CDecl.AddArray` is not in `ast.go`; it hands its
argument to the descriptor the node holds. -/
def CDeclOf.AddArray (decl : CDeclOf CType) (val : String) : CDeclOf CType :=
  { decl with Spec := decl.Spec.AddArray val }

/-- The pointer depth of a node: the one its descriptor records. -/
def CDeclOf.Pointers (decl : CDeclOf CType) : Nat := decl.Spec.Pointers

/-- The array dimensions of a node: those its descriptor records. -/
def CDeclOf.Arrays (decl : CDeclOf CType) : List String := decl.Spec.Arrays

/-- Embedding of `walkPointers`: nothing for a nil `popt`, otherwise the
counter starts at `uint8(1)` on `popt.Pointer` and the count is stored. -/
def walkPointers (popt : Option cc.Pointer) (decl : CDecl) : CDecl :=
  match popt with
  | none => decl
  | some pointer => decl.SetPointers (walkPointers.loop pointer 1)

/-- Embedding of `walkSUSpecifier0`. -/
def walkSUSpecifier0 (su : cc.StructOrUnion) (IdentifierOpt : Option cc.Token)
    (decl : CDecl) : Except Panic CDecl :=
  let decl : CDecl :=
    match su with
    | .Struct => { decl with Spec := .structSpec {} }
    | .Union => { decl with Spec := .structSpec { Union := true } }
  match IdentifierOpt with
  | none => .ok decl
  | some tok =>
    match decl.Spec with
    | .structSpec s => .ok { decl with Spec := .structSpec { s with Tag := tok.S } }
    | _ => .error .typeAssertion

/-- A type-qualifier step (Case 2 of `walkDeclarationSpec`, Case 1 of
`walkSpecifierQualifierList`): `spec.Const = (TypeQualifier.Case == 0)` when
the descriptor is a `*CTypeSpec`, nothing otherwise. -/
def setConst (q : cc.TypeQualifier) (decl : CDecl) : CDecl :=
  match decl.Spec with
  | .typeSpec spec => { decl with Spec := .typeSpec { spec with Const := (q.Case == 0) } }
  | _ => decl

/-- The array cases 2 to 5 of `walkDirectDeclarator`: the size expression is
`AssignmentExpression`, replaced by the one of `AssignmentExpressionOpt` when
that is present; its expansion is added as a dimension. -/
def addDimension (t : Translator) (AssignmentExpression : Option cc.AssignmentExpression)
    (AssignmentExpressionOpt : Option cc.AssignmentExpression) (decl : CDecl) : CDecl :=
  let assignmentExpr :=
    match AssignmentExpressionOpt with
    | some e => some e
    | none => AssignmentExpression
  decl.AddArray (t.ExpandAssignmentExpression assignmentExpr)

/-- The function case 6 of `walkDirectDeclarator` before the parameters are
walked: the descriptor becomes a `CFunctionSpec` whose `Returns` node carries
the previous descriptor and the position. -/
def wrapFunction (decl : CDecl) : CDecl :=
  { decl with Spec := .functionSpec { Returns := { Spec := decl.Spec, Pos := decl.Pos } } }

mutual

/-- The loop `for next != nil { next = t.walkDirectDeclarator(next, decl) }`
entered at a direct declarator: each clause does what `walkDirectDeclarator`
does for that Case and goes on with the `next` it returns
(`walkDirectDeclaratorLoop_step` states this against `walkDirectDeclarator`). -/
def walkDirectDeclaratorLoop (t : Translator) :
    cc.DirectDeclarator → CDecl → Except Panic CDecl
  | .ident tok, decl => .ok { decl with Pos := tok.Pos, Name := tok.S }
  | .paren tok (.mk popt dd), decl =>
    walkDirectDeclaratorLoop t dd (walkPointers popt { decl with Pos := tok.Pos })
  | .array tok dd aeOpt, decl =>
    walkDirectDeclaratorLoop t dd (addDimension t none aeOpt { decl with Pos := tok.Pos })
  | .arrayStatic tok dd ae, decl =>
    walkDirectDeclaratorLoop t dd (addDimension t (some ae) none { decl with Pos := tok.Pos })
  | .arrayQualStatic tok dd ae, decl =>
    walkDirectDeclaratorLoop t dd (addDimension t (some ae) none { decl with Pos := tok.Pos })
  | .arrayStar tok dd, decl =>
    walkDirectDeclaratorLoop t dd (addDimension t none none { decl with Pos := tok.Pos })
  | .func tok dd dd2, decl => do
    let decl ← walkDirectDeclarator2 t dd2 (wrapFunction { decl with Pos := tok.Pos })
    walkDirectDeclaratorLoop t dd decl
termination_by structural x _ => x

/-- Embedding of `walkDirectDeclarator2`. -/
def walkDirectDeclarator2 (t : Translator) :
    cc.DirectDeclarator2 → CDecl → Except Panic CDecl
  | .params _ list, decl =>
    match decl.Spec with
    | .functionSpec spec => do
      let spec ← walkParameterListLoop t list spec
      .ok { decl with Spec := .functionSpec spec }
    | _ => .error .typeAssertion
  | .identifiers _, decl => .ok decl
termination_by structural x _ => x

/-- The parameter loop of `walkDirectDeclarator2`: walk one list node, append
the parameter it yields (if any) to `spec.ParamList`, go on with the next
list node while there is one. -/
def walkParameterListLoop (t : Translator) :
    cc.ParameterList → CFunctionSpec → Except Panic CFunctionSpec
  | .mk _ declr next, spec => do
    let paramDecl ← walkParameterDeclaration t declr
    let spec : CFunctionSpec :=
      match paramDecl with
      | some p => { spec with ParamList := spec.ParamList ++ [p] }
      | none => spec
    match next with
    | none => .ok spec
    | some nextList => walkParameterListLoop t nextList spec
termination_by structural x _ => x

/-- The `switch declr.Case` of `walkParameterList` on the parameter
declaration of a list node; `none` is the nil `decl` of Case 1. -/
def walkParameterDeclaration (t : Translator) :
    cc.ParameterDeclaration → Except Panic (Option CDecl)
  | .declarator specifiers (.mk popt dd) => do
    let decl ← walkDeclarationSpecLoop t specifiers { Spec := .typeSpec {} }
    let decl ← walkDirectDeclaratorLoop t dd (walkPointers popt decl)
    .ok (some decl)
  | .abstract _ => .ok none
termination_by structural x => x

/-- The loop `next := walkDeclarationSpec(specs, decl); for next != nil
{ next = walkDeclarationSpec(next, decl) }`: each clause does what
`walkDeclarationSpec` does for that Case and goes on with the `next` it
returns. -/
def walkDeclarationSpecLoop (t : Translator) :
    cc.DeclarationSpecifiers → CDecl → Except Panic CDecl
  | .storageClass none, _ => .error .nilDereference
  | .storageClass (some next), decl => walkDeclarationSpecLoop t next decl
  | .typeSpecifier typeSpec none, decl => walkTypeSpec t typeSpec decl
  | .typeSpecifier typeSpec (some next), decl => do
    let decl ← walkTypeSpec t typeSpec decl
    walkDeclarationSpecLoop t next decl
  | .typeQualifier q none, decl => .ok (setConst q decl)
  | .typeQualifier q (some next), decl => walkDeclarationSpecLoop t next (setConst q decl)
  | .functionSpecifier _ _, decl => .ok decl
termination_by structural x _ => x

/-- Embedding of `walkTypeSpec` on a non-nil type specifier (both callers pass
the `TypeSpecifier` child of a production that has one). -/
def walkTypeSpec (t : Translator) : cc.TypeSpecifier → CDecl → Except Panic CDecl
  | .structOrUnion suSpec, decl =>
    match decl.Spec with
    | .typeSpec _ => walkSUSpecifier t suSpec decl
    | _ => .error .typeAssertion
  | typeSpec, decl =>
    match decl.Spec with
    | .typeSpec spec => .ok { decl with
        Spec := .typeSpec
          { spec with toCTypeSpec := translator.walkTypeSpec.scalar typeSpec spec.toCTypeSpec } }
    | _ => .error .typeAssertion
termination_by structural x _ => x

/-- Embedding of `walkSUSpecifier`. -/
def walkSUSpecifier (t : Translator) :
    cc.StructOrUnionSpecifier → CDecl → Except Panic CDecl
  | .withMembers su identOpt list, decl => do
    let decl ← walkSUSpecifier0 su identOpt decl
    match decl.Spec with
    | .structSpec structSpec => do
      let structSpec ← walkStructDeclarationListLoop t list structSpec
      .ok { decl with Spec := .structSpec structSpec }
    | _ => .error .typeAssertion
  | .reference .Struct _, decl => .ok { decl with Spec := .structSpec {} }
  | .reference .Union _, decl => .ok { decl with Spec := .structSpec { Union := true } }
termination_by structural x _ => x

/-- The member loop of `walkSUSpecifier`: append the declarations of one
member declaration to `structSpec.Members`, go on with the next list node. -/
def walkStructDeclarationListLoop (t : Translator) :
    cc.StructDeclarationList → CStructSpec → Except Panic CStructSpec
  | .mk declr next, structSpec => do
    let declarations ← walkStructDeclaration t declr
    let structSpec : CStructSpec :=
      { structSpec with Members := structSpec.Members ++ declarations }
    match next with
    | none => .ok structSpec
    | some nextList => walkStructDeclarationListLoop t nextList structSpec
termination_by structural x _ => x

/-- Embedding of `walkStructDeclaration`. -/
def walkStructDeclaration (t : Translator) :
    cc.StructDeclaration → Except Panic (List CDecl)
  | .mk specifiers declaratorListOpt => do
    let refDecl ← walkSpecifierQualifierListLoop t specifiers { Spec := .typeSpec {} }
    match declaratorListOpt with
    | none => .error .nilDereference
    | some list => walkStructDeclaratorListLoop t refDecl list []
termination_by structural x => x

/-- The loop `for nextList != nil { nextList = walkSpecifierQualifierList(nextList, refDecl) }`
entered at a list node. -/
def walkSpecifierQualifierListLoop (t : Translator) :
    cc.SpecifierQualifierList → CDecl → Except Panic CDecl
  | .typeSpecifier typeSpec none, decl => walkTypeSpec t typeSpec decl
  | .typeSpecifier typeSpec (some next), decl => do
    let decl ← walkTypeSpec t typeSpec decl
    walkSpecifierQualifierListLoop t next decl
  | .typeQualifier q none, decl => .ok (setConst q decl)
  | .typeQualifier q (some next), decl =>
    walkSpecifierQualifierListLoop t next (setConst q decl)
termination_by structural x _ => x

/-- The declarator loop of `walkStructDeclaration`: a fresh node with a copy
of the reference descriptor is walked by `walkStructDeclarator` and appended
to `declarations`, for every node of the list. -/
def walkStructDeclaratorListLoop (t : Translator) (refDecl : CDecl) :
    cc.StructDeclaratorList → List CDecl → Except Panic (List CDecl)
  | .mk declarator next, declarations => do
    let decl ← walkStructDeclarator t declarator { Spec := refDecl.Spec.Copy }
    match next with
    | none => .ok (declarations ++ [decl])
    | some nextList => walkStructDeclaratorListLoop t refDecl nextList (declarations ++ [decl])
termination_by structural x _ => x

/-- Embedding of `walkStructDeclarator`. -/
def walkStructDeclarator (t : Translator) :
    cc.StructDeclarator → CDecl → Except Panic CDecl
  | .declarator (.mk popt dd), decl => walkDirectDeclaratorLoop t dd (walkPointers popt decl)
  | .bitField _ _, decl => .ok decl
termination_by structural x _ => x

end

/-- Embedding of `walkDirectDeclarator`: one step, giving `next` and the node. -/
def walkDirectDeclarator (t : Translator) (declr : cc.DirectDeclarator) (decl : CDecl) :
    Except Panic (Option cc.DirectDeclarator × CDecl) :=
  let decl : CDecl := { decl with Pos := declr.Token.Pos }
  match declr with
  | .ident tok => .ok (none, { decl with Name := tok.S })
  | .paren _ declarator => .ok (some declarator.DirectDeclarator, walkPointers declarator.PointerOpt decl)
  | .array _ dd aeOpt => .ok (some dd, addDimension t none aeOpt decl)
  | .arrayStatic _ dd ae => .ok (some dd, addDimension t (some ae) none decl)
  | .arrayQualStatic _ dd ae => .ok (some dd, addDimension t (some ae) none decl)
  | .arrayStar _ dd => .ok (some dd, addDimension t none none decl)
  | .func _ dd dd2 => do
    let decl ← walkDirectDeclarator2 t dd2 (wrapFunction decl)
    .ok (some dd, decl)

/-- Embedding of `walkInitializer`. -/
def walkInitializer (t : Translator) (init : cc.Initializer) (decl : CDecl) : CDecl :=
  match init with
  | .expr ae =>
    { decl with
      Value := t.EvalAssignmentExpression (some ae)
      Expression := t.ExpandAssignmentExpression (some ae) }
  | .list _ => decl
  | .listComma _ => decl

/-- Embedding of `walkInitDeclaratorList`: `next` and the node. -/
def walkInitDeclaratorList (t : Translator) (declr : cc.InitDeclaratorList) (decl : CDecl) :
    Except Panic (Option cc.InitDeclaratorList × CDecl) :=
  match declr with
  | .mk initDeclarator next =>
    let decl := walkPointers initDeclarator.Declarator.PointerOpt decl
    let decl :=
      match initDeclarator with
      | .declarator _ => decl
      | .init _ init => walkInitializer t init decl
    do
      let decl ← walkDirectDeclaratorLoop t initDeclarator.Declarator.DirectDeclarator decl
      .ok (next, decl)

/-- The declarator loop of `walkDeclaration`, entered at a list node: a fresh
node with a copy of the reference descriptor is walked, appended to
`declarations` and recorded in the symbol table. -/
def walkDeclaration.loop (t : Translator) (refDecl : CDecl) :
    cc.InitDeclaratorList → List CDecl → ValueMap → Except Panic (List CDecl × ValueMap)
  | .mk initDeclarator next, declarations, valueMap => do
    let (_, decl) ← walkInitDeclaratorList t (.mk initDeclarator next) { Spec := refDecl.Spec.Copy }
    let declarations := declarations ++ [decl]
    let valueMap := valueMap.set decl.Name decl.Value
    match next with
    | none => .ok (declarations, valueMap)
    | some nextList => walkDeclaration.loop t refDecl nextList declarations valueMap
termination_by structural x _ _ => x

/-- Embedding of `walkDeclaration`; the `error` result of the Go function is
always nil, so the result is the list and the symbol table. -/
def walkDeclaration (t : Translator) (valueMap : ValueMap) (declr : Option cc.Declaration) :
    Except Panic (List CDecl × ValueMap) :=
  match declr with
  | none => .error .nilDereference
  | some declr => do
    let refDecl ← walkDeclarationSpecLoop t declr.DeclarationSpecifiers { Spec := .typeSpec {} }
    match declr.InitDeclaratorListOpt with
    | none => .ok ([], valueMap)
    | some list => walkDeclaration.loop t refDecl list [] valueMap

/-- The base descriptor of the specifier `int`. -/
def intSpec : CType := .typeSpec { Base := "int" }

/-- The node of a walk result, `none` after a panic. -/
def resultNode {α : Type} : Except Panic (α × CDecl) → Option CDecl
  | .ok r => some r.2
  | .error _ => none

/-- The return-type node of a node with a Function descriptor. -/
def returnsNode (decl : CDecl) : Option CDecl :=
  match decl.Spec with
  | .functionSpec spec => some spec.Returns
  | _ => none

/-- The base of a node with a scalar descriptor. -/
def baseOf (decl : CDecl) : Option String :=
  match decl.Spec with
  | .typeSpec spec => some spec.Base
  | _ => none

/-- A return-type node as Case 6 of `walkDirectDeclarator` leaves it: an empty
name and no constant value. -/
def returnsFresh (r : CDecl) : Bool :=
  r.Name == "" && r.Value.isNone

mutual

/-- Every return-type node inside a descriptor, at any nesting level (the
return-type node of a Function descriptor, inside its descriptor, inside the
parameters and inside the members of an Aggregate descriptor), is fresh. -/
def returnsClean : CType → Bool
  | .typeSpec _ => true
  | .structSpec ⟨_, _, members, _, _⟩ => cleanNodes members
  | .functionSpec ⟨returns, params, _, _⟩ =>
    returnsFresh returns && cleanNode returns && cleanNodes params
termination_by structural x => x

/-- Every return-type node inside the descriptor of a node is fresh. -/
def cleanNode : CDecl → Bool
  | ⟨spec, _, _, _, _⟩ => returnsClean spec
termination_by structural x => x

/-- Every return-type node inside the nodes of a list is fresh. -/
def cleanNodes : List CDecl → Bool
  | [] => true
  | d :: ds => cleanNode d && cleanNodes ds
termination_by structural x => x

end

end onDescriptor

/-! ## Theorems -/

@[simp] theorem bind_ok_eq {α β : Type} (a : α) (f : α → Except Panic β) :
    (Except.ok a >>= f) = f a := rfl

@[simp] theorem bind_error_eq {α β : Type} (e : Panic) (f : α → Except Panic β) :
    (Except.error e >>= f) = Except.error e := rfl

/-! ### Pointer prefixes -/

theorem walkPointers_loop_eq :
    ∀ (p : cc.Pointer) (c : Nat), walkPointers.loop p c % 256 = (c + (pointerCount p - 1)) % 256
  | .mk none, c => by simp [walkPointers.loop, pointerCount]
  | .mk (some q), c => by
    rw [walkPointers.loop, walkPointers_loop_eq q, pointerCount]
    have : 1 ≤ pointerCount q := by cases q with | mk o => cases o <;> simp [pointerCount]
    omega

theorem pointerCount_pos (p : cc.Pointer) : 1 ≤ pointerCount p := by
  cases p with | mk o => cases o <;> simp [pointerCount]

theorem pointerCount_pointerChain (n : Nat) : pointerCount (pointerChain n) = n + 1 := by
  induction n with
  | zero => rfl
  | succ n ih => simp [pointerChain, pointerCount, ih]

theorem walkPointers_some (p : cc.Pointer) (decl : CDecl) :
    walkPointers (some p) decl = { decl with Pointers := pointerCount p % 256 } := by
  have h := walkPointers_loop_eq p 1
  have hp := pointerCount_pos p
  simp only [walkPointers, CDeclOf.SetPointers]
  rw [h]
  congr 2
  omega

theorem walkPointers_loop_lt :
    ∀ (p : cc.Pointer) (c : Nat), c < 256 → walkPointers.loop p c < 256
  | .mk none, c, h => by simpa [walkPointers.loop] using h
  | .mk (some q), c, _ => by
    rw [walkPointers.loop]
    exact walkPointers_loop_lt q _ (Nat.mod_lt _ (by decide))

theorem walkPointers_loop_one (p : cc.Pointer) :
    walkPointers.loop p 1 = pointerCount p % 256 := by
  have h := walkPointers_loop_eq p 1
  have hlt := walkPointers_loop_lt p 1 (by decide)
  have hp := pointerCount_pos p
  rw [Nat.mod_eq_of_lt hlt] at h
  rw [h]
  congr 1
  omega

/-- C3 (amended): for a chain of N >= 1 consecutive pointer markers the value
`walkPointers` passes to `SetPointers` is N mod 256 (its counter is a
`uint8`); that value becomes the pointer depth and no other field of the node
changes; the stored depth is N itself whenever N <= 255; with no pointer
marker the node is left unchanged. -/
theorem C3_walkPointers_depth (p : cc.Pointer) (decl : CDecl) :
    walkPointers.loop p 1 = pointerCount p % 256 ∧
    walkPointers (some p) decl = { decl with Pointers := pointerCount p % 256 } ∧
    (walkPointers (some p) decl).Pointers =
      (if pointerCount p ≤ 255 then pointerCount p else pointerCount p % 256) ∧
    walkPointers none decl = decl := by
  refine ⟨walkPointers_loop_one p, walkPointers_some p decl, ?_, rfl⟩
  rw [walkPointers_some]
  split
  · exact Nat.mod_eq_of_lt (by omega)
  · rfl

/-- C3 (counterexample): a chain of 256 consecutive pointer markers leaves the
pointer depth at 0, not 256. -/
theorem C3_counterexample_256 :
    pointerCount (pointerChain 255) = 256 ∧
    (walkPointers (some (pointerChain 255)) { Spec := .typeSpec {} }).Pointers = 0 ∧
    (walkPointers (some (pointerChain 255)) { Spec := .typeSpec {} }).Pointers ≠
      pointerCount (pointerChain 255) := by
  have h := pointerCount_pointerChain 255
  refine ⟨h, ?_, ?_⟩
  · rw [walkPointers_some, h]
  · rw [walkPointers_some, h]
    decide

/-! ### The loops against the step functions -/

theorem walkDirectDeclaratorLoop_eq (t : Translator) (declr : cc.DirectDeclarator)
    (decl : CDecl) :
    walkDirectDeclaratorLoop t declr decl =
      (walkDirectDeclarator t declr decl >>= fun r =>
        match r.1 with
        | none => .ok r.2
        | some next => walkDirectDeclaratorLoop t next r.2) := by
  cases declr with
  | ident tok => simp [walkDirectDeclaratorLoop, walkDirectDeclarator, cc.DirectDeclarator.Token]
  | paren tok d =>
    cases d with
    | mk popt dd =>
      simp [walkDirectDeclaratorLoop, walkDirectDeclarator, cc.DirectDeclarator.Token,
        cc.Declarator.PointerOpt, cc.Declarator.DirectDeclarator]
  | array tok dd ae => simp [walkDirectDeclaratorLoop, walkDirectDeclarator, cc.DirectDeclarator.Token]
  | arrayStatic tok dd ae =>
    simp [walkDirectDeclaratorLoop, walkDirectDeclarator, cc.DirectDeclarator.Token]
  | arrayQualStatic tok dd ae =>
    simp [walkDirectDeclaratorLoop, walkDirectDeclarator, cc.DirectDeclarator.Token]
  | arrayStar tok dd => simp [walkDirectDeclaratorLoop, walkDirectDeclarator, cc.DirectDeclarator.Token]
  | func tok dd dd2 =>
    simp only [walkDirectDeclaratorLoop, walkDirectDeclarator, cc.DirectDeclarator.Token]
    cases walkDirectDeclarator2 t dd2 (wrapFunction { decl with Pos := tok.Pos }) <;> rfl

theorem walkDeclarationSpecLoop_eq (t : Translator) (declr : cc.DeclarationSpecifiers)
    (decl : CDecl) :
    walkDeclarationSpecLoop t declr decl =
      (walkDeclarationSpec t declr decl >>= fun r =>
        match r.1 with
        | none => .ok r.2
        | some next => walkDeclarationSpecLoop t next r.2) := by
  cases declr with
  | storageClass opt => cases opt <;> simp [walkDeclarationSpecLoop, walkDeclarationSpec]
  | typeSpecifier ts opt =>
    cases opt <;> simp only [walkDeclarationSpecLoop, walkDeclarationSpec] <;>
      cases walkTypeSpec t ts decl <;> rfl
  | typeQualifier q opt => cases opt <;> simp [walkDeclarationSpecLoop, walkDeclarationSpec]
  | functionSpecifier tok opt => simp [walkDeclarationSpecLoop, walkDeclarationSpec]

theorem walkSpecifierQualifierListLoop_eq (t : Translator)
    (declr : cc.SpecifierQualifierList) (decl : CDecl) :
    walkSpecifierQualifierListLoop t declr decl =
      (walkSpecifierQualifierList t declr decl >>= fun r =>
        match r.1 with
        | none => .ok r.2
        | some next => walkSpecifierQualifierListLoop t next r.2) := by
  cases declr with
  | typeSpecifier ts opt =>
    cases opt <;> simp only [walkSpecifierQualifierListLoop, walkSpecifierQualifierList] <;>
      cases walkTypeSpec t ts decl <;> rfl
  | typeQualifier q opt =>
    cases opt <;> simp [walkSpecifierQualifierListLoop, walkSpecifierQualifierList]

theorem walkParameterListLoop_eq (t : Translator) (list : cc.ParameterList)
    (spec : CFunctionSpec) :
    walkParameterListLoop t list spec =
      (walkParameterList t list >>= fun r =>
        let spec : CFunctionSpec :=
          match r.2 with
          | some p => { spec with ParamList := spec.ParamList ++ [p] }
          | none => spec
        match r.1 with
        | none => .ok spec
        | some nextList => walkParameterListLoop t nextList spec) := by
  cases list with
  | mk tok declr next =>
    simp only [walkParameterListLoop, walkParameterList]
    cases walkParameterDeclaration t declr <;> rfl

theorem walkInitDeclaratorList_fst (t : Translator) (d : cc.InitDeclarator)
    (next n : Option cc.InitDeclaratorList) (decl node : CDecl)
    (h : walkInitDeclaratorList t (.mk d next) decl = .ok (n, node)) : n = next := by
  simp only [walkInitDeclaratorList] at h
  generalize walkDirectDeclaratorLoop t d.Declarator.DirectDeclarator _ = r at h
  cases r with
  | error e => cases h
  | ok v =>
    simp only [bind_ok_eq, Except.ok.injEq, Prod.mk.injEq] at h
    exact h.1.symm

theorem walkUnit_fst (t : Translator) (valueMap valueMap' : ValueMap)
    (externalDeclaration : Option cc.ExternalDeclaration)
    (next n : Option cc.TranslationUnit) (cdecls : List CDecl)
    (h : walkUnit t valueMap (some (.mk externalDeclaration next)) =
      .ok (n, cdecls, valueMap')) : n = next := by
  cases externalDeclaration with
  | none =>
    simp only [walkUnit, Except.ok.injEq, Prod.mk.injEq] at h
    exact h.1.symm
  | some ed =>
    simp only [walkUnit] at h
    cases hw : walkDeclaration t valueMap ed.Declaration with
    | error e => rw [hw] at h; cases h
    | ok v =>
      rw [hw] at h
      simp only [bind_ok_eq, Except.ok.injEq, Prod.mk.injEq] at h
      exact h.1.symm

/-! ### C2: array suffixes -/

theorem arraySuffixes_append (inner : cc.DirectDeclarator)
    (dims : List (cc.Token × Option cc.AssignmentExpression))
    (x : cc.Token × Option cc.AssignmentExpression) :
    arraySuffixes inner (dims ++ [x]) = .array x.1 (arraySuffixes inner dims) x.2 := by
  simp [arraySuffixes, List.foldl_append]

theorem walkDirectDeclaratorLoop_arraySuffixes (t : Translator) (inner : cc.DirectDeclarator)
    (dims : List (cc.Token × Option cc.AssignmentExpression)) :
    ∀ decl : CDecl, walkDirectDeclaratorLoop t (arraySuffixes inner dims) decl =
      walkDirectDeclaratorLoop t inner (afterSuffixes t dims decl) := by
  induction dims using List.reverseRecOn with
  | nil => intro decl; rfl
  | append_singleton dims x ih =>
    intro decl
    rw [arraySuffixes_append, walkDirectDeclaratorLoop, ih]
    simp [afterSuffixes, List.foldr_append]

theorem afterSuffixes_eq (t : Translator)
    (dims : List (cc.Token × Option cc.AssignmentExpression)) (decl : CDecl) :
    afterSuffixes t dims decl =
      { decl with
        Pos := (dims.head?.map (fun x => x.1.Pos)).getD decl.Pos
        Arrays := decl.Arrays ++ dims.reverse.map (fun x => t.ExpandAssignmentExpression x.2) } := by
  induction dims with
  | nil => simp [afterSuffixes]
  | cons x xs ih =>
    have h : afterSuffixes t (x :: xs) decl =
        addDimension t none x.2 { afterSuffixes t xs decl with Pos := x.1.Pos } := rfl
    rw [h, ih]
    obtain ⟨tok, ae⟩ := x
    cases ae <;> simp [addDimension, CDeclOf.AddArray]

/-- C2 (amended): for the declarator `a[X1]...[Xn]` the walk meets the
suffixes from the root of the parse tree, `[Xn]` first and `[X1]` last, and
`AddArray` appends in that order: the resolved node is named a and its array
dimensions are the previous ones followed by the renderings of
`Xn, ..., X1`, the reverse of the written order.  The same holds one level up
in `walkInitDeclaratorList`. -/
theorem C2_array_dimensions_in_walk_order (t : Translator) (tok : cc.Token)
    (dims : List (cc.Token × Option cc.AssignmentExpression)) (decl : CDecl)
    (next : Option cc.InitDeclaratorList) :
    walkDirectDeclaratorLoop t (arraySuffixes (.ident tok) dims) decl =
      .ok { decl with
            Name := tok.S
            Pos := tok.Pos
            Arrays := decl.Arrays ++
              (dims.map (fun x => t.ExpandAssignmentExpression x.2)).reverse } ∧
    walkInitDeclaratorList t
        (.mk (.declarator (.mk none (arraySuffixes (.ident tok) dims))) next) decl =
      .ok (next,
        { decl with
          Name := tok.S
          Pos := tok.Pos
          Arrays := decl.Arrays ++
            (dims.map (fun x => t.ExpandAssignmentExpression x.2)).reverse }) := by
  have h : walkDirectDeclaratorLoop t (arraySuffixes (.ident tok) dims) decl =
      .ok { decl with
            Name := tok.S
            Pos := tok.Pos
            Arrays := decl.Arrays ++
              (dims.map (fun x => t.ExpandAssignmentExpression x.2)).reverse } := by
    rw [walkDirectDeclaratorLoop_arraySuffixes, afterSuffixes_eq, walkDirectDeclaratorLoop]
    simp [List.map_reverse]
  refine ⟨h, ?_⟩
  simp only [walkInitDeclaratorList, cc.InitDeclarator.Declarator, cc.Declarator.PointerOpt,
    cc.Declarator.DirectDeclarator, walkPointers]
  rw [h]
  rfl

/-- C2 (counterexample): for `a[2][3]` the resolved dimensions are
`["3", "2"]`, not `["2", "3"]`. -/
theorem C2_counterexample_two_dimensions :
    (resultNode (walkInitDeclaratorList sampleTranslator
        (.mk (.declarator (.mk none
          (arraySuffixes (.ident ⟨4, "a"⟩)
            [(⟨5, "["⟩, some ⟨⟨6, "2"⟩⟩), (⟨8, "["⟩, some ⟨⟨9, "3"⟩⟩)]))) none)
        { Spec := intSpec })).map (fun n => n.Arrays) = some ["3", "2"] ∧
    (resultNode (walkInitDeclaratorList sampleTranslator
        (.mk (.declarator (.mk none
          (arraySuffixes (.ident ⟨4, "a"⟩)
            [(⟨5, "["⟩, some ⟨⟨6, "2"⟩⟩), (⟨8, "["⟩, some ⟨⟨9, "3"⟩⟩)]))) none)
        { Spec := intSpec })).map (fun n => n.Arrays) ≠ some ["2", "3"] := by
  decide

/-! ### C4: declarations without function suffixes -/

theorem walkPointers_Spec (popt : Option cc.Pointer) (decl : CDecl) :
    (walkPointers popt decl).Spec = decl.Spec := by
  cases popt <;> rfl

theorem addDimension_Spec (t : Translator) (a b : Option cc.AssignmentExpression)
    (decl : CDecl) : (addDimension t a b decl).Spec = decl.Spec := rfl

theorem walkInitializer_Spec (t : Translator) (init : cc.Initializer) (decl : CDecl) :
    (walkInitializer t init decl).Spec = decl.Spec := by
  cases init <;> rfl

theorem walkDirectDeclaratorLoop_plain (t : Translator) :
    ∀ (dd : cc.DirectDeclarator) (decl : CDecl), noFunctionSuffix dd = true →
      ∃ decl', walkDirectDeclaratorLoop t dd decl = .ok decl' ∧ decl'.Spec = decl.Spec
  | .ident tok, decl, _ => ⟨_, rfl, rfl⟩
  | .paren tok (.mk popt dd), decl, h => by
    obtain ⟨d, h1, h2⟩ := walkDirectDeclaratorLoop_plain t dd
      (walkPointers popt { decl with Pos := tok.Pos }) (by simpa [noFunctionSuffix] using h)
    exact ⟨d, by rw [walkDirectDeclaratorLoop, h1], by rw [h2, walkPointers_Spec]⟩
  | .array tok dd ae, decl, h => by
    obtain ⟨d, h1, h2⟩ := walkDirectDeclaratorLoop_plain t dd
      (addDimension t none ae { decl with Pos := tok.Pos }) (by simpa [noFunctionSuffix] using h)
    exact ⟨d, by rw [walkDirectDeclaratorLoop, h1], by rw [h2, addDimension_Spec]⟩
  | .arrayStatic tok dd ae, decl, h => by
    obtain ⟨d, h1, h2⟩ := walkDirectDeclaratorLoop_plain t dd
      (addDimension t (some ae) none { decl with Pos := tok.Pos })
      (by simpa [noFunctionSuffix] using h)
    exact ⟨d, by rw [walkDirectDeclaratorLoop, h1], by rw [h2, addDimension_Spec]⟩
  | .arrayQualStatic tok dd ae, decl, h => by
    obtain ⟨d, h1, h2⟩ := walkDirectDeclaratorLoop_plain t dd
      (addDimension t (some ae) none { decl with Pos := tok.Pos })
      (by simpa [noFunctionSuffix] using h)
    exact ⟨d, by rw [walkDirectDeclaratorLoop, h1], by rw [h2, addDimension_Spec]⟩
  | .arrayStar tok dd, decl, h => by
    obtain ⟨d, h1, h2⟩ := walkDirectDeclaratorLoop_plain t dd
      (addDimension t none none { decl with Pos := tok.Pos })
      (by simpa [noFunctionSuffix] using h)
    exact ⟨d, by rw [walkDirectDeclaratorLoop, h1], by rw [h2, addDimension_Spec]⟩
  | .func _ _ _, _, h => by simp [noFunctionSuffix] at h

theorem walkInitDeclaratorList_plain (t : Translator) (d : cc.InitDeclarator)
    (next : Option cc.InitDeclaratorList) (decl : CDecl)
    (h : noFunctionSuffix d.Declarator.DirectDeclarator = true) :
    ∃ node, walkInitDeclaratorList t (.mk d next) decl = .ok (next, node) ∧
      node.Spec = decl.Spec := by
  cases d with
  | declarator dr =>
    obtain ⟨n, h1, h2⟩ := walkDirectDeclaratorLoop_plain t dr.DirectDeclarator
      (walkPointers dr.PointerOpt decl) h
    refine ⟨n, ?_, by rw [h2, walkPointers_Spec]⟩
    simp only [walkInitDeclaratorList, cc.InitDeclarator.Declarator]
    rw [h1]
    rfl
  | init dr i =>
    obtain ⟨n, h1, h2⟩ := walkDirectDeclaratorLoop_plain t dr.DirectDeclarator
      (walkInitializer t i (walkPointers dr.PointerOpt decl)) h
    refine ⟨n, ?_, by rw [h2, walkInitializer_Spec, walkPointers_Spec]⟩
    simp only [walkInitDeclaratorList, cc.InitDeclarator.Declarator]
    rw [h1]
    rfl

theorem walkInitDeclaratorList_next (t : Translator) (d : cc.InitDeclarator)
    (next : Option cc.InitDeclaratorList) (decl node : CDecl)
    (h : walkInitDeclaratorList t (.mk d none) decl = .ok (none, node)) :
    walkInitDeclaratorList t (.mk d next) decl = .ok (next, node) := by
  cases d with
  | declarator dr =>
    simp only [walkInitDeclaratorList, cc.InitDeclarator.Declarator] at h ⊢
    cases hw : walkDirectDeclaratorLoop t dr.DirectDeclarator (walkPointers dr.PointerOpt decl) with
    | error e => rw [hw] at h; cases h
    | ok n =>
      rw [hw] at h
      simp only [bind_ok_eq, Except.ok.injEq, Prod.mk.injEq, true_and] at h ⊢
      exact h
  | init dr i =>
    simp only [walkInitDeclaratorList, cc.InitDeclarator.Declarator] at h ⊢
    cases hw : walkDirectDeclaratorLoop t dr.DirectDeclarator
        (walkInitializer t i (walkPointers dr.PointerOpt decl)) with
    | error e => rw [hw] at h; cases h
    | ok n =>
      rw [hw] at h
      simp only [bind_ok_eq, Except.ok.injEq, Prod.mk.injEq, true_and] at h ⊢
      exact h

theorem walkDeclaration_loop_plain (t : Translator) (refDecl : CDecl) :
    ∀ (l : cc.InitDeclaratorList) (acc : List CDecl) (valueMap : ValueMap),
      (∀ d ∈ initDeclaratorList l, noFunctionSuffix d.Declarator.DirectDeclarator = true) →
      ∃ nodes valueMap', walkDeclaration.loop t refDecl l acc valueMap =
          .ok (acc ++ nodes, valueMap') ∧
        nodes.map some = (initDeclaratorList l).map (nodeOfInitDeclarator t refDecl.Spec) ∧
        ∀ n ∈ nodes, n.Spec = refDecl.Spec
  | .mk d none, acc, valueMap, h => by
    obtain ⟨n, h1, h2⟩ := walkInitDeclaratorList_plain t d none { Spec := refDecl.Spec }
      (h d (by simp [initDeclaratorList]))
    refine ⟨[n], valueMap.set n.Name n.Value, ?_, ?_, ?_⟩
    · rw [walkDeclaration.loop]
      show (walkInitDeclaratorList t (.mk d none) { Spec := refDecl.Spec } >>= _) = _
      rw [h1]
      rfl
    · simp [initDeclaratorList, nodeOfInitDeclarator, h1, resultNode]
    · intro m hm
      simp only [List.mem_singleton] at hm
      rw [hm, h2]
  | .mk d (some next), acc, valueMap, h => by
    obtain ⟨n, h1, h2⟩ := walkInitDeclaratorList_plain t d none { Spec := refDecl.Spec }
      (h d (by simp [initDeclaratorList]))
    obtain ⟨ns, vm, h3, h4, h5⟩ := walkDeclaration_loop_plain t refDecl next (acc ++ [n])
      (valueMap.set n.Name n.Value)
      (fun d' hd' => h d' (by simp [initDeclaratorList, hd']))
    refine ⟨n :: ns, vm, ?_, ?_, ?_⟩
    · rw [walkDeclaration.loop]
      show (walkInitDeclaratorList t (.mk d (some next)) { Spec := refDecl.Spec } >>= _) = _
      rw [walkInitDeclaratorList_next t d (some next) _ n h1]
      simp only [bind_ok_eq]
      rw [h3]
      simp
    · simp [initDeclaratorList, nodeOfInitDeclarator, h1, resultNode, h4]
    · intro m hm
      rcases List.mem_cons.mp hm with hm | hm
      · rw [hm, h2]
      · exact h5 m hm

/-- When the specifier walk of a declaration yields the base descriptor
`refDecl.Spec` and its n >= 0 init-declarators have no function suffix,
`walkDeclaration` returns (with the nil error) exactly n nodes in source order;
node k is the node declarator k resolves to when walked alone on a copy of the
base descriptor, so its pointer depth and dimensions depend on declarator k
only, and its descriptor equals the base descriptor.  For `int a, *b, c[3];`
the nodes are a (depth 0, no dimension), b (depth 1, no dimension) and
c (depth 0, dimensions [3]), each with the descriptor of `int`. -/
theorem walkDeclaration_without_function_suffix (t : Translator) (valueMap : ValueMap)
    (declr : cc.Declaration) (refDecl : CDecl)
    (hspec : walkDeclarationSpecLoop t declr.DeclarationSpecifiers { Spec := .typeSpec {} } =
      .ok refDecl)
    (hplain : ∀ d ∈ initDeclarators declr,
      noFunctionSuffix d.Declarator.DirectDeclarator = true) :
    (∃ nodes valueMap', walkDeclaration t valueMap (some declr) = .ok (nodes, valueMap') ∧
      nodes.length = (initDeclarators declr).length ∧
      nodes.map some = (initDeclarators declr).map (nodeOfInitDeclarator t refDecl.Spec) ∧
      ∀ n ∈ nodes, n.Spec = refDecl.Spec) ∧
    (resultNodes (walkDeclaration sampleTranslator (fun _ => none) (some declarationC4))).map
        (fun nodes => nodes.map (fun n => (n.Name, n.Pointers, n.Arrays))) =
      some [("a", 0, []), ("b", 1, []), ("c", 0, ["3"])] ∧
    (resultNodes (walkDeclaration sampleTranslator (fun _ => none) (some declarationC4))).map
        (fun nodes => nodes.map (fun n =>
          match n.Spec with
          | .typeSpec spec => some spec
          | _ => none)) =
      some [some { Base := "int" }, some { Base := "int" }, some { Base := "int" }] := by
  refine ⟨?_, by decide, by decide⟩
  simp only [walkDeclaration]
  rw [hspec]
  simp only [bind_ok_eq]
  cases hl : declr.InitDeclaratorListOpt with
  | none =>
    refine ⟨[], valueMap, rfl, ?_, ?_, ?_⟩ <;> simp [initDeclarators, hl]
  | some l =>
    have hp : ∀ d ∈ initDeclaratorList l,
        noFunctionSuffix d.Declarator.DirectDeclarator = true := by
      intro d hd
      exact hplain d (by simpa [initDeclarators, hl] using hd)
    obtain ⟨ns, vm, h1, h2, h3⟩ := walkDeclaration_loop_plain t refDecl l [] valueMap hp
    refine ⟨ns, vm, by simpa using h1, ?_, ?_, h3⟩
    · have := congrArg List.length h2
      simpa [initDeclarators, hl] using this
    · simpa [initDeclarators, hl] using h2

/-- C4 (what the code does): for a declaration whose n >= 0 init-declarators
have no function suffix, `walkDeclaration` panics with the panic of the
specifier walk when that walk panics; otherwise it returns (with the nil
error) exactly n nodes in source order, node k being the node declarator k
resolves to when walked alone on a copy of the base descriptor, with the base
descriptor as its descriptor.  `int static x;` has one such declarator and
makes `walkDeclaration` panic on the nil `DeclarationSpecifiersOpt` of its
storage-class specifier, where `static int x;` gives the one node x; for
`int a, *b, c[3];` the nodes are a (depth 0), b (depth 1) and c (dimensions
[3]). -/
theorem C4_walkDeclaration_plain_declarators (t : Translator) (valueMap : ValueMap)
    (declr : cc.Declaration)
    (hplain : ∀ d ∈ initDeclarators declr,
      noFunctionSuffix d.Declarator.DirectDeclarator = true) :
    (match walkDeclarationSpecLoop t declr.DeclarationSpecifiers { Spec := .typeSpec {} } with
      | .error e => walkDeclaration t valueMap (some declr) = .error e
      | .ok refDecl =>
        ∃ nodes valueMap', walkDeclaration t valueMap (some declr) = .ok (nodes, valueMap') ∧
          nodes.length = (initDeclarators declr).length ∧
          nodes.map some = (initDeclarators declr).map (nodeOfInitDeclarator t refDecl.Spec) ∧
          ∀ n ∈ nodes, n.Spec = refDecl.Spec) ∧
    walkDeclaration t valueMap (some declarationIntStaticX) = .error .nilDereference ∧
    (resultNodes (walkDeclaration sampleTranslator (fun _ => none)
        (some declarationStaticIntX))).map
      (fun nodes => nodes.map (fun n => (n.Name, scalarOf n, n.Pointers, n.Arrays))) =
      some [("x", some { Base := "int" }, 0, [])] ∧
    (resultNodes (walkDeclaration sampleTranslator (fun _ => none) (some declarationC4))).map
        (fun nodes => nodes.map (fun n => (n.Name, scalarOf n, n.Pointers, n.Arrays))) =
      some [("a", some { Base := "int" }, 0, []), ("b", some { Base := "int" }, 1, []),
        ("c", some { Base := "int" }, 0, ["3"])] := by
  refine ⟨?_, rfl, rfl, rfl⟩
  cases hs : walkDeclarationSpecLoop t declr.DeclarationSpecifiers { Spec := .typeSpec {} } with
  | error e =>
    simp only [walkDeclaration, hs]
    rfl
  | ok refDecl =>
    exact (walkDeclaration_without_function_suffix t valueMap declr refDecl hs hplain).1

/-- C4 (witness): the theorem at `int static x;`, whose one declarator has no
function suffix and whose specifier walk panics. -/
theorem C4_witness :
    (∀ d ∈ initDeclarators declarationIntStaticX,
      noFunctionSuffix d.Declarator.DirectDeclarator = true) ∧
    walkDeclarationSpecLoop sampleTranslator declarationIntStaticX.DeclarationSpecifiers
        { Spec := .typeSpec {} } = .error .nilDereference ∧
    walkDeclaration sampleTranslator (fun _ => none) (some declarationIntStaticX) =
      .error .nilDereference :=
  ⟨by decide, rfl,
    (C4_walkDeclaration_plain_declarators sampleTranslator (fun _ => none)
      declarationIntStaticX (by decide)).1⟩

/-! ### C5: forward references -/

/-- C5 (what the code does): for a bare reference `struct IDENT` or
`union IDENT` `walkSUSpecifier` sets an Aggregate descriptor with the union
flag of the keyword and no member, but with an EMPTY tag: the identifier is
not read.  Resolving `struct Point p;` yields one node named p whose
Aggregate descriptor has tag "" (no member, not a union), while
`struct Point { int x; int y; } q;` yields tag "Point" with members x, y. -/
theorem C5_forward_reference_tag_is_empty (t : Translator) (tok : cc.Token) (decl : CDecl) :
    walkSUSpecifier t (.reference .Struct tok) decl =
      .ok { decl with Spec := .structSpec { Tag := "", Union := false, Members := [] } } ∧
    walkSUSpecifier t (.reference .Union tok) decl =
      .ok { decl with Spec := .structSpec { Tag := "", Union := true, Members := [] } } ∧
    (resultNodes (walkDeclaration sampleTranslator (fun _ => none)
        (some declarationStructPointP))).map
      (fun nodes => nodes.map (fun n =>
        (n.Name, (aggregateOf n).map (fun a => (a.1, a.2.1, a.2.2.length))))) =
      some [("p", some ("", false, 0))] ∧
    (resultNodes (walkDeclaration sampleTranslator (fun _ => none)
        (some declarationStructPointQ))).map
      (fun nodes => nodes.map (fun n =>
        (n.Name, (aggregateOf n).map (fun a => (a.1, a.2.1, a.2.2.map (fun m => m.Name)))))) =
      some [("q", some ("Point", false, ["x", "y"]))] := by
  refine ⟨rfl, rfl, by decide, rfl⟩

/-! ### C7: bit-field members -/

/-- C7 (what the code does): `walkStructDeclarator` leaves the node of a
bit-field declarator untouched and the loop of `walkStructDeclaration` appends
that node all the same, a fresh unnamed node carrying the reference
descriptor, before going on with the next declarator: `int a, b : 3, c;`
yields three nodes, a, an unnamed node with the descriptor of `int`, and c. -/
theorem C7_bit_field_node_is_appended (t : Translator) (tok : cc.Token)
    (declaratorOpt : Option cc.Declarator) (decl refDecl : CDecl)
    (next : cc.StructDeclaratorList) (declarations : List CDecl) :
    walkStructDeclarator t (.bitField tok declaratorOpt) decl = .ok decl ∧
    walkStructDeclaratorListLoop t refDecl (.mk (.bitField tok declaratorOpt) none)
        declarations = .ok (declarations ++ [{ Spec := refDecl.Spec }]) ∧
    walkStructDeclaratorListLoop t refDecl (.mk (.bitField tok declaratorOpt) (some next))
        declarations =
      walkStructDeclaratorListLoop t refDecl next (declarations ++ [{ Spec := refDecl.Spec }]) ∧
    (okValue (walkStructDeclaration sampleTranslator memberDeclarationBitField)).map
      (fun nodes => nodes.map (fun n => (n.Name, scalarOf n))) =
      some [("a", some { Base := "int" }), ("", some { Base := "int" }),
        ("c", some { Base := "int" })] ∧
    (okValue (walkStructDeclaration sampleTranslator memberDeclarationBitField)).map
      List.length = some 3 := by
  refine ⟨rfl, rfl, rfl, by decide, by decide⟩

/-! ### C6: aggregates with an inline member list -/

theorem walkStructDeclaratorListLoop_plain (t : Translator) (refDecl : CDecl) :
    ∀ (l : cc.StructDeclaratorList) (acc nodes : List CDecl),
      List.Forall₂ (PlainMemberNode t refDecl.Spec) (structDeclarators l) nodes →
      walkStructDeclaratorListLoop t refDecl l acc = .ok (acc ++ nodes)
  | .mk d none, acc, nodes, h => by
    rw [structDeclarators, List.forall₂_cons_left_iff] at h
    obtain ⟨n, ns, hd, hns, rfl⟩ := h
    cases hns
    cases d with
    | declarator dr =>
      cases dr with
      | mk popt dd =>
        have hd' : walkDirectDeclaratorLoop t dd (walkPointers popt { Spec := refDecl.Spec.Copy }) =
            .ok n := hd
        rw [walkStructDeclaratorListLoop, walkStructDeclarator, hd']
        rfl
    | bitField tok o => exact hd.elim
  | .mk d (some next), acc, nodes, h => by
    rw [structDeclarators, List.forall₂_cons_left_iff] at h
    obtain ⟨n, ns, hd, hns, rfl⟩ := h
    have ih := walkStructDeclaratorListLoop_plain t refDecl next (acc ++ [n]) ns hns
    cases d with
    | declarator dr =>
      cases dr with
      | mk popt dd =>
        have hd' : walkDirectDeclaratorLoop t dd (walkPointers popt { Spec := refDecl.Spec.Copy }) =
            .ok n := hd
        rw [walkStructDeclaratorListLoop, walkStructDeclarator, hd']
        simp only [bind_ok_eq]
        rw [ih]
        simp
    | bitField tok o => exact hd.elim

theorem walkStructDeclaration_plain (t : Translator) (declr : cc.StructDeclaration)
    (nodes : List CDecl) (h : MemberNodes t declr nodes) :
    walkStructDeclaration t declr = .ok nodes := by
  cases declr with
  | mk specifiers opt =>
    cases opt with
    | none => exact h.elim
    | some list =>
      obtain ⟨refDecl, h1, h2⟩ := h
      rw [walkStructDeclaration, h1]
      simp only [bind_ok_eq]
      rw [walkStructDeclaratorListLoop_plain t refDecl list [] nodes h2]
      rfl

theorem walkStructDeclarationListLoop_plain (t : Translator) :
    ∀ (list : cc.StructDeclarationList) (structSpec : CStructSpec) (nodes : List (List CDecl)),
      List.Forall₂ (MemberNodes t) (structDeclarations list) nodes →
      walkStructDeclarationListLoop t list structSpec =
        .ok { structSpec with Members := structSpec.Members ++ nodes.flatten }
  | .mk d none, structSpec, nodes, h => by
    rw [structDeclarations, List.forall₂_cons_left_iff] at h
    obtain ⟨n, ns, hd, hns, rfl⟩ := h
    cases hns
    rw [walkStructDeclarationListLoop, walkStructDeclaration_plain t d n hd]
    simp
  | .mk d (some next), structSpec, nodes, h => by
    rw [structDeclarations, List.forall₂_cons_left_iff] at h
    obtain ⟨n, ns, hd, hns, rfl⟩ := h
    rw [walkStructDeclarationListLoop, walkStructDeclaration_plain t d n hd]
    simp only [bind_ok_eq]
    rw [walkStructDeclarationListLoop_plain t next _ ns hns]
    simp

/-- When the member declarations of an inline member list resolve to the node
lists `nodes`, `walkSUSpecifier` sets the Aggregate descriptor with the tag,
the union flag and all those nodes in source order. -/
theorem walkSUSpecifier_of_memberNodes (t : Translator) (su : cc.StructOrUnion)
    (identifierOpt : Option cc.Token) (list : cc.StructDeclarationList) (decl : CDecl)
    (nodes : List (List CDecl))
    (h : List.Forall₂ (MemberNodes t) (structDeclarations list) nodes) :
    walkSUSpecifier t (.withMembers su identifierOpt list) decl =
      .ok { decl with
            Spec := .structSpec
              { Tag := (identifierOpt.map (fun tok => tok.S)).getD ""
                Union := (su == .Union)
                Members := nodes.flatten } } := by
  rw [walkSUSpecifier]
  cases su <;> cases identifierOpt <;>
    simp only [walkSUSpecifier0, bind_ok_eq] <;>
    rw [walkStructDeclarationListLoop_plain t list _ nodes h] <;>
    rfl

theorem walkStructDeclaratorListLoop_inv (t : Translator) (refDecl : CDecl) :
    ∀ (l : cc.StructDeclaratorList) (acc out : List CDecl),
      (∀ m ∈ structDeclarators l, isBitField m = false) →
      walkStructDeclaratorListLoop t refDecl l acc = .ok out →
      ∃ nodes, List.Forall₂ (PlainMemberNode t refDecl.Spec) (structDeclarators l) nodes ∧
        out = acc ++ nodes
  | .mk d none, acc, out, hp, h => by
    cases d with
    | bitField tok o => simp [structDeclarators, isBitField] at hp
    | declarator dr =>
      cases dr with
      | mk popt dd =>
        rw [walkStructDeclaratorListLoop, walkStructDeclarator] at h
        cases hw : walkDirectDeclaratorLoop t dd (walkPointers popt { Spec := refDecl.Spec.Copy }) with
        | error e => rw [hw] at h; cases h
        | ok n =>
          rw [hw] at h
          simp only [bind_ok_eq, Except.ok.injEq] at h
          exact ⟨[n], by rw [structDeclarators]; exact .cons hw .nil, h.symm⟩
  | .mk d (some next), acc, out, hp, h => by
    cases d with
    | bitField tok o => simp [structDeclarators, isBitField] at hp
    | declarator dr =>
      cases dr with
      | mk popt dd =>
        rw [walkStructDeclaratorListLoop, walkStructDeclarator] at h
        cases hw : walkDirectDeclaratorLoop t dd (walkPointers popt { Spec := refDecl.Spec.Copy }) with
        | error e => rw [hw] at h; cases h
        | ok n =>
          rw [hw] at h
          simp only [bind_ok_eq] at h
          obtain ⟨ns, h1, h2⟩ := walkStructDeclaratorListLoop_inv t refDecl next (acc ++ [n]) out
            (fun m hm => hp m (by rw [structDeclarators]; exact List.mem_cons_of_mem _ hm)) h
          exact ⟨n :: ns, by rw [structDeclarators]; exact .cons hw h1, by rw [h2]; simp⟩

theorem walkStructDeclaration_lacks (t : Translator) (declr : cc.StructDeclaration)
    (h : lacksDeclarators declr = true) : ∃ e, walkStructDeclaration t declr = .error e := by
  cases declr with
  | mk specifiers opt =>
    cases opt with
    | some l => simp [lacksDeclarators] at h
    | none =>
      rw [walkStructDeclaration]
      cases walkSpecifierQualifierListLoop t specifiers { Spec := .typeSpec {} } with
      | error e => exact ⟨e, rfl⟩
      | ok r => exact ⟨.nilDereference, rfl⟩

theorem walkStructDeclaration_inv (t : Translator) (declr : cc.StructDeclaration)
    (nodes : List CDecl) (hp : ∀ m ∈ memberDeclarators declr, isBitField m = false)
    (h : walkStructDeclaration t declr = .ok nodes) : MemberNodes t declr nodes := by
  cases declr with
  | mk specifiers opt =>
    cases opt with
    | none =>
      obtain ⟨e, he⟩ := walkStructDeclaration_lacks t (.mk specifiers none) rfl
      rw [he] at h
      cases h
    | some l =>
      rw [walkStructDeclaration] at h
      cases hs : walkSpecifierQualifierListLoop t specifiers { Spec := .typeSpec {} } with
      | error e => rw [hs] at h; cases h
      | ok refDecl =>
        rw [hs] at h
        simp only [bind_ok_eq] at h
        obtain ⟨ns, h1, h2⟩ := walkStructDeclaratorListLoop_inv t refDecl l [] nodes hp h
        rw [List.nil_append] at h2
        subst h2
        exact ⟨refDecl, hs, h1⟩

theorem walkStructDeclarationListLoop_inv (t : Translator) :
    ∀ (list : cc.StructDeclarationList) (structSpec out : CStructSpec),
      (∀ d ∈ structDeclarations list, ∀ m ∈ memberDeclarators d, isBitField m = false) →
      walkStructDeclarationListLoop t list structSpec = .ok out →
      ∃ nodes, List.Forall₂ (MemberNodes t) (structDeclarations list) nodes ∧
        out = { structSpec with Members := structSpec.Members ++ nodes.flatten }
  | .mk d none, structSpec, out, hp, h => by
    rw [walkStructDeclarationListLoop] at h
    cases hw : walkStructDeclaration t d with
    | error e => rw [hw] at h; cases h
    | ok ds =>
      rw [hw] at h
      simp only [bind_ok_eq, Except.ok.injEq] at h
      have hm := walkStructDeclaration_inv t d ds
        (hp d (by rw [structDeclarations]; exact List.mem_singleton.mpr rfl)) hw
      exact ⟨[ds], by rw [structDeclarations]; exact .cons hm .nil, by rw [← h]; simp⟩
  | .mk d (some next), structSpec, out, hp, h => by
    rw [walkStructDeclarationListLoop] at h
    cases hw : walkStructDeclaration t d with
    | error e => rw [hw] at h; cases h
    | ok ds =>
      rw [hw] at h
      simp only [bind_ok_eq] at h
      have hm := walkStructDeclaration_inv t d ds
        (hp d (by rw [structDeclarations]; exact List.mem_cons_self _ _)) hw
      obtain ⟨ns, h1, h2⟩ := walkStructDeclarationListLoop_inv t next _ out
        (fun x hx => hp x (by rw [structDeclarations]; exact List.mem_cons_of_mem _ hx)) h
      exact ⟨ds :: ns, by rw [structDeclarations]; exact .cons hm h1, by rw [h2]; simp⟩

theorem walkStructDeclarationListLoop_lacks (t : Translator) :
    ∀ (list : cc.StructDeclarationList) (structSpec : CStructSpec),
      (structDeclarations list).any lacksDeclarators = true →
      ∃ e, walkStructDeclarationListLoop t list structSpec = .error e
  | .mk d none, structSpec, h => by
    rw [structDeclarations] at h
    simp only [List.any_cons, List.any_nil, Bool.or_false] at h
    obtain ⟨e, he⟩ := walkStructDeclaration_lacks t d h
    exact ⟨e, by rw [walkStructDeclarationListLoop, he]; rfl⟩
  | .mk d (some next), structSpec, h => by
    rw [walkStructDeclarationListLoop]
    cases hw : walkStructDeclaration t d with
    | error e => exact ⟨e, rfl⟩
    | ok ds =>
      rw [structDeclarations] at h
      simp only [List.any_cons, Bool.or_eq_true] at h
      cases h with
      | inl h =>
        obtain ⟨e, he⟩ := walkStructDeclaration_lacks t d h
        rw [he] at hw
        cases hw
      | inr h =>
        simp only [bind_ok_eq]
        exact walkStructDeclarationListLoop_lacks t next _ h

/-- C6 (what the code does): for a struct-or-union specifier with an inline
member list in which no member declarator is a bit-field, `walkSUSpecifier`
returns a node exactly when every member declaration has a declarator list
and its specifiers and declarators resolve, and the node then has the
Aggregate descriptor with the identifier as tag (empty when anonymous), the
union flag true exactly for `union`, and as members one node per member
declarator in source order, each resolved from its own copy of the base
descriptor of its member declaration.  When a member declaration has no
declarator list, `walkSUSpecifier` panics: `struct S { int; }` and
`struct S { union { int a; int b; }; int c; }` have no bit-field and make it
dereference the nil `StructDeclaratorListOpt`.
`struct Point { int x; int y; }` gives tag "Point" and the members x, y with
base `int`; `int a, *b;` gives a (depth 0) and b (depth 1). -/
theorem C6_walkSUSpecifier_plain_declarators (t : Translator) (su : cc.StructOrUnion)
    (identifierOpt : Option cc.Token) (list : cc.StructDeclarationList) (decl : CDecl)
    (hplain : ∀ d ∈ structDeclarations list, ∀ m ∈ memberDeclarators d, isBitField m = false) :
    (∀ r, walkSUSpecifier t (.withMembers su identifierOpt list) decl = .ok r ↔
      ∃ nodes, List.Forall₂ (MemberNodes t) (structDeclarations list) nodes ∧
        r = { decl with
              Spec := .structSpec
                { Tag := (identifierOpt.map (fun tok => tok.S)).getD ""
                  Union := (su == .Union)
                  Members := nodes.flatten } }) ∧
    ((structDeclarations list).any lacksDeclarators = true →
      ∃ e, walkSUSpecifier t (.withMembers su identifierOpt list) decl = .error e) ∧
    walkSUSpecifier t (.withMembers .Struct (some ⟨7, "S"⟩) membersIntOnly) decl =
      .error .nilDereference ∧
    walkSUSpecifier t (.withMembers .Struct (some ⟨7, "S"⟩) membersAnonymousUnion) decl =
      .error .nilDereference ∧
    (okValue (walkSUSpecifier sampleTranslator structPoint { Spec := .typeSpec {} })).map
      (fun n => (aggregateOf n).map (fun a =>
        (a.1, a.2.1, a.2.2.map (fun m => (m.Name, scalarOf m, m.Pointers, m.Arrays))))) =
      some (some ("Point", false,
        [("x", some { Base := "int" }, 0, []), ("y", some { Base := "int" }, 0, [])])) ∧
    (okValue (walkStructDeclaration sampleTranslator memberDeclarationAB)).map
      (fun nodes => nodes.map (fun m => (m.Name, scalarOf m, m.Pointers, m.Arrays))) =
      some [("a", some { Base := "int" }, 0, []), ("b", some { Base := "int" }, 1, [])] := by
  refine ⟨?_, ?_, rfl, rfl, rfl, rfl⟩
  · intro r
    constructor
    · intro h
      rw [walkSUSpecifier] at h
      cases su <;> cases identifierOpt <;>
        simp only [walkSUSpecifier0, bind_ok_eq] at h
      all_goals
        cases hw : walkStructDeclarationListLoop t list _ with
        | error e => rw [hw] at h; cases h
        | ok out =>
          rw [hw] at h
          simp only [bind_ok_eq, Except.ok.injEq] at h
          obtain ⟨nodes, h1, h2⟩ := walkStructDeclarationListLoop_inv t list _ out hplain hw
          refine ⟨nodes, h1, ?_⟩
          rw [← h, h2]
          simp
    · rintro ⟨nodes, h1, rfl⟩
      exact walkSUSpecifier_of_memberNodes t su identifierOpt list decl nodes h1
  · intro h
    rw [walkSUSpecifier]
    cases su <;> cases identifierOpt <;>
      simp only [walkSUSpecifier0, bind_ok_eq] <;>
      (obtain ⟨e, he⟩ := walkStructDeclarationListLoop_lacks t list _ h
       exact ⟨e, by rw [he]; rfl⟩)

/-- C6 (witness): the theorem at `struct S { int; }`, which has no bit-field
declarator and one member declaration without a declarator list. -/
theorem C6_witness :
    (∀ d ∈ structDeclarations membersIntOnly, ∀ m ∈ memberDeclarators d,
      isBitField m = false) ∧
    (structDeclarations membersIntOnly).any lacksDeclarators = true ∧
    walkSUSpecifier sampleTranslator (.withMembers .Struct (some ⟨7, "S"⟩) membersIntOnly)
      { Spec := .typeSpec {} } = .error .nilDereference :=
  ⟨by decide, by decide,
    (C6_walkSUSpecifier_plain_declarators sampleTranslator .Struct (some ⟨7, "S"⟩)
      membersIntOnly { Spec := .typeSpec {} } (by decide)).2.2.1⟩

/-! ### C8 and C9: parameter lists and function suffixes -/

theorem walkParameterDeclaration_of_node (t : Translator) (declr : cc.ParameterDeclaration)
    (r : Option CDecl) (h : ParameterNode t declr r) :
    walkParameterDeclaration t declr = .ok r := by
  cases declr with
  | declarator specifiers dr =>
    cases dr with
    | mk popt dd =>
      obtain ⟨base, node, h1, h2, rfl⟩ := h
      rw [walkParameterDeclaration, h1]
      simp only [bind_ok_eq]
      rw [h2]
      rfl
  | abstract specifiers =>
    have hr : r = none := h
    rw [hr, walkParameterDeclaration]

theorem walkParameterListLoop_of_nodes (t : Translator) :
    ∀ (list : cc.ParameterList) (spec : CFunctionSpec) (results : List (Option CDecl)),
      List.Forall₂ (ParameterNode t) (parameterDeclarations list) results →
      walkParameterListLoop t list spec =
        .ok { spec with ParamList := spec.ParamList ++ results.reduceOption }
  | .mk tok d none, spec, results, h => by
    rw [parameterDeclarations, List.forall₂_cons_left_iff] at h
    obtain ⟨r, rs, hd, hrs, rfl⟩ := h
    cases hrs
    rw [walkParameterListLoop, walkParameterDeclaration_of_node t d r hd]
    cases r <;> simp [List.reduceOption]
  | .mk tok d (some next), spec, results, h => by
    rw [parameterDeclarations, List.forall₂_cons_left_iff] at h
    obtain ⟨r, rs, hd, hrs, rfl⟩ := h
    rw [walkParameterListLoop, walkParameterDeclaration_of_node t d r hd]
    simp only [bind_ok_eq]
    rw [walkParameterListLoop_of_nodes t next _ rs hrs]
    cases r <;> simp [List.reduceOption]

/-- C8: when the parameters of a parameter list give, in source order, the
results `results` (a parameter `DeclarationSpecifiers Declarator` its
resolved node, a parameter with an abstract or absent declarator nothing),
`walkDirectDeclarator2` appends to the parameters of the Function descriptor
exactly the resolved nodes, in source order, and changes nothing else: an
omitted parameter neither removes nor reorders the others.
`(int a, char *, long c)` yields [a, c] and `(void)` yields an empty list. -/
theorem C8_parameters_appended_in_order (t : Translator) (tok : cc.Token)
    (list : cc.ParameterList) (decl : CDecl) (spec : CFunctionSpec)
    (results : List (Option CDecl))
    (hspec : decl.Spec = .functionSpec spec)
    (h : List.Forall₂ (ParameterNode t) (parameterDeclarations list) results) :
    walkDirectDeclarator2 t (.params tok list) decl =
      .ok { decl with
            Spec := .functionSpec
              { spec with ParamList := spec.ParamList ++ results.reduceOption } } ∧
    (okValue (walkDirectDeclarator2 sampleTranslator (.params ⟨24, ")"⟩ parametersACharC)
        (wrapFunction { Spec := intSpec }))).map
      (fun n => (paramListOf n).map (fun ps =>
        ps.map (fun p => (p.Name, scalarOf p, p.Pointers)))) =
      some (some [("a", some { Base := "int" }, 0), ("c", some { Long := true }, 0)]) ∧
    (okValue (walkDirectDeclarator2 sampleTranslator (.params ⟨5, ")"⟩ parametersVoid)
        (wrapFunction { Spec := intSpec }))).map
      (fun n => (paramListOf n).map (fun ps => ps.map (fun p => p.Name))) =
      some (some []) := by
  refine ⟨?_, rfl, rfl⟩
  rw [walkDirectDeclarator2]
  simp only [hspec]
  rw [walkParameterListLoop_of_nodes t list spec results h]
  rfl

/-- C8 (witness): the theorem at `(int a, char *, long c)` with the sample
evaluator and a Function descriptor returning `int`. -/
theorem C8_witness :
    List.Forall₂ (ParameterNode sampleTranslator) (parameterDeclarations parametersACharC)
      [some { Spec := intSpec, Name := "a", Pos := 7 }, none,
        some { Spec := .typeSpec { Long := true }, Name := "c", Pos := 23 }] ∧
    walkDirectDeclarator2 sampleTranslator (.params ⟨24, ")"⟩ parametersACharC)
        (wrapFunction { Spec := intSpec }) =
      .ok { Spec := .functionSpec
              { Returns := { Spec := intSpec }
                ParamList := [{ Spec := intSpec, Name := "a", Pos := 7 },
                  { Spec := .typeSpec { Long := true }, Name := "c", Pos := 23 }] } } :=
  have h : List.Forall₂ (ParameterNode sampleTranslator) (parameterDeclarations parametersACharC)
      [some { Spec := intSpec, Name := "a", Pos := 7 }, none,
        some { Spec := .typeSpec { Long := true }, Name := "c", Pos := 23 }] :=
    .cons ⟨{ Spec := intSpec }, _, rfl, rfl, rfl⟩
      (.cons rfl (.cons ⟨{ Spec := .typeSpec { Long := true } }, _, rfl, rfl, rfl⟩ .nil))
  ⟨h, (C8_parameters_appended_in_order sampleTranslator ⟨24, ")"⟩ parametersACharC
    (wrapFunction { Spec := intSpec }) { Returns := { Spec := intSpec } } _ rfl h).1⟩

theorem walkTypeSpec_scalar_Const (typeSpec : cc.TypeSpecifier) (spec : CTypeSpec) :
    (walkTypeSpec.scalar typeSpec spec).Const = spec.Const := by
  cases typeSpec <;> simp only [walkTypeSpec.scalar]
  split <;> rfl

theorem walkTypeSpec_nonStruct (t : Translator) (typeSpec : cc.TypeSpecifier) (decl : CDecl)
    (spec : CTypeSpec) (hspec : decl.Spec = .typeSpec spec) (h : nonStruct typeSpec = true) :
    walkTypeSpec t typeSpec decl =
      .ok { decl with Spec := .typeSpec (walkTypeSpec.scalar typeSpec spec) } := by
  cases typeSpec <;> first
    | (simp [nonStruct] at h; done)
    | (simp only [walkTypeSpec, hspec])

theorem setConst_typeSpec (q : cc.TypeQualifier) (decl : CDecl) (spec : CTypeSpec)
    (hspec : decl.Spec = .typeSpec spec) :
    setConst q decl = { decl with Spec := .typeSpec { spec with Const := (q.Case == 0) } } := by
  simp only [setConst, hspec]

theorem case_eq_zero_iff (q : cc.TypeQualifier) : (q.Case == 0) = true ↔ q = .Const := by
  cases q <;> simp [cc.TypeQualifier.Case]

theorem walkDeclarationSpecLoop_const (t : Translator) :
    ∀ (ds : cc.DeclarationSpecifiers) (decl : CDecl) (spec : CTypeSpec),
      decl.Spec = .typeSpec spec → scalarChain ds = true →
      ∃ spec', walkDeclarationSpecLoop t ds decl = .ok { decl with Spec := .typeSpec spec' } ∧
        spec'.Const =
          (match lastQualifier ds with
            | some q => (q.Case == 0)
            | none => spec.Const)
  | .storageClass _, _, _, _, h => by simp [scalarChain] at h
  | .functionSpecifier _ _, _, _, _, h => by simp [scalarChain] at h
  | .typeSpecifier ts none, decl, spec, hspec, h => by
    refine ⟨walkTypeSpec.scalar ts spec, ?_, ?_⟩
    · rw [walkDeclarationSpecLoop, walkTypeSpec_nonStruct t ts decl spec hspec
        (by simpa [scalarChain] using h)]
    · simp [lastQualifier, walkTypeSpec_scalar_Const]
  | .typeSpecifier ts (some next), decl, spec, hspec, h => by
    simp only [scalarChain, Bool.and_eq_true] at h
    obtain ⟨s, h1, h2⟩ := walkDeclarationSpecLoop_const t next
      { decl with Spec := .typeSpec (walkTypeSpec.scalar ts spec) }
      (walkTypeSpec.scalar ts spec) rfl h.2
    refine ⟨s, ?_, ?_⟩
    · rw [walkDeclarationSpecLoop, walkTypeSpec_nonStruct t ts decl spec hspec h.1]
      simp only [bind_ok_eq]
      rw [h1]
    · rw [h2, walkTypeSpec_scalar_Const]
      simp [lastQualifier]
  | .typeQualifier q none, decl, spec, hspec, _ => by
    refine ⟨{ spec with Const := (q.Case == 0) }, ?_, ?_⟩
    · rw [walkDeclarationSpecLoop, setConst_typeSpec q decl spec hspec]
    · simp [lastQualifier]
  | .typeQualifier q (some next), decl, spec, hspec, h => by
    obtain ⟨s, h1, h2⟩ := walkDeclarationSpecLoop_const t next
      { decl with Spec := .typeSpec { spec with Const := (q.Case == 0) } }
      { spec with Const := (q.Case == 0) } rfl (by simpa [scalarChain] using h)
    refine ⟨s, ?_, ?_⟩
    · rw [walkDeclarationSpecLoop, setConst_typeSpec q decl spec hspec, h1]
    · rw [h2]
      simp only [lastQualifier]
      cases lastQualifier next <;> rfl

theorem walkSpecifierQualifierListLoop_const (t : Translator) :
    ∀ (sq : cc.SpecifierQualifierList) (decl : CDecl) (spec : CTypeSpec),
      decl.Spec = .typeSpec spec → scalarList sq = true →
      ∃ spec', walkSpecifierQualifierListLoop t sq decl =
          .ok { decl with Spec := .typeSpec spec' } ∧
        spec'.Const =
          (match lastListQualifier sq with
            | some q => (q.Case == 0)
            | none => spec.Const)
  | .typeSpecifier ts none, decl, spec, hspec, h => by
    refine ⟨walkTypeSpec.scalar ts spec, ?_, ?_⟩
    · rw [walkSpecifierQualifierListLoop, walkTypeSpec_nonStruct t ts decl spec hspec
        (by simpa [scalarList] using h)]
    · simp [lastListQualifier, walkTypeSpec_scalar_Const]
  | .typeSpecifier ts (some next), decl, spec, hspec, h => by
    simp only [scalarList, Bool.and_eq_true] at h
    obtain ⟨s, h1, h2⟩ := walkSpecifierQualifierListLoop_const t next
      { decl with Spec := .typeSpec (walkTypeSpec.scalar ts spec) }
      (walkTypeSpec.scalar ts spec) rfl h.2
    refine ⟨s, ?_, ?_⟩
    · rw [walkSpecifierQualifierListLoop, walkTypeSpec_nonStruct t ts decl spec hspec h.1]
      simp only [bind_ok_eq]
      rw [h1]
    · rw [h2, walkTypeSpec_scalar_Const]
      simp [lastListQualifier]
  | .typeQualifier q none, decl, spec, hspec, _ => by
    refine ⟨{ spec with Const := (q.Case == 0) }, ?_, ?_⟩
    · rw [walkSpecifierQualifierListLoop, setConst_typeSpec q decl spec hspec]
    · simp [lastListQualifier]
  | .typeQualifier q (some next), decl, spec, hspec, h => by
    obtain ⟨s, h1, h2⟩ := walkSpecifierQualifierListLoop_const t next
      { decl with Spec := .typeSpec { spec with Const := (q.Case == 0) } }
      { spec with Const := (q.Case == 0) } rfl (by simpa [scalarList] using h)
    refine ⟨s, ?_, ?_⟩
    · rw [walkSpecifierQualifierListLoop, setConst_typeSpec q decl spec hspec, h1]
    · rw [h2]
      simp only [lastListQualifier]
      cases lastListQualifier next <;> rfl


/-- C10: for a declaration-specifier chain and for a struct
specifier-qualifier list made only of non-struct type specifiers and type
qualifiers, with at least one qualifier, walked from a node with a
Scalar/Named descriptor, the walk ends with a Scalar/Named descriptor whose
const flag is true if and only if the LAST qualifier of the chain is `const`.
Qualifiers do not accumulate: `const volatile int` yields const = false and
`volatile const int` yields const = true. -/
theorem C10_const_follows_last_qualifier (t : Translator)
    (ds : cc.DeclarationSpecifiers) (sq : cc.SpecifierQualifierList)
    (q q' : cc.TypeQualifier) (decl : CDecl) (spec : CTypeSpec)
    (hspec : decl.Spec = .typeSpec spec)
    (hds : scalarChain ds = true) (hq : lastQualifier ds = some q)
    (hsq : scalarList sq = true) (hq' : lastListQualifier sq = some q') :
    (∃ spec', walkDeclarationSpecLoop t ds decl = .ok { decl with Spec := .typeSpec spec' } ∧
      (spec'.Const = true ↔ q = .Const)) ∧
    (∃ spec', walkSpecifierQualifierListLoop t sq decl =
        .ok { decl with Spec := .typeSpec spec' } ∧
      (spec'.Const = true ↔ q' = .Const)) ∧
    ((okValue (walkDeclarationSpecLoop sampleTranslator constVolatileInt
        { Spec := .typeSpec {} })).bind scalarOf).map (fun s => (s.Base, s.Const)) =
      some ("int", false) ∧
    ((okValue (walkDeclarationSpecLoop sampleTranslator volatileConstInt
        { Spec := .typeSpec {} })).bind scalarOf).map (fun s => (s.Base, s.Const)) =
      some ("int", true) ∧
    ((okValue (walkSpecifierQualifierListLoop sampleTranslator constVolatileIntList
        { Spec := .typeSpec {} })).bind scalarOf).map (fun s => (s.Base, s.Const)) =
      some ("int", false) ∧
    ((okValue (walkSpecifierQualifierListLoop sampleTranslator volatileConstIntList
        { Spec := .typeSpec {} })).bind scalarOf).map (fun s => (s.Base, s.Const)) =
      some ("int", true) := by
  refine ⟨?_, ?_, by decide, by decide, by decide, by decide⟩
  · obtain ⟨s, h1, h2⟩ := walkDeclarationSpecLoop_const t ds decl spec hspec hds
    rw [hq] at h2
    exact ⟨s, h1, by rw [h2]; exact case_eq_zero_iff q⟩
  · obtain ⟨s, h1, h2⟩ := walkSpecifierQualifierListLoop_const t sq decl spec hspec hsq
    rw [hq'] at h2
    exact ⟨s, h1, by rw [h2]; exact case_eq_zero_iff q'⟩

/-- C10 (witness): the theorem at the chain `const volatile int` (last
qualifier `volatile`) and the list `volatile const int` (last qualifier
`const`), from a fresh node. -/
theorem C10_witness :
    scalarChain constVolatileInt = true ∧ lastQualifier constVolatileInt = some .Volatile ∧
    scalarList volatileConstIntList = true ∧
    lastListQualifier volatileConstIntList = some .Const ∧
    (∃ spec', walkDeclarationSpecLoop sampleTranslator constVolatileInt
          { Spec := .typeSpec {} } = .ok { Spec := .typeSpec spec' } ∧
      (spec'.Const = true ↔ cc.TypeQualifier.Volatile = .Const)) ∧
    (∃ spec', walkSpecifierQualifierListLoop sampleTranslator volatileConstIntList
          { Spec := .typeSpec {} } = .ok { Spec := .typeSpec spec' } ∧
      (spec'.Const = true ↔ cc.TypeQualifier.Const = .Const)) :=
  have h := C10_const_follows_last_qualifier sampleTranslator constVolatileInt
    volatileConstIntList .Volatile .Const { Spec := .typeSpec {} } {} rfl
    (by decide) (by decide) (by decide) (by decide)
  ⟨by decide, by decide, by decide, by decide, h.1, h.2.1⟩

/-! ### C11: the base of a scalar descriptor -/

theorem walkTypeSpec_scalar_Base (typeSpec : cc.TypeSpecifier) (spec : CTypeSpec) :
    (walkTypeSpec.scalar typeSpec spec).Base = (writesBase spec.Long typeSpec).getD spec.Base := by
  cases typeSpec <;> simp only [walkTypeSpec.scalar, writesBase, Option.getD]
  cases spec.Long <;> rfl

theorem walkTypeSpec_scalar_Long (typeSpec : cc.TypeSpecifier) (spec : CTypeSpec) :
    (walkTypeSpec.scalar typeSpec spec).Long = (spec.Long || isLong typeSpec) := by
  cases typeSpec <;> simp only [walkTypeSpec.scalar, isLong, Bool.or_false, Bool.or_true]
  cases h : spec.Long <;> simp [h]

theorem getLast_toList_append (o : Option String) (l : List String) (b : String) :
    ((o.toList ++ l).getLast?).getD b = (l.getLast?).getD (o.getD b) := by
  cases o with
  | none => simp [Option.toList]
  | some s => cases l <;> simp [Option.toList, List.getLast?_cons]

theorem walkDeclarationSpecLoop_base (t : Translator) :
    ∀ (ds : cc.DeclarationSpecifiers) (decl : CDecl) (spec : CTypeSpec),
      decl.Spec = .typeSpec spec → scalarChain ds = true →
      ∃ spec', walkDeclarationSpecLoop t ds decl = .ok { decl with Spec := .typeSpec spec' } ∧
        spec'.Base = ((baseWrites spec.Long (typeSpecifiers ds)).getLast?).getD spec.Base
  | .storageClass _, _, _, _, h => by simp [scalarChain] at h
  | .functionSpecifier _ _, _, _, _, h => by simp [scalarChain] at h
  | .typeSpecifier ts none, decl, spec, hspec, h => by
    refine ⟨walkTypeSpec.scalar ts spec, ?_, ?_⟩
    · rw [walkDeclarationSpecLoop, walkTypeSpec_nonStruct t ts decl spec hspec
        (by simpa [scalarChain] using h)]
    · rw [walkTypeSpec_scalar_Base, typeSpecifiers, baseWrites, baseWrites,
        getLast_toList_append]
      rfl
  | .typeSpecifier ts (some next), decl, spec, hspec, h => by
    simp only [scalarChain, Bool.and_eq_true] at h
    obtain ⟨s, h1, h2⟩ := walkDeclarationSpecLoop_base t next
      { decl with Spec := .typeSpec (walkTypeSpec.scalar ts spec) }
      (walkTypeSpec.scalar ts spec) rfl h.2
    refine ⟨s, ?_, ?_⟩
    · rw [walkDeclarationSpecLoop, walkTypeSpec_nonStruct t ts decl spec hspec h.1]
      simp only [bind_ok_eq]
      rw [h1]
    · rw [h2, walkTypeSpec_scalar_Base, walkTypeSpec_scalar_Long, typeSpecifiers, baseWrites,
        getLast_toList_append]
  | .typeQualifier q none, decl, spec, hspec, _ => by
    refine ⟨{ spec with Const := (q.Case == 0) }, ?_, ?_⟩
    · rw [walkDeclarationSpecLoop, setConst_typeSpec q decl spec hspec]
    · simp [typeSpecifiers, baseWrites]
  | .typeQualifier q (some next), decl, spec, hspec, h => by
    obtain ⟨s, h1, h2⟩ := walkDeclarationSpecLoop_base t next
      { decl with Spec := .typeSpec { spec with Const := (q.Case == 0) } }
      { spec with Const := (q.Case == 0) } rfl (by simpa [scalarChain] using h)
    refine ⟨s, ?_, ?_⟩
    · rw [walkDeclarationSpecLoop, setConst_typeSpec q decl spec hspec, h1]
    · rw [h2, typeSpecifiers]

theorem walkSpecifierQualifierListLoop_base (t : Translator) :
    ∀ (sq : cc.SpecifierQualifierList) (decl : CDecl) (spec : CTypeSpec),
      decl.Spec = .typeSpec spec → scalarList sq = true →
      ∃ spec', walkSpecifierQualifierListLoop t sq decl =
          .ok { decl with Spec := .typeSpec spec' } ∧
        spec'.Base = ((baseWrites spec.Long (listTypeSpecifiers sq)).getLast?).getD spec.Base
  | .typeSpecifier ts none, decl, spec, hspec, h => by
    refine ⟨walkTypeSpec.scalar ts spec, ?_, ?_⟩
    · rw [walkSpecifierQualifierListLoop, walkTypeSpec_nonStruct t ts decl spec hspec
        (by simpa [scalarList] using h)]
    · rw [walkTypeSpec_scalar_Base, listTypeSpecifiers, baseWrites, baseWrites,
        getLast_toList_append]
      rfl
  | .typeSpecifier ts (some next), decl, spec, hspec, h => by
    simp only [scalarList, Bool.and_eq_true] at h
    obtain ⟨s, h1, h2⟩ := walkSpecifierQualifierListLoop_base t next
      { decl with Spec := .typeSpec (walkTypeSpec.scalar ts spec) }
      (walkTypeSpec.scalar ts spec) rfl h.2
    refine ⟨s, ?_, ?_⟩
    · rw [walkSpecifierQualifierListLoop, walkTypeSpec_nonStruct t ts decl spec hspec h.1]
      simp only [bind_ok_eq]
      rw [h1]
    · rw [h2, walkTypeSpec_scalar_Base, walkTypeSpec_scalar_Long, listTypeSpecifiers,
        baseWrites, getLast_toList_append]
  | .typeQualifier q none, decl, spec, hspec, _ => by
    refine ⟨{ spec with Const := (q.Case == 0) }, ?_, ?_⟩
    · rw [walkSpecifierQualifierListLoop, setConst_typeSpec q decl spec hspec]
    · simp [listTypeSpecifiers, baseWrites]
  | .typeQualifier q (some next), decl, spec, hspec, h => by
    obtain ⟨s, h1, h2⟩ := walkSpecifierQualifierListLoop_base t next
      { decl with Spec := .typeSpec { spec with Const := (q.Case == 0) } }
      { spec with Const := (q.Case == 0) } rfl (by simpa [scalarList] using h)
    refine ⟨s, ?_, ?_⟩
    · rw [walkSpecifierQualifierListLoop, setConst_typeSpec q decl spec hspec, h1]
    · rw [h2, listTypeSpecifiers]


/-- C11: for a declaration-specifier chain and for a specifier-qualifier list
made only of non-struct type specifiers and type qualifiers, walked from a
fresh descriptor, the walk ends with a Scalar/Named descriptor whose `base`
is the last value written to it in visiting order, where void, char, int,
float, double, _Bool and _Complex write their keyword, a typedef-name writes
its identifier text and `long` writes "long" when the long flag is already
set; `base` is empty when nothing is written.  `char int` gives "int",
`long long int` gives "int", `int long long` gives "long" and
`const unsigned` gives "". -/
theorem C11_base_last_write_wins (t : Translator) (ds : cc.DeclarationSpecifiers)
    (sq : cc.SpecifierQualifierList)
    (hds : scalarChain ds = true) (hsq : scalarList sq = true) :
    (∃ spec', walkDeclarationSpecLoop t ds { Spec := .typeSpec {} } =
        .ok { Spec := .typeSpec spec' } ∧
      spec'.Base = ((baseWrites false (typeSpecifiers ds)).getLast?).getD "") ∧
    (∃ spec', walkSpecifierQualifierListLoop t sq { Spec := .typeSpec {} } =
        .ok { Spec := .typeSpec spec' } ∧
      spec'.Base = ((baseWrites false (listTypeSpecifiers sq)).getLast?).getD "") ∧
    [charInt, longLongInt, intLongLong, constUnsigned].map
        (fun chain => baseWrites false (typeSpecifiers chain)) =
      [["char", "int"], ["long", "int"], ["int", "long"], []] ∧
    [charInt, longLongInt, intLongLong, constUnsigned].map
        (fun chain => ((okValue (walkDeclarationSpecLoop sampleTranslator chain
          { Spec := .typeSpec {} })).bind scalarOf).map (fun s => s.Base)) =
      [some "int", some "int", some "long", some ""] ∧
    ((okValue (walkSpecifierQualifierListLoop sampleTranslator intLongLongList
        { Spec := .typeSpec {} })).bind scalarOf).map (fun s => s.Base) = some "long" := by
  refine ⟨?_, ?_, by decide, by decide, by decide⟩
  · exact walkDeclarationSpecLoop_base t ds { Spec := .typeSpec {} } {} rfl hds
  · exact walkSpecifierQualifierListLoop_base t sq { Spec := .typeSpec {} } {} rfl hsq

/-- C11 (witness): the theorem at the chain `char int` and the list
`int long long`. -/
theorem C11_witness :
    scalarChain charInt = true ∧ scalarList intLongLongList = true ∧
    (∃ spec', walkDeclarationSpecLoop sampleTranslator charInt { Spec := .typeSpec {} } =
        .ok { Spec := .typeSpec spec' } ∧
      spec'.Base = ((baseWrites false (typeSpecifiers charInt)).getLast?).getD "") ∧
    (∃ spec', walkSpecifierQualifierListLoop sampleTranslator intLongLongList
          { Spec := .typeSpec {} } = .ok { Spec := .typeSpec spec' } ∧
      spec'.Base = ((baseWrites false (listTypeSpecifiers intLongLongList)).getLast?).getD "") :=
  have h := C11_base_last_write_wins sampleTranslator charInt intLongLongList
    (by decide) (by decide)
  ⟨by decide, by decide, h.1, h.2.1⟩

/-! ### C12 and C14: flags -/

/-- C12: on a Scalar/Named descriptor `walkTypeSpec` on `long` with the long
flag unset sets the long flag and changes nothing else; with the long flag
set it rewrites `base` to "long" and changes nothing else; on `short` it sets
the short flag and changes nothing else.  From a fresh descriptor `long long`
gives base "long" with the long flag set, and a further `long` leaves that
descriptor as it is. -/
theorem C12_long_and_short (t : Translator) (decl : CDecl) (spec : CTypeSpec) :
    walkTypeSpec t .long { decl with Spec := .typeSpec { spec with Long := false } } =
      .ok { decl with Spec := .typeSpec { spec with Long := true } } ∧
    walkTypeSpec t .long { decl with Spec := .typeSpec { spec with Long := true } } =
      .ok { decl with Spec := .typeSpec { spec with Long := true, Base := "long" } } ∧
    walkTypeSpec t .short { decl with Spec := .typeSpec spec } =
      .ok { decl with Spec := .typeSpec { spec with Short := true } } ∧
    walkDeclarationSpecLoop t (.typeSpecifier .long (some (.typeSpecifier .long none)))
        { decl with Spec := .typeSpec {} } =
      .ok { decl with Spec := .typeSpec { Base := "long", Long := true } } ∧
    walkTypeSpec t .long { decl with Spec := .typeSpec { Base := "long", Long := true } } =
      .ok { decl with Spec := .typeSpec { Base := "long", Long := true } } := by
  refine ⟨rfl, rfl, rfl, rfl, rfl⟩

/-- C14: on a Scalar/Named descriptor `walkTypeSpec` on `signed` and on an
enumeration specifier returns the node unchanged (so an unsigned flag set
earlier stays set after `signed`), and on `unsigned` it sets the unsigned flag
and changes nothing else; a chain of one enumeration specifier leaves a fresh
descriptor fresh, with an empty `base`. -/
theorem C14_signed_enum_unsigned (t : Translator) (decl : CDecl) (spec : CTypeSpec) :
    walkTypeSpec t .signed { decl with Spec := .typeSpec spec } =
      .ok { decl with Spec := .typeSpec spec } ∧
    walkTypeSpec t .enum { decl with Spec := .typeSpec spec } =
      .ok { decl with Spec := .typeSpec spec } ∧
    walkTypeSpec t .unsigned { decl with Spec := .typeSpec spec } =
      .ok { decl with Spec := .typeSpec { spec with Unsigned := true } } ∧
    walkDeclarationSpecLoop t (.typeSpecifier .unsigned (some (.typeSpecifier .signed none)))
        { decl with Spec := .typeSpec {} } =
      .ok { decl with Spec := .typeSpec { Unsigned := true } } ∧
    walkDeclarationSpecLoop t (.typeSpecifier .enum none) { decl with Spec := .typeSpec {} } =
      .ok { decl with Spec := .typeSpec { Base := "" } } ∧
    walkSpecifierQualifierListLoop t (.typeSpecifier .enum none)
        { decl with Spec := .typeSpec {} } =
      .ok { decl with Spec := .typeSpec { Base := "" } } := by
  refine ⟨rfl, rfl, rfl, rfl, rfl, rfl⟩

/-! ### C13: function specifiers -/

/-- C13 (what the code does): Case 3 of `walkDeclarationSpec` returns a nil
`next` whatever follows the function specifier, so the chain walk ends there
without a panic and the specifiers after the function specifier are NOT
applied: `inline int` leaves the fresh descriptor with an empty `base`, where
`int` alone gives `base` "int", and `inline int x;` resolves to a node x with
an empty `base`. -/
theorem C13_function_specifier_ends_chain (t : Translator) (tok : cc.Token)
    (opt : Option cc.DeclarationSpecifiers) (decl : CDecl) :
    walkDeclarationSpec t (.functionSpecifier tok opt) decl = .ok (none, decl) ∧
    walkDeclarationSpecLoop t (.functionSpecifier tok opt) decl = .ok decl ∧
    ((okValue (walkDeclarationSpecLoop sampleTranslator inlineInt
        { Spec := .typeSpec {} })).bind scalarOf).map (fun s => s.Base) = some "" ∧
    ((okValue (walkDeclarationSpecLoop sampleTranslator justInt
        { Spec := .typeSpec {} })).bind scalarOf).map (fun s => s.Base) = some "int" ∧
    (resultNodes (walkDeclaration sampleTranslator (fun _ => none)
        (some declarationInlineIntX))).map
      (fun nodes => nodes.map (fun n => (n.Name, (scalarOf n).map (fun s => s.Base)))) =
      some [("x", some "")] := by
  refine ⟨rfl, ?_, by decide, by decide, by decide⟩
  rw [walkDeclarationSpecLoop]

/-! ### What a declarator walk leaves alone -/

theorem walkDirectDeclarator2_frame (t : Translator) (dd2 : cc.DirectDeclarator2)
    (decl decl' : CDecl) (h : walkDirectDeclarator2 t dd2 decl = .ok decl') :
    decl'.Name = decl.Name ∧ decl'.Value = decl.Value ∧ decl'.Expression = decl.Expression ∧
      decl'.Pos = decl.Pos ∧ decl'.Pointers = decl.Pointers ∧ decl'.Arrays = decl.Arrays := by
  cases dd2 with
  | identifiers tok =>
    rw [walkDirectDeclarator2] at h
    injection h with h
    subst h
    exact ⟨rfl, rfl, rfl, rfl, rfl, rfl⟩
  | params tok list =>
    rw [walkDirectDeclarator2] at h
    split at h
    · rename_i spec hs
      cases hw : walkParameterListLoop t list spec with
      | error e => rw [hw] at h; cases h
      | ok s =>
        rw [hw] at h
        injection h with h
        subst h
        exact ⟨rfl, rfl, rfl, rfl, rfl, rfl⟩
    · cases h

theorem walkPointers_frame (popt : Option cc.Pointer) (decl : CDecl) :
    (walkPointers popt decl).Name = decl.Name ∧ (walkPointers popt decl).Value = decl.Value ∧
      (walkPointers popt decl).Arrays = decl.Arrays := by
  cases popt <;> exact ⟨rfl, rfl, rfl⟩

theorem walkDirectDeclaratorLoop_Value (t : Translator) :
    ∀ (dd : cc.DirectDeclarator) (decl decl' : CDecl),
      walkDirectDeclaratorLoop t dd decl = .ok decl' → decl'.Value = decl.Value
  | .ident tok, decl, decl', h => by
    rw [walkDirectDeclaratorLoop] at h
    injection h with h
    subst h
    rfl
  | .paren tok (.mk popt dd), decl, decl', h => by
    rw [walkDirectDeclaratorLoop] at h
    rw [walkDirectDeclaratorLoop_Value t dd _ decl' h, (walkPointers_frame popt _).2.1]
  | .array tok dd ae, decl, decl', h => by
    rw [walkDirectDeclaratorLoop] at h
    rw [walkDirectDeclaratorLoop_Value t dd _ decl' h]
    rfl
  | .arrayStatic tok dd ae, decl, decl', h => by
    rw [walkDirectDeclaratorLoop] at h
    rw [walkDirectDeclaratorLoop_Value t dd _ decl' h]
    rfl
  | .arrayQualStatic tok dd ae, decl, decl', h => by
    rw [walkDirectDeclaratorLoop] at h
    rw [walkDirectDeclaratorLoop_Value t dd _ decl' h]
    rfl
  | .arrayStar tok dd, decl, decl', h => by
    rw [walkDirectDeclaratorLoop] at h
    rw [walkDirectDeclaratorLoop_Value t dd _ decl' h]
    rfl
  | .func tok dd dd2, decl, decl', h => by
    rw [walkDirectDeclaratorLoop] at h
    cases hw : walkDirectDeclarator2 t dd2 (wrapFunction { decl with Pos := tok.Pos }) with
    | error e => rw [hw] at h; cases h
    | ok d =>
      rw [hw] at h
      rw [walkDirectDeclaratorLoop_Value t dd d decl' h,
        (walkDirectDeclarator2_frame t dd2 _ d hw).2.1]
      rfl

theorem walkInitDeclaratorList_Value (t : Translator) (d : cc.InitDeclarator)
    (next n : Option cc.InitDeclaratorList) (decl node : CDecl)
    (hv : decl.Value = none)
    (h : walkInitDeclaratorList t (.mk d next) decl = .ok (n, node)) :
    node.Value = initValue t d := by
  simp only [walkInitDeclaratorList] at h
  cases d with
  | declarator dr =>
    simp only [cc.InitDeclarator.Declarator] at h
    cases hw : walkDirectDeclaratorLoop t dr.DirectDeclarator (walkPointers dr.PointerOpt decl) with
    | error e => rw [hw] at h; cases h
    | ok v =>
      rw [hw] at h
      simp only [bind_ok_eq, Except.ok.injEq, Prod.mk.injEq] at h
      rw [← h.2, walkDirectDeclaratorLoop_Value t _ _ v hw, (walkPointers_frame _ _).2.1, hv]
      rfl
  | init dr i =>
    simp only [cc.InitDeclarator.Declarator] at h
    cases hw : walkDirectDeclaratorLoop t dr.DirectDeclarator
        (walkInitializer t i (walkPointers dr.PointerOpt decl)) with
    | error e => rw [hw] at h; cases h
    | ok v =>
      rw [hw] at h
      simp only [bind_ok_eq, Except.ok.injEq, Prod.mk.injEq] at h
      rw [← h.2, walkDirectDeclaratorLoop_Value t _ _ v hw]
      cases i with
      | expr ae => rfl
      | list tok =>
        simp only [walkInitializer, initValue]
        rw [(walkPointers_frame _ _).2.1, hv]
      | listComma tok =>
        simp only [walkInitializer, initValue]
        rw [(walkPointers_frame _ _).2.1, hv]

/-! ### C16: the symbol table -/

theorem walkDeclaration_loop_record (t : Translator) (refDecl : CDecl) :
    ∀ (l : cc.InitDeclaratorList) (acc : List CDecl) (valueMap : ValueMap)
      (nodes : List CDecl) (valueMap' : ValueMap),
      walkDeclaration.loop t refDecl l acc valueMap = .ok (nodes, valueMap') →
      ∃ new, nodes = acc ++ new ∧ valueMap' = recordAll new valueMap ∧
        List.Forall₂ (fun d n => n.Value = initValue t d) (initDeclaratorList l) new ∧
        ∀ (acc2 : List CDecl) (valueMap2 : ValueMap),
          walkDeclaration.loop t refDecl l acc2 valueMap2 =
            .ok (acc2 ++ new, recordAll new valueMap2)
  | .mk d none, acc, valueMap, nodes, valueMap', h => by
    rw [walkDeclaration.loop] at h
    cases hw : walkInitDeclaratorList t (.mk d none) { Spec := refDecl.Spec.Copy } with
    | error e => rw [hw] at h; cases h
    | ok r =>
      obtain ⟨n, node⟩ := r
      rw [hw] at h
      simp only [bind_ok_eq, Except.ok.injEq, Prod.mk.injEq] at h
      refine ⟨[node], h.1.symm, h.2.symm, ?_, ?_⟩
      · rw [initDeclaratorList]
        exact .cons (walkInitDeclaratorList_Value t d none n _ node rfl hw) .nil
      · intro acc2 valueMap2
        rw [walkDeclaration.loop, hw]
        rfl
  | .mk d (some next), acc, valueMap, nodes, valueMap', h => by
    rw [walkDeclaration.loop] at h
    cases hw : walkInitDeclaratorList t (.mk d (some next)) { Spec := refDecl.Spec.Copy } with
    | error e => rw [hw] at h; cases h
    | ok r =>
      obtain ⟨n, node⟩ := r
      rw [hw] at h
      simp only [bind_ok_eq] at h
      obtain ⟨new, h1, h2, h3, h4⟩ :=
        walkDeclaration_loop_record t refDecl next _ _ nodes valueMap' h
      refine ⟨node :: new, by rw [h1]; simp, by rw [h2]; rfl, ?_, ?_⟩
      · rw [initDeclaratorList]
        exact .cons (walkInitDeclaratorList_Value t d (some next) n _ node rfl hw) h3
      · intro acc2 valueMap2
        rw [walkDeclaration.loop, hw]
        simp only [bind_ok_eq]
        rw [h4]
        simp [recordAll]

theorem walkDeclaration_record (t : Translator) (valueMap valueMap' : ValueMap)
    (declr : cc.Declaration) (nodes : List CDecl)
    (h : walkDeclaration t valueMap (some declr) = .ok (nodes, valueMap')) :
    valueMap' = recordAll nodes valueMap ∧
      List.Forall₂ (fun d n => n.Value = initValue t d) (initDeclarators declr) nodes ∧
      ∀ valueMap2 : ValueMap,
        walkDeclaration t valueMap2 (some declr) = .ok (nodes, recordAll nodes valueMap2) := by
  simp only [walkDeclaration] at h
  cases hs : walkDeclarationSpecLoop t declr.DeclarationSpecifiers { Spec := .typeSpec {} } with
  | error e => rw [hs] at h; cases h
  | ok refDecl =>
    rw [hs] at h
    simp only [bind_ok_eq] at h
    cases hl : declr.InitDeclaratorListOpt with
    | none =>
      rw [hl] at h
      simp only [Except.ok.injEq, Prod.mk.injEq] at h
      obtain ⟨h1, h2⟩ := h
      subst h1
      refine ⟨h2.symm, by simp [initDeclarators, hl], ?_⟩
      intro valueMap2
      simp only [walkDeclaration, hs, hl, bind_ok_eq]
      rfl
    | some l =>
      rw [hl] at h
      obtain ⟨new, h1, h2, h3, h4⟩ :=
        walkDeclaration_loop_record t refDecl l [] valueMap nodes valueMap' h
      have hn : nodes = new := by simpa using h1
      subst hn
      refine ⟨h2, by simpa [initDeclarators, hl] using h3, ?_⟩
      intro valueMap2
      simp only [walkDeclaration, hs, hl, bind_ok_eq]
      simpa using h4 [] valueMap2

theorem recordAll_apply (nodes : List CDecl) :
    ∀ (valueMap : ValueMap) (k : String),
      recordAll nodes valueMap k =
        (match lastValueOf nodes k with
          | some v => some v
          | none => valueMap k) := by
  induction nodes with
  | nil => intro valueMap k; rfl
  | cons n ns ih =>
    intro valueMap k
    have hr : recordAll (n :: ns) valueMap = recordAll ns (valueMap.set n.Name n.Value) := rfl
    rw [hr, ih]
    simp only [lastValueOf, List.reverse_cons, List.find?_append]
    cases hf : ns.reverse.find? (fun m => m.Name == k) with
    | some m => simp
    | none =>
      by_cases hk : n.Name = k
      · simp [ValueMap.set, hk]
      · have hk' : ¬ k = n.Name := fun h => hk h.symm
        simp [ValueMap.set, hk, hk']


/-- C16: when `walkDeclaration` on a declaration returns the nodes `nodes`
(one per init-declarator, each carrying the value of its initializer
expression, or no value without one), the symbol table afterwards maps every
name borne by a node to the value of the LAST node bearing it and keeps the
previous entry of every other key; a declaration without declarators leaves
the table unchanged.  For `int a = 1, b, a = 2;` on a table holding `z ↦ 7`:
a maps to 2, b to an absent value, z still to 7 and y to nothing. -/
theorem C16_symbol_table (t : Translator) (valueMap valueMap' : ValueMap)
    (declr : cc.Declaration) (nodes : List CDecl)
    (h : walkDeclaration t valueMap (some declr) = .ok (nodes, valueMap')) :
    List.Forall₂ (fun d n => n.Value = initValue t d) (initDeclarators declr) nodes ∧
    (∀ k : String, valueMap' k =
      (match lastValueOf nodes k with
        | some v => some v
        | none => valueMap k)) ∧
    (if (initDeclarators declr).isEmpty then valueMap' = valueMap else True) ∧
    (resultValueMap (walkDeclaration digitTranslator valueMapZ (some declarationABA))).map
        (fun m => ["a", "b", "z", "y"].map m) =
      some [some (some 2), some none, some (some 7), none] := by
  obtain ⟨h1, h2, _⟩ := walkDeclaration_record t valueMap valueMap' declr nodes h
  refine ⟨h2, ?_, ?_, by decide⟩
  · intro k
    rw [h1, recordAll_apply]
  · split
    · rename_i he
      have hn : nodes = [] := by
        have hl := h2.length_eq
        rw [List.isEmpty_iff.mp he] at hl
        exact List.length_eq_zero.mp hl.symm
      rw [h1, hn]
      rfl
    · trivial

/-- C16 (witness): the theorem at `int a = 1, b, a = 2;` with the digit
evaluator on a table holding `z ↦ 7`. -/
theorem C16_witness :
    ∃ nodes valueMap',
      walkDeclaration digitTranslator valueMapZ (some declarationABA) =
        .ok (nodes, valueMap') ∧
      nodes.map (fun n => (n.Name, n.Value)) = [("a", some 1), ("b", none), ("a", some 2)] ∧
      List.Forall₂ (fun d n => n.Value = initValue digitTranslator d)
        (initDeclarators declarationABA) nodes ∧
      ∀ k : String, valueMap' k =
        (match lastValueOf nodes k with
          | some v => some v
          | none => valueMapZ k) :=
  have h : walkDeclaration digitTranslator valueMapZ (some declarationABA) =
      .ok ([{ Spec := intSpec, Name := "a", Value := some 1, Expression := "1", Pos := 4 },
          { Spec := intSpec, Name := "b", Pos := 11 },
          { Spec := intSpec, Name := "a", Value := some 2, Expression := "2", Pos := 14 }],
        recordAll
          [{ Spec := intSpec, Name := "a", Value := some 1, Expression := "1", Pos := 4 },
            { Spec := intSpec, Name := "b", Pos := 11 },
            { Spec := intSpec, Name := "a", Value := some 2, Expression := "2", Pos := 14 }]
          valueMapZ) := by
    rfl
  have c := C16_symbol_table digitTranslator valueMapZ _ declarationABA _ h
  ⟨_, _, h, by decide, c.1, c.2.1⟩

/-! ### C15: the unit chain -/

theorem walkUnit_of_nodes (t : Translator) (ed : Option cc.ExternalDeclaration)
    (nodes : List CDecl) (h : UnitNodes t ed nodes) (valueMap : ValueMap)
    (next : Option cc.TranslationUnit) :
    ∃ valueMap', walkUnit t valueMap (some (.mk ed next)) = .ok (next, nodes, valueMap') := by
  cases ed with
  | none =>
    have hn : nodes = [] := h
    subst hn
    exact ⟨valueMap, rfl⟩
  | some e =>
    cases e with
    | functionDefinition => exact h.elim
    | declaration declr =>
      obtain ⟨vm, vm', hw⟩ := h
      have h2 := (walkDeclaration_record t vm vm' declr nodes hw).2.2 valueMap
      refine ⟨recordAll nodes valueMap, ?_⟩
      simp only [walkUnit, cc.ExternalDeclaration.Declaration]
      rw [h2]
      rfl

theorem walkAST_loop_of_nodes (t : Translator) :
    ∀ (u : cc.TranslationUnit) (acc : List CDecl) (valueMap : ValueMap)
      (nodes : List (List CDecl)),
      List.Forall₂ (UnitNodes t) (translationUnits u) nodes →
      ∃ valueMap', walkAST.loop t u acc valueMap = .ok (acc ++ nodes.flatten, valueMap')
  | .mk ed none, acc, valueMap, nodes, h => by
    rw [translationUnits, List.forall₂_cons_left_iff] at h
    obtain ⟨n, ns, hd, hns, rfl⟩ := h
    cases hns
    obtain ⟨vm, hw⟩ := walkUnit_of_nodes t ed n hd valueMap none
    refine ⟨vm, ?_⟩
    rw [walkAST.loop, hw]
    simp
  | .mk ed (some next), acc, valueMap, nodes, h => by
    rw [translationUnits, List.forall₂_cons_left_iff] at h
    obtain ⟨n, ns, hd, hns, rfl⟩ := h
    obtain ⟨vm, hw⟩ := walkUnit_of_nodes t ed n hd valueMap (some next)
    obtain ⟨vm', hl⟩ := walkAST_loop_of_nodes t next (acc ++ n) vm ns hns
    refine ⟨vm', ?_⟩
    rw [walkAST.loop, hw]
    simp only [bind_ok_eq]
    rw [hl]
    simp

/-- C15: for a chain of translation units in which every unit either has no
external declaration or carries a declaration for which `walkDeclaration`
produces a node list, `walkAST` returns (with the nil error) the
concatenation of those node lists in chain order, a unit without an external
declaration contributing nothing; on a nil head it returns an empty list and
leaves the symbol table as it is.  For the chain `int a, *b, c[3];`, an empty
unit, `struct Point p;` the names are a, b, c, p. -/
theorem C15_walkAST_concatenates (t : Translator) (valueMap : ValueMap)
    (head : cc.TranslationUnit) (nodes : List (List CDecl))
    (h : List.Forall₂ (UnitNodes t) (translationUnits head) nodes) :
    (∃ valueMap', walkAST t valueMap (some head) = .ok (nodes.flatten, valueMap')) ∧
    walkAST t valueMap none = .ok ([], valueMap) ∧
    (resultNodes (walkAST sampleTranslator (fun _ => none) (some unitsC15))).map
        (fun ns => ns.map (fun n => n.Name)) = some ["a", "b", "c", "p"] := by
  refine ⟨?_, rfl, by decide⟩
  cases head with
  | mk ed next =>
    cases next with
    | none =>
      rw [translationUnits, List.forall₂_cons_left_iff] at h
      obtain ⟨n, ns, hd, hns, rfl⟩ := h
      cases hns
      obtain ⟨vm, hw⟩ := walkUnit_of_nodes t ed n hd valueMap none
      refine ⟨vm, ?_⟩
      simp only [walkAST]
      rw [hw]
      simp
    | some nx =>
      rw [translationUnits, List.forall₂_cons_left_iff] at h
      obtain ⟨n, ns, hd, hns, rfl⟩ := h
      obtain ⟨vm, hw⟩ := walkUnit_of_nodes t ed n hd valueMap (some nx)
      obtain ⟨vm', hl⟩ := walkAST_loop_of_nodes t nx n vm ns hns
      refine ⟨vm', ?_⟩
      simp only [walkAST]
      rw [hw]
      simp only [bind_ok_eq]
      rw [hl]
      simp

/-- C15 (witness): the theorem at the chain `int a, *b, c[3];`, an empty unit,
`struct Point p;` with the sample evaluator. -/
theorem C15_witness :
    ∃ nodes : List (List CDecl),
      List.Forall₂ (UnitNodes sampleTranslator) (translationUnits unitsC15) nodes ∧
      nodes.map (fun ns => ns.map (fun n => n.Name)) = [["a", "b", "c"], [], ["p"]] ∧
      ∃ valueMap', walkAST sampleTranslator (fun _ => none) (some unitsC15) =
        .ok (nodes.flatten, valueMap') :=
  have h : List.Forall₂ (UnitNodes sampleTranslator) (translationUnits unitsC15)
      [[{ Spec := intSpec, Name := "a", Pos := 4 },
          { Spec := intSpec, Name := "b", Pos := 8, Pointers := 1 },
          { Spec := intSpec, Name := "c", Pos := 11, Arrays := ["3"] }],
        [],
        [{ Spec := .structSpec {}, Name := "p", Pos := 13 }]] :=
    .cons ⟨fun _ => none, _, rfl⟩ (.cons rfl (.cons ⟨fun _ => none, _, rfl⟩ .nil))
  ⟨_, h, by decide,
    (C15_walkAST_concatenates sampleTranslator (fun _ => none) unitsC15 _ h).1⟩

/-! ### C17: panics -/

/-- C17 (what the code does): `walkAST` panics on parse trees the grammar
produces.  `walkDeclaration` dereferences a nil declaration, which `walkUnit`
passes for a unit whose external declaration is a function definition; Case 0
of `walkDeclarationSpec` dereferences a nil `DeclarationSpecifiersOpt` when a
storage-class specifier ends the chain; `walkStructDeclaration` dereferences a
nil `StructDeclaratorListOpt`; `walkTypeSpec` asserts a `*CTypeSpec` on a
descriptor that a struct specifier has replaced.  Each of the four one-unit
chains makes `walkAST` panic. -/
theorem C17_walkAST_panics (t : Translator) (valueMap : ValueMap) (decl : CDecl)
    (typeSpec : cc.TypeSpecifier) (spec : CStructSpec) :
    walkDeclaration t valueMap none = .error .nilDereference ∧
    walkDeclarationSpec t (.storageClass none) decl = .error .nilDereference ∧
    walkStructDeclaration t (.mk (.typeSpecifier .int none) none) = .error .nilDereference ∧
    walkTypeSpec t typeSpec { decl with Spec := .structSpec spec } = .error .typeAssertion ∧
    walkAST t valueMap (some unitFunctionDefinition) = .error .nilDereference ∧
    walkAST t valueMap (some unitStorageClassLast) = .error .nilDereference ∧
    walkAST t valueMap (some unitMemberWithoutDeclarators) = .error .nilDereference ∧
    walkAST t valueMap (some unitTypeSpecifierAfterStruct) = .error .typeAssertion := by
  refine ⟨rfl, rfl, rfl, ?_, rfl, rfl, rfl, rfl⟩
  cases typeSpec <;> rfl

/-! ### C18: the resolution loop, step by step -/

theorem walkDirectDeclarator_step (t : Translator) (d : cc.DirectDeclarator)
    (decl decl' : CDecl) (next : Option cc.DirectDeclarator)
    (h : walkDirectDeclarator t d decl = .ok (next, decl')) :
    match next with
    | none => isIdentifier d = true ∧ pathLength d = 1 ∧ decl'.Name = (leafToken d).S
    | some nx => isIdentifier d = false ∧ pathLength d = pathLength nx + 1 ∧
        leafToken d = leafToken nx ∧ decl'.Name = decl.Name := by
  cases d with
  | ident tok =>
    simp only [walkDirectDeclarator, Except.ok.injEq, Prod.mk.injEq] at h
    obtain ⟨h1, h2⟩ := h
    subst h1 h2
    exact ⟨rfl, rfl, rfl⟩
  | paren tok dr =>
    cases dr with
    | mk popt dd =>
      simp only [walkDirectDeclarator, Except.ok.injEq, Prod.mk.injEq,
        cc.Declarator.DirectDeclarator, cc.Declarator.PointerOpt] at h
      obtain ⟨h1, h2⟩ := h
      subst h1 h2
      exact ⟨rfl, by rw [pathLength], by rw [leafToken], (walkPointers_frame _ _).1⟩
  | array tok dd ae =>
    simp only [walkDirectDeclarator, Except.ok.injEq, Prod.mk.injEq] at h
    obtain ⟨h1, h2⟩ := h
    subst h1 h2
    exact ⟨rfl, by rw [pathLength], by rw [leafToken], rfl⟩
  | arrayStatic tok dd ae =>
    simp only [walkDirectDeclarator, Except.ok.injEq, Prod.mk.injEq] at h
    obtain ⟨h1, h2⟩ := h
    subst h1 h2
    exact ⟨rfl, by rw [pathLength], by rw [leafToken], rfl⟩
  | arrayQualStatic tok dd ae =>
    simp only [walkDirectDeclarator, Except.ok.injEq, Prod.mk.injEq] at h
    obtain ⟨h1, h2⟩ := h
    subst h1 h2
    exact ⟨rfl, by rw [pathLength], by rw [leafToken], rfl⟩
  | arrayStar tok dd =>
    simp only [walkDirectDeclarator, Except.ok.injEq, Prod.mk.injEq] at h
    obtain ⟨h1, h2⟩ := h
    subst h1 h2
    exact ⟨rfl, by rw [pathLength], by rw [leafToken], rfl⟩
  | func tok dd dd2 =>
    simp only [walkDirectDeclarator, cc.DirectDeclarator.Token] at h
    cases hw : walkDirectDeclarator2 t dd2 (wrapFunction { decl with Pos := tok.Pos }) with
    | error e => rw [hw] at h; cases h
    | ok v =>
      rw [hw] at h
      simp only [bind_ok_eq, Except.ok.injEq, Prod.mk.injEq] at h
      obtain ⟨h1, h2⟩ := h
      subst h1 h2
      exact ⟨rfl, by rw [pathLength], by rw [leafToken],
        (walkDirectDeclarator2_frame t dd2 _ v hw).1⟩

theorem walkDirectDeclaratorLoop_Name (t : Translator) :
    ∀ (dd : cc.DirectDeclarator) (decl decl' : CDecl),
      walkDirectDeclaratorLoop t dd decl = .ok decl' → decl'.Name = (leafToken dd).S
  | .ident tok, decl, decl', h => by
    rw [walkDirectDeclaratorLoop] at h
    injection h with h
    subst h
    rfl
  | .paren tok (.mk popt dd), decl, decl', h => by
    rw [walkDirectDeclaratorLoop] at h
    rw [leafToken]
    exact walkDirectDeclaratorLoop_Name t dd _ decl' h
  | .array tok dd ae, decl, decl', h => by
    rw [walkDirectDeclaratorLoop] at h
    rw [leafToken]
    exact walkDirectDeclaratorLoop_Name t dd _ decl' h
  | .arrayStatic tok dd ae, decl, decl', h => by
    rw [walkDirectDeclaratorLoop] at h
    rw [leafToken]
    exact walkDirectDeclaratorLoop_Name t dd _ decl' h
  | .arrayQualStatic tok dd ae, decl, decl', h => by
    rw [walkDirectDeclaratorLoop] at h
    rw [leafToken]
    exact walkDirectDeclaratorLoop_Name t dd _ decl' h
  | .arrayStar tok dd, decl, decl', h => by
    rw [walkDirectDeclaratorLoop] at h
    rw [leafToken]
    exact walkDirectDeclaratorLoop_Name t dd _ decl' h
  | .func tok dd dd2, decl, decl', h => by
    rw [walkDirectDeclaratorLoop] at h
    rw [leafToken]
    cases hw : walkDirectDeclarator2 t dd2 (wrapFunction { decl with Pos := tok.Pos }) with
    | error e => rw [hw] at h; cases h
    | ok d =>
      rw [hw] at h
      exact walkDirectDeclaratorLoop_Name t dd d decl' h

theorem pathLength_pos (d : cc.DirectDeclarator) : 1 ≤ pathLength d := by
  cases d with
  | paren tok dr => cases dr; simp [pathLength]
  | _ => simp [pathLength]

theorem resolveSteps_eq_loop (t : Translator) :
    ∀ (fuel : Nat) (d : cc.DirectDeclarator) (decl : CDecl), pathLength d ≤ fuel →
      resolveSteps t fuel d decl =
        (match walkDirectDeclaratorLoop t d decl with
          | .ok r => .ok (some (pathLength d, r))
          | .error e => .error e) := by
  intro fuel
  induction fuel with
  | zero =>
    intro d decl h
    have := pathLength_pos d
    omega
  | succ fuel ih =>
    intro d decl h
    rw [resolveSteps, walkDirectDeclaratorLoop_eq]
    cases hs : walkDirectDeclarator t d decl with
    | error e => rfl
    | ok r =>
      obtain ⟨next, decl'⟩ := r
      have hstep := walkDirectDeclarator_step t d decl decl' next hs
      cases next with
      | none =>
        simp only [bind_ok_eq]
        rw [hstep.2.1]
      | some nx =>
        simp only [bind_ok_eq]
        have hp : pathLength d = pathLength nx + 1 := hstep.2.1
        rw [ih nx decl' (by omega), hp]
        cases walkDirectDeclaratorLoop t nx decl' <;> rfl

theorem resolveSteps_exact (t : Translator) :
    ∀ (fuel : Nat) (d : cc.DirectDeclarator) (decl : CDecl) (n : Nat) (r : CDecl),
      resolveSteps t fuel d decl = .ok (some (n, r)) →
      n = pathLength d ∧ walkDirectDeclaratorLoop t d decl = .ok r := by
  intro fuel
  induction fuel with
  | zero =>
    intro d decl n r h
    simp [resolveSteps] at h
  | succ fuel ih =>
    intro d decl n r h
    rw [resolveSteps] at h
    rw [walkDirectDeclaratorLoop_eq]
    cases hs : walkDirectDeclarator t d decl with
    | error e => rw [hs] at h; cases h
    | ok v =>
      obtain ⟨next, decl'⟩ := v
      have hstep := walkDirectDeclarator_step t d decl decl' next hs
      rw [hs] at h
      cases next with
      | none =>
        simp only [Except.ok.injEq, Option.some.injEq, Prod.mk.injEq] at h
        obtain ⟨h1, h2⟩ := h
        subst h1 h2
        exact ⟨hstep.2.1.symm, rfl⟩
      | some nx =>
        simp only at h
        cases hr : resolveSteps t fuel nx decl' with
        | error e => rw [hr] at h; cases h
        | ok o =>
          rw [hr] at h
          cases o with
          | none => simp at h
          | some p =>
            obtain ⟨m, q⟩ := p
            simp only [Except.ok.injEq, Option.some.injEq, Prod.mk.injEq] at h
            obtain ⟨h1, h2⟩ := h
            subst h1 h2
            obtain ⟨i1, i2⟩ := ih nx decl' m q hr
            refine ⟨?_, ?_⟩
            · rw [hstep.2.1, i1]
            · simp only [bind_ok_eq]
              exact i2


/-- C18: the resolution loop run on the step function `walkDirectDeclarator`
with a bound of at least as many calls as there are direct-declarator nodes
on the path from the root to the identifier leaf never reaches the bound: it
gives what the loop gives, after exactly that many steps (or the panic of a
step).  Whenever it ends, under any bound, it has made exactly that many
steps and the name of the node is the token text of the leaf identifier.  A
step returns a nil `next` exactly on the identifier leaf, which sets the
name; every other step leaves the name as it is.  Without a function suffix
on the path no step panics.  The tree of `declaratorC18` (a group, an array
suffix, a function suffix, the leaf f) takes 4 steps, and 3 are not enough. -/
theorem C18_resolution_loop_steps (t : Translator) (d : cc.DirectDeclarator) (decl : CDecl)
    (fuel : Nat) (hfuel : pathLength d ≤ fuel) :
    resolveSteps t fuel d decl =
      (match walkDirectDeclaratorLoop t d decl with
        | .ok r => .ok (some (pathLength d, r))
        | .error e => .error e) ∧
    (∀ (fuel' n : Nat) (r : CDecl), resolveSteps t fuel' d decl = .ok (some (n, r)) →
      n = pathLength d ∧ r.Name = (leafToken d).S) ∧
    (∀ (next : Option cc.DirectDeclarator) (decl' : CDecl),
      walkDirectDeclarator t d decl = .ok (next, decl') →
      (next = none ↔ isIdentifier d = true) ∧
      decl'.Name = (if isIdentifier d then (leafToken d).S else decl.Name)) ∧
    (if noFunctionSuffix d then
      ∃ r, resolveSteps t fuel d decl = .ok (some (pathLength d, r)) ∧
        r.Name = (leafToken d).S
     else True) ∧
    (okValue (resolveSteps sampleTranslator 4 declaratorC18 { Spec := intSpec })).map
        (fun o => o.map (fun p => (p.1, p.2.Name))) = some (some (4, "f")) ∧
    (okValue (resolveSteps sampleTranslator 3 declaratorC18 { Spec := intSpec })).map
        (fun o => o.map (fun p => (p.1, p.2.Name))) = some none := by
  refine ⟨resolveSteps_eq_loop t fuel d decl hfuel, ?_, ?_, ?_, by decide, by decide⟩
  · intro fuel' n r h
    obtain ⟨h1, h2⟩ := resolveSteps_exact t fuel' d decl n r h
    exact ⟨h1, walkDirectDeclaratorLoop_Name t d decl r h2⟩
  · intro next decl' h
    have hs := walkDirectDeclarator_step t d decl decl' next h
    cases next with
    | none => simp [hs.1, hs.2.2]
    | some nx => simp [hs.1, hs.2.2.2]
  · split
    · rename_i hp
      obtain ⟨r, h1, _⟩ := walkDirectDeclaratorLoop_plain t d decl hp
      refine ⟨r, ?_, walkDirectDeclaratorLoop_Name t d decl r h1⟩
      rw [resolveSteps_eq_loop t fuel d decl hfuel, h1]
    · trivial

/-- C18 (witness): the theorem at the tree of `declaratorC18` with the bound 4. -/
theorem C18_witness :
    pathLength declaratorC18 ≤ 4 ∧
    resolveSteps sampleTranslator 4 declaratorC18 { Spec := intSpec } =
      (match walkDirectDeclaratorLoop sampleTranslator declaratorC18 { Spec := intSpec } with
        | .ok r => .ok (some (pathLength declaratorC18, r))
        | .error e => .error e) ∧
    pathLength declaratorC18 = 4 ∧ (leafToken declaratorC18).S = "f" :=
  ⟨by decide,
    (C18_resolution_loop_steps sampleTranslator declaratorC18 { Spec := intSpec } 4
      (by decide)).1,
    by decide, by decide⟩

/-! ### C20: parenthesized groups -/

/-- C20 (amended): one `walkDirectDeclarator` step on a parenthesized group
whose inner declarator has k >= 1 pointer markers sets the pointer depth of
the node to k mod 256 (the counter of `walkPointers` is a `uint8`), which is
k itself for k <= 255, whatever the depth d was before: the depth is
replaced, not added to.  With no pointer marker inside the depth stays d.
Name, descriptor and dimensions are unchanged (the position becomes that of
the token) and the step returns the direct declarator inside the parentheses.
For `T *(*p)` the resolved depth is 1. -/
theorem C20_group_step_replaces_depth (t : Translator) (tok : cc.Token) (p : cc.Pointer)
    (dd : cc.DirectDeclarator) (decl : CDecl) :
    walkDirectDeclarator t (.paren tok (.mk (some p) dd)) decl =
      .ok (some dd, { decl with Pos := tok.Pos, Pointers := pointerCount p % 256 }) ∧
    (if pointerCount p ≤ 255 then
      walkDirectDeclarator t (.paren tok (.mk (some p) dd)) decl =
        .ok (some dd, { decl with Pos := tok.Pos, Pointers := pointerCount p })
     else True) ∧
    walkDirectDeclarator t (.paren tok (.mk none dd)) decl =
      .ok (some dd, { decl with Pos := tok.Pos }) ∧
    (resultNode (walkInitDeclaratorList sampleTranslator declaratorC20 { Spec := intSpec })).map
        (fun n => (n.Name, n.Pointers)) = some ("p", 1) := by
  have h : walkDirectDeclarator t (.paren tok (.mk (some p) dd)) decl =
      .ok (some dd, { decl with Pos := tok.Pos, Pointers := pointerCount p % 256 }) := by
    simp only [walkDirectDeclarator, cc.DirectDeclarator.Token, cc.Declarator.PointerOpt,
      cc.Declarator.DirectDeclarator]
    rw [walkPointers_some]
  refine ⟨h, ?_, rfl, by decide⟩
  split
  · rename_i hle
    rw [h, Nat.mod_eq_of_lt (by omega)]
  · trivial

/-- C20 (counterexample): a step on a parenthesized group with 256 pointer
markers inside, on a node of depth 5, leaves the depth at 0, not 256. -/
theorem C20_counterexample_256 :
    pointerCount (pointerChain 255) = 256 ∧
    (resultNode (walkDirectDeclarator sampleTranslator
        (.paren ⟨0, "("⟩ (.mk (some (pointerChain 255)) (.ident ⟨257, "p"⟩)))
        { Spec := intSpec, Pointers := 5 })).map (fun n => n.Pointers) = some 0 ∧
    (resultNode (walkDirectDeclarator sampleTranslator
        (.paren ⟨0, "("⟩ (.mk (some (pointerChain 255)) (.ident ⟨257, "p"⟩)))
        { Spec := intSpec, Pointers := 5 })).map (fun n => n.Pointers) ≠ some 256 := by
  have h := pointerCount_pointerChain 255
  have hw : walkDirectDeclarator sampleTranslator
      (.paren ⟨0, "("⟩ (.mk (some (pointerChain 255)) (.ident ⟨257, "p"⟩)))
      { Spec := intSpec, Pointers := 5 } =
      .ok (some (.ident ⟨257, "p"⟩), { Spec := intSpec, Pos := 0, Pointers := 0 }) := by
    simp only [walkDirectDeclarator, cc.DirectDeclarator.Token, cc.Declarator.PointerOpt,
      cc.Declarator.DirectDeclarator]
    rw [walkPointers_some, h]
  rw [hw]
  exact ⟨h, rfl, by decide⟩

/-! ### The modifiers on the descriptor: return-type nodes -/

namespace onDescriptor

set_option maxHeartbeats 1600000

theorem walkDirectDeclaratorLoop_step (t : Translator) (declr : cc.DirectDeclarator)
    (decl : CDecl) :
    walkDirectDeclaratorLoop t declr decl =
      (walkDirectDeclarator t declr decl >>= fun r =>
        match r.1 with
        | none => .ok r.2
        | some next => walkDirectDeclaratorLoop t next r.2) := by
  cases declr with
  | ident tok => simp [walkDirectDeclaratorLoop, walkDirectDeclarator, cc.DirectDeclarator.Token]
  | paren tok d =>
    cases d with
    | mk popt dd =>
      simp [walkDirectDeclaratorLoop, walkDirectDeclarator, cc.DirectDeclarator.Token,
        cc.Declarator.PointerOpt, cc.Declarator.DirectDeclarator]
  | array tok dd ae => simp [walkDirectDeclaratorLoop, walkDirectDeclarator, cc.DirectDeclarator.Token]
  | arrayStatic tok dd ae =>
    simp [walkDirectDeclaratorLoop, walkDirectDeclarator, cc.DirectDeclarator.Token]
  | arrayQualStatic tok dd ae =>
    simp [walkDirectDeclaratorLoop, walkDirectDeclarator, cc.DirectDeclarator.Token]
  | arrayStar tok dd => simp [walkDirectDeclaratorLoop, walkDirectDeclarator, cc.DirectDeclarator.Token]
  | func tok dd dd2 =>
    simp only [walkDirectDeclaratorLoop, walkDirectDeclarator, cc.DirectDeclarator.Token]
    cases walkDirectDeclarator2 t dd2 (wrapFunction { decl with Pos := tok.Pos }) <;> rfl

theorem cleanNode_eq (d : CDecl) : cleanNode d = returnsClean d.Spec := by
  cases d
  rw [cleanNode]

theorem returnsClean_structSpec (s : CStructSpec) :
    returnsClean (.structSpec s) = cleanNodes s.Members := by
  cases s
  rw [returnsClean]

theorem returnsClean_functionSpec (f : CFunctionSpec) :
    returnsClean (.functionSpec f) =
      (returnsFresh f.Returns && returnsClean f.Returns.Spec && cleanNodes f.ParamList) := by
  cases f
  rw [returnsClean, cleanNode_eq]

theorem cleanNodes_append (a b : List CDecl) :
    cleanNodes (a ++ b) = (cleanNodes a && cleanNodes b) := by
  induction a with
  | nil => simp [cleanNodes]
  | cons x xs ih => simp [cleanNodes, ih, Bool.and_assoc]

theorem cleanNodes_singleton (d : CDecl) : cleanNodes [d] = returnsClean d.Spec := by
  simp [cleanNodes, cleanNode_eq]

theorem returnsClean_SetPointers (spec : CType) (n : Nat) :
    returnsClean (spec.SetPointers n) = returnsClean spec := by
  cases spec with
  | typeSpec s => simp [CType.SetPointers, returnsClean]
  | structSpec s => simp [CType.SetPointers, returnsClean_structSpec]
  | functionSpec f => simp [CType.SetPointers, returnsClean_functionSpec]

theorem returnsClean_AddArray (spec : CType) (val : String) :
    returnsClean (spec.AddArray val) = returnsClean spec := by
  cases spec with
  | typeSpec s => simp [CType.AddArray, returnsClean]
  | structSpec s => simp [CType.AddArray, returnsClean_structSpec]
  | functionSpec f => simp [CType.AddArray, returnsClean_functionSpec]

theorem walkPointers_clean (popt : Option cc.Pointer) (decl : CDecl) :
    returnsClean (walkPointers popt decl).Spec = returnsClean decl.Spec := by
  cases popt with
  | none => rfl
  | some p => exact returnsClean_SetPointers decl.Spec _

theorem addDimension_clean (t : Translator) (x y : Option cc.AssignmentExpression)
    (decl : CDecl) : returnsClean (addDimension t x y decl).Spec = returnsClean decl.Spec :=
  returnsClean_AddArray decl.Spec _

theorem returnsClean_wrapFunction (decl : CDecl) :
    returnsClean (wrapFunction decl).Spec = returnsClean decl.Spec := by
  simp [wrapFunction, returnsClean_functionSpec, returnsFresh, cleanNodes]

theorem setConst_clean (q : cc.TypeQualifier) (decl : CDecl)
    (h : returnsClean decl.Spec = true) : returnsClean (setConst q decl).Spec = true := by
  unfold setConst
  split
  · simp [returnsClean]
  · exact h

theorem walkTypeSpec_nonStruct_clean (t : Translator) (typeSpec : cc.TypeSpecifier)
    (decl decl' : CDecl) (hn : nonStruct typeSpec = true)
    (h : walkTypeSpec t typeSpec decl = .ok decl') : returnsClean decl'.Spec = true := by
  cases hs : decl.Spec with
  | typeSpec spec =>
    cases typeSpec <;> simp only [walkTypeSpec, hs, nonStruct, Except.ok.injEq] at h hn <;>
      first
        | (subst h; simp [returnsClean])
        | cases hn
  | structSpec s => cases typeSpec <;> simp [walkTypeSpec, hs, nonStruct] at h hn
  | functionSpec f => cases typeSpec <;> simp [walkTypeSpec, hs, nonStruct] at h hn

theorem walkSUSpecifier0_clean (su : cc.StructOrUnion) (identOpt : Option cc.Token)
    (decl decl' : CDecl) (h : walkSUSpecifier0 su identOpt decl = .ok decl') :
    ∃ s, decl'.Spec = .structSpec s ∧ s.Members = [] := by
  cases su <;> cases identOpt <;>
    simp only [walkSUSpecifier0, Except.ok.injEq] at h <;> subst h <;>
    exact ⟨_, rfl, rfl⟩

mutual

theorem walkDirectDeclaratorLoop_clean (t : Translator) :
    ∀ (dd : cc.DirectDeclarator) (decl decl' : CDecl),
      walkDirectDeclaratorLoop t dd decl = .ok decl' → returnsClean decl.Spec = true →
      returnsClean decl'.Spec = true
  | .ident tok, decl, decl', h, hc => by
    rw [walkDirectDeclaratorLoop] at h
    injection h with h
    subst h
    exact hc
  | .paren tok (.mk popt dd), decl, decl', h, hc => by
    rw [walkDirectDeclaratorLoop] at h
    exact walkDirectDeclaratorLoop_clean t dd _ decl' h (by rw [walkPointers_clean]; exact hc)
  | .array tok dd ae, decl, decl', h, hc => by
    rw [walkDirectDeclaratorLoop] at h
    exact walkDirectDeclaratorLoop_clean t dd _ decl' h (by rw [addDimension_clean]; exact hc)
  | .arrayStatic tok dd ae, decl, decl', h, hc => by
    rw [walkDirectDeclaratorLoop] at h
    exact walkDirectDeclaratorLoop_clean t dd _ decl' h (by rw [addDimension_clean]; exact hc)
  | .arrayQualStatic tok dd ae, decl, decl', h, hc => by
    rw [walkDirectDeclaratorLoop] at h
    exact walkDirectDeclaratorLoop_clean t dd _ decl' h (by rw [addDimension_clean]; exact hc)
  | .arrayStar tok dd, decl, decl', h, hc => by
    rw [walkDirectDeclaratorLoop] at h
    exact walkDirectDeclaratorLoop_clean t dd _ decl' h (by rw [addDimension_clean]; exact hc)
  | .func tok dd dd2, decl, decl', h, hc => by
    rw [walkDirectDeclaratorLoop] at h
    cases hw : walkDirectDeclarator2 t dd2 (wrapFunction { decl with Pos := tok.Pos }) with
    | error e => rw [hw] at h; cases h
    | ok d =>
      rw [hw] at h
      exact walkDirectDeclaratorLoop_clean t dd d decl' h
        (walkDirectDeclarator2_clean t dd2 _ d hw
          (by rw [returnsClean_wrapFunction]; exact hc))

theorem walkDirectDeclarator2_clean (t : Translator) :
    ∀ (dd2 : cc.DirectDeclarator2) (decl decl' : CDecl),
      walkDirectDeclarator2 t dd2 decl = .ok decl' → returnsClean decl.Spec = true →
      returnsClean decl'.Spec = true
  | .identifiers tok, decl, decl', h, hc => by
    rw [walkDirectDeclarator2] at h
    injection h with h
    subst h
    exact hc
  | .params tok list, decl, decl', h, hc => by
    rw [walkDirectDeclarator2] at h
    split at h
    · rename_i spec hs
      cases hw : walkParameterListLoop t list spec with
      | error e => rw [hw] at h; cases h
      | ok s =>
        rw [hw] at h
        injection h with h
        subst h
        exact walkParameterListLoop_clean t list spec s hw (by rw [← hs]; exact hc)
    · cases h

theorem walkParameterListLoop_clean (t : Translator) :
    ∀ (list : cc.ParameterList) (spec spec' : CFunctionSpec),
      walkParameterListLoop t list spec = .ok spec' →
      returnsClean (.functionSpec spec) = true → returnsClean (.functionSpec spec') = true
  | .mk tok declr none, spec, spec', h, hc => by
    rw [walkParameterListLoop] at h
    cases hw : walkParameterDeclaration t declr with
    | error e => rw [hw] at h; cases h
    | ok r =>
      rw [hw] at h
      have hp := walkParameterDeclaration_clean t declr r hw
      cases r with
      | none =>
        simp only [bind_ok_eq] at h
        injection h with h
        subst h
        exact hc
      | some p =>
        simp only [bind_ok_eq] at h
        injection h with h
        subst h
        rw [returnsClean_functionSpec] at hc ⊢
        simp only [Bool.and_eq_true] at hc ⊢
        refine ⟨hc.1, ?_⟩
        rw [cleanNodes_append, cleanNodes_singleton, hc.2, hp p rfl]
        rfl
  | .mk tok declr (some next), spec, spec', h, hc => by
    rw [walkParameterListLoop] at h
    cases hw : walkParameterDeclaration t declr with
    | error e => rw [hw] at h; cases h
    | ok r =>
      rw [hw] at h
      have hp := walkParameterDeclaration_clean t declr r hw
      cases r with
      | none =>
        simp only [bind_ok_eq] at h
        exact walkParameterListLoop_clean t next spec spec' h hc
      | some p =>
        simp only [bind_ok_eq] at h
        refine walkParameterListLoop_clean t next _ spec' h ?_
        rw [returnsClean_functionSpec] at hc ⊢
        simp only [Bool.and_eq_true] at hc ⊢
        refine ⟨hc.1, ?_⟩
        rw [cleanNodes_append, cleanNodes_singleton, hc.2, hp p rfl]
        rfl

theorem walkParameterDeclaration_clean (t : Translator) :
    ∀ (declr : cc.ParameterDeclaration) (r : Option CDecl),
      walkParameterDeclaration t declr = .ok r →
      ∀ p, r = some p → returnsClean p.Spec = true
  | .abstract specifiers, r, h, p, hp => by
    rw [walkParameterDeclaration] at h
    injection h with h
    subst h
    cases hp
  | .declarator specifiers (.mk popt dd), r, h, p, hp => by
    rw [walkParameterDeclaration] at h
    cases hs : walkDeclarationSpecLoop t specifiers { Spec := .typeSpec {} } with
    | error e => rw [hs] at h; cases h
    | ok base =>
      rw [hs] at h
      simp only [bind_ok_eq] at h
      cases hd : walkDirectDeclaratorLoop t dd (walkPointers popt base) with
      | error e => rw [hd] at h; cases h
      | ok node =>
        rw [hd] at h
        simp only [bind_ok_eq] at h
        injection h with h
        subst h
        injection hp with hp
        subst hp
        refine walkDirectDeclaratorLoop_clean t dd _ node hd ?_
        rw [walkPointers_clean]
        exact walkDeclarationSpecLoop_clean t specifiers _ base hs (by simp [returnsClean])

theorem walkDeclarationSpecLoop_clean (t : Translator) :
    ∀ (ds : cc.DeclarationSpecifiers) (decl decl' : CDecl),
      walkDeclarationSpecLoop t ds decl = .ok decl' → returnsClean decl.Spec = true →
      returnsClean decl'.Spec = true
  | .storageClass none, decl, decl', h, _ => by
    rw [walkDeclarationSpecLoop] at h
    cases h
  | .storageClass (some next), decl, decl', h, hc => by
    rw [walkDeclarationSpecLoop] at h
    exact walkDeclarationSpecLoop_clean t next decl decl' h hc
  | .typeSpecifier ts none, decl, decl', h, _ => by
    rw [walkDeclarationSpecLoop] at h
    exact walkTypeSpec_clean t ts decl decl' h
  | .typeSpecifier ts (some next), decl, decl', h, _ => by
    rw [walkDeclarationSpecLoop] at h
    cases hw : walkTypeSpec t ts decl with
    | error e => rw [hw] at h; cases h
    | ok d =>
      rw [hw] at h
      exact walkDeclarationSpecLoop_clean t next d decl' h (walkTypeSpec_clean t ts decl d hw)
  | .typeQualifier q none, decl, decl', h, hc => by
    rw [walkDeclarationSpecLoop] at h
    injection h with h
    subst h
    exact setConst_clean q decl hc
  | .typeQualifier q (some next), decl, decl', h, hc => by
    rw [walkDeclarationSpecLoop] at h
    exact walkDeclarationSpecLoop_clean t next _ decl' h (setConst_clean q decl hc)
  | .functionSpecifier tok opt, decl, decl', h, hc => by
    rw [walkDeclarationSpecLoop] at h
    injection h with h
    subst h
    exact hc

theorem walkTypeSpec_clean (t : Translator) :
    ∀ (ts : cc.TypeSpecifier) (decl decl' : CDecl),
      walkTypeSpec t ts decl = .ok decl' → returnsClean decl'.Spec = true
  | .structOrUnion su, decl, decl', h => by
    rw [walkTypeSpec] at h
    split at h
    · exact walkSUSpecifier_clean t su decl decl' h
    · cases h
  | .void, decl, decl', h => walkTypeSpec_nonStruct_clean t cc.TypeSpecifier.void decl decl' rfl h
  | .char, decl, decl', h => walkTypeSpec_nonStruct_clean t cc.TypeSpecifier.char decl decl' rfl h
  | .short, decl, decl', h => walkTypeSpec_nonStruct_clean t cc.TypeSpecifier.short decl decl' rfl h
  | .int, decl, decl', h => walkTypeSpec_nonStruct_clean t cc.TypeSpecifier.int decl decl' rfl h
  | .long, decl, decl', h => walkTypeSpec_nonStruct_clean t cc.TypeSpecifier.long decl decl' rfl h
  | .float, decl, decl', h => walkTypeSpec_nonStruct_clean t cc.TypeSpecifier.float decl decl' rfl h
  | .double, decl, decl', h => walkTypeSpec_nonStruct_clean t cc.TypeSpecifier.double decl decl' rfl h
  | .signed, decl, decl', h => walkTypeSpec_nonStruct_clean t cc.TypeSpecifier.signed decl decl' rfl h
  | .unsigned, decl, decl', h => walkTypeSpec_nonStruct_clean t cc.TypeSpecifier.unsigned decl decl' rfl h
  | .bool, decl, decl', h => walkTypeSpec_nonStruct_clean t cc.TypeSpecifier.bool decl decl' rfl h
  | .complex, decl, decl', h => walkTypeSpec_nonStruct_clean t cc.TypeSpecifier.complex decl decl' rfl h
  | .enum, decl, decl', h => walkTypeSpec_nonStruct_clean t cc.TypeSpecifier.enum decl decl' rfl h
  | .typedefName tok, decl, decl', h => walkTypeSpec_nonStruct_clean t (cc.TypeSpecifier.typedefName tok) decl decl' rfl h

theorem walkSUSpecifier_clean (t : Translator) :
    ∀ (su : cc.StructOrUnionSpecifier) (decl decl' : CDecl),
      walkSUSpecifier t su decl = .ok decl' → returnsClean decl'.Spec = true
  | .reference .Struct tok, decl, decl', h => by
    rw [walkSUSpecifier] at h
    injection h with h
    subst h
    simp [returnsClean_structSpec, cleanNodes]
  | .reference .Union tok, decl, decl', h => by
    rw [walkSUSpecifier] at h
    injection h with h
    subst h
    simp [returnsClean_structSpec, cleanNodes]
  | .withMembers kw identOpt list, decl, decl', h => by
    rw [walkSUSpecifier] at h
    cases h0 : walkSUSpecifier0 kw identOpt decl with
    | error e => rw [h0] at h; cases h
    | ok d =>
      rw [h0] at h
      simp only [bind_ok_eq] at h
      obtain ⟨s, hs, hm⟩ := walkSUSpecifier0_clean kw identOpt decl d h0
      rw [hs] at h
      simp only at h
      cases hl : walkStructDeclarationListLoop t list s with
      | error e => rw [hl] at h; cases h
      | ok s' =>
        rw [hl] at h
        simp only [bind_ok_eq] at h
        injection h with h
        subst h
        rw [returnsClean_structSpec]
        exact walkStructDeclarationListLoop_clean t list s s' hl (by rw [hm]; rfl)

theorem walkStructDeclarationListLoop_clean (t : Translator) :
    ∀ (list : cc.StructDeclarationList) (s s' : CStructSpec),
      walkStructDeclarationListLoop t list s = .ok s' → cleanNodes s.Members = true →
      cleanNodes s'.Members = true
  | .mk declr none, s, s', h, hc => by
    rw [walkStructDeclarationListLoop] at h
    cases hw : walkStructDeclaration t declr with
    | error e => rw [hw] at h; cases h
    | ok ns =>
      rw [hw] at h
      simp only [bind_ok_eq] at h
      injection h with h
      subst h
      show cleanNodes (s.Members ++ ns) = true
      rw [cleanNodes_append, hc, walkStructDeclaration_clean t declr ns hw]
      rfl
  | .mk declr (some next), s, s', h, hc => by
    rw [walkStructDeclarationListLoop] at h
    cases hw : walkStructDeclaration t declr with
    | error e => rw [hw] at h; cases h
    | ok ns =>
      rw [hw] at h
      simp only [bind_ok_eq] at h
      refine walkStructDeclarationListLoop_clean t next _ s' h ?_
      show cleanNodes (s.Members ++ ns) = true
      rw [cleanNodes_append, hc, walkStructDeclaration_clean t declr ns hw]
      rfl

theorem walkStructDeclaration_clean (t : Translator) :
    ∀ (declr : cc.StructDeclaration) (ns : List CDecl),
      walkStructDeclaration t declr = .ok ns → cleanNodes ns = true
  | .mk specifiers none, ns, h => by
    rw [walkStructDeclaration] at h
    cases hw : walkSpecifierQualifierListLoop t specifiers { Spec := .typeSpec {} } with
    | error e => rw [hw] at h; cases h
    | ok refDecl => rw [hw] at h; cases h
  | .mk specifiers (some list), ns, h => by
    rw [walkStructDeclaration] at h
    cases hw : walkSpecifierQualifierListLoop t specifiers { Spec := .typeSpec {} } with
    | error e => rw [hw] at h; cases h
    | ok refDecl =>
      rw [hw] at h
      simp only [bind_ok_eq] at h
      exact walkStructDeclaratorListLoop_clean t list refDecl [] ns h
        (walkSpecifierQualifierListLoop_clean t specifiers _ refDecl hw
          (by simp [returnsClean])) rfl

theorem walkSpecifierQualifierListLoop_clean (t : Translator) :
    ∀ (sq : cc.SpecifierQualifierList) (decl decl' : CDecl),
      walkSpecifierQualifierListLoop t sq decl = .ok decl' → returnsClean decl.Spec = true →
      returnsClean decl'.Spec = true
  | .typeSpecifier ts none, decl, decl', h, _ => by
    rw [walkSpecifierQualifierListLoop] at h
    exact walkTypeSpec_clean t ts decl decl' h
  | .typeSpecifier ts (some next), decl, decl', h, _ => by
    rw [walkSpecifierQualifierListLoop] at h
    cases hw : walkTypeSpec t ts decl with
    | error e => rw [hw] at h; cases h
    | ok d =>
      rw [hw] at h
      exact walkSpecifierQualifierListLoop_clean t next d decl' h
        (walkTypeSpec_clean t ts decl d hw)
  | .typeQualifier q none, decl, decl', h, hc => by
    rw [walkSpecifierQualifierListLoop] at h
    injection h with h
    subst h
    exact setConst_clean q decl hc
  | .typeQualifier q (some next), decl, decl', h, hc => by
    rw [walkSpecifierQualifierListLoop] at h
    exact walkSpecifierQualifierListLoop_clean t next _ decl' h (setConst_clean q decl hc)

theorem walkStructDeclaratorListLoop_clean (t : Translator) :
    ∀ (list : cc.StructDeclaratorList) (refDecl : CDecl) (acc ns : List CDecl),
      walkStructDeclaratorListLoop t refDecl list acc = .ok ns →
      returnsClean refDecl.Spec = true → cleanNodes acc = true → cleanNodes ns = true
  | .mk d none, refDecl, acc, ns, h, hr, ha => by
    rw [walkStructDeclaratorListLoop] at h
    cases hw : walkStructDeclarator t d { Spec := refDecl.Spec.Copy } with
    | error e => rw [hw] at h; cases h
    | ok node =>
      rw [hw] at h
      simp only [bind_ok_eq] at h
      injection h with h
      subst h
      rw [cleanNodes_append, ha, cleanNodes_singleton,
        walkStructDeclarator_clean t d _ node hw hr]
      rfl
  | .mk d (some next), refDecl, acc, ns, h, hr, ha => by
    rw [walkStructDeclaratorListLoop] at h
    cases hw : walkStructDeclarator t d { Spec := refDecl.Spec.Copy } with
    | error e => rw [hw] at h; cases h
    | ok node =>
      rw [hw] at h
      simp only [bind_ok_eq] at h
      refine walkStructDeclaratorListLoop_clean t next refDecl _ ns h hr ?_
      rw [cleanNodes_append, ha, cleanNodes_singleton,
        walkStructDeclarator_clean t d _ node hw hr]
      rfl

theorem walkStructDeclarator_clean (t : Translator) :
    ∀ (d : cc.StructDeclarator) (decl decl' : CDecl),
      walkStructDeclarator t d decl = .ok decl' → returnsClean decl.Spec = true →
      returnsClean decl'.Spec = true
  | .bitField tok opt, decl, decl', h, hc => by
    rw [walkStructDeclarator] at h
    injection h with h
    subst h
    exact hc
  | .declarator (.mk popt dd), decl, decl', h, hc => by
    rw [walkStructDeclarator] at h
    exact walkDirectDeclaratorLoop_clean t dd _ decl' h (by rw [walkPointers_clean]; exact hc)

end

/-- C1: for the declarator `(*f(void))[3]` over base `int`, with any
evaluator, `walkInitDeclaratorList` produces a node named f whose descriptor
is a Function descriptor, without parameters and without modifiers of its own,
and whose return-type node carries the descriptor `int` with pointer depth 1
and exactly one array dimension, the rendering of `3`: the array suffix and
the pointer marker of the group are walked before the function suffix, on the
descriptor that the function suffix then hands to the return-type node.  With
the sample evaluator the dimension is "3". -/
theorem C1_function_returning_pointer_to_array (t : Translator) :
    walkInitDeclaratorList t declaratorC1 { Spec := intSpec } =
      .ok (none,
        { Spec := .functionSpec
            { Returns :=
                { Spec := .typeSpec
                    { Base := "int"
                      Pointers := 1
                      Arrays := [t.ExpandAssignmentExpression (some ⟨⟨15, "3"⟩⟩)] }
                  Pos := 7 }
              ParamList := []
              Pointers := 0
              Arrays := [] }
          Name := "f"
          Pos := 6 }) ∧
    ((resultNode (walkInitDeclaratorList sampleTranslator declaratorC1 { Spec := intSpec })).bind
        returnsNode).map (fun r => (baseOf r, r.Pointers, r.Arrays)) =
      some (some "int", 1, ["3"]) ∧
    (resultNode (walkInitDeclaratorList sampleTranslator declaratorC1 { Spec := intSpec })).map
        (fun n => (n.Name, (returnsNode n).isSome, n.Pointers, n.Arrays)) =
      some ("f", true, 0, []) :=
  ⟨rfl, rfl, rfl⟩

end onDescriptor

end translator
